import Mathlib

/-!
ProdMax productivity bot: focus-timer scheduler, streak engine and XP accounting.

A shallow embedding of `src/services/pomodoroService.js`, `src/services/habitService.js`
and `src/services/userService.js`, with the tables declared in `src/config/database.js`;
of `completeTask` (`src/services/taskService.js`), `updateGoalProgress`
(`src/services/careerService.js`) and the keyboard of `sendMessage`
(`src/services/maxApi.js`); and of `handleMessage`, `handleStart`, `handleTasks` and
`handlePomodoro` (`src/handlers/messageHandler.js`).

Conventions of the embedding.

* Instants (`Date.now()`, `CURRENT_TIMESTAMP`, JS `Date` values) are integers: milliseconds
  since the epoch.  Every operation that reads the clock takes the instant as an argument.
* JS numbers that hold ids, XP, levels and durations are mathematical integers.  The
  number `parseInt` returns is a double: the integer read is rounded to the nearest double
  and printed as `toString` prints a double (section Numbers).
* The zone of the process is a `Zone`: an offset from UTC and its changes (daylight-saving
  time); `fixedZone` is a zone without changes.
* The relational store is a record of tables (lists of rows).  A `db.query` call is one
  atomic function on that record; it fails only where the schema makes it fail
  (a foreign key that points nowhere).  A lost connection is not modelled, nor is the
  32-bit range of the `INTEGER` columns.
* An `async` function is first run to completion as one step: it returns the world it
  leaves behind together with either its result or the exception it threw, so the writes
  made before a `throw` stay visible.  The section on the event loop at the grain of `await`
  then splits the calls at their awaited queries, lets other calls run in between, and lets
  a query fail.
* `activeTimers` (a JS `Map`) is an association list in insertion order; the timers created
  by `setTimeout` and not yet fired or cleared are a list of pending timers, each armed for
  the instant Node arms it for (a delay below 1 or above `2 ^ 31 - 1` ms becomes 1 ms).
-/

/-! ## Tables (src/config/database.js) -/

/-- Row of `users` (the columns the services read and write). -/
structure UserRow where
  id : Int
  xp : Int
  level : Int
deriving DecidableEq, Repr

/-- Row of `tasks` (the columns the services read and write). -/
structure TaskRow where
  id : Int
  user_id : Int
  status : String
  completed_at : Option Int
deriving DecidableEq, Repr

/-- Row of `pomodoro_sessions`. -/
structure PomodoroSession where
  id : Int
  user_id : Int
  task_id : Option Int
  duration : Int
  completed : Bool
  started_at : Int
  completed_at : Option Int
deriving DecidableEq, Repr

/-- Row of `habits`.  `streak` and `best_streak` are nullable columns. -/
structure HabitRow where
  id : Int
  user_id : Int
  name : List Char
  streak : Option Int
  best_streak : Option Int
  active : Bool
deriving DecidableEq, Repr

/-- Row of `habit_tracking`.  `date` is a calendar day (days since the epoch), the value of
a Postgres `DATE`. -/
structure TrackingRow where
  habit_id : Int
  user_id : Int
  date : Int
  completed : Bool
deriving DecidableEq, Repr

/-- The persisted store: the tables and the `SERIAL` sequence of `pomodoro_sessions`. -/
structure Db where
  users : List UserRow
  tasks : List TaskRow
  pomodoro_sessions : List PomodoroSession
  pomodoro_seq : Int
  habits : List HabitRow
  habit_tracking : List TrackingRow
deriving DecidableEq, Repr

/-! ## In-process state (src/services/pomodoroService.js) -/

/-- Value stored in `activeTimers` for one user. -/
structure TimerEntry where
  sessionId : Int
  timerId : Nat
  endTime : Int
deriving DecidableEq, Repr

/-- A `setTimeout` that has been scheduled and has neither fired nor been cleared.  The
callback of `startPomodoro` closes over `session.id` and `userId`. -/
structure PendingTimer where
  timerId : Nat
  sessionId : Int
  userId : Int
  fireAt : Int
deriving DecidableEq, Repr

/-- The whole state the services act on. -/
structure World where
  db : Db
  activeTimers : List (Int × TimerEntry)
  pending : List PendingTimer
  timerSeq : Nat
deriving DecidableEq, Repr

/-- Outcome of running an `async` function: a returned value or a thrown error message. -/
inductive Outcome (α : Type) where
  | returned (value : α)
  | thrown (message : String)
deriving DecidableEq, Repr

/-! ### The `Map` operations used on `activeTimers` -/

/-- `activeTimers.get(userId)`. -/
def mapGet (m : List (Int × TimerEntry)) (userId : Int) : Option TimerEntry :=
  (m.find? (fun kv => kv.1 == userId)).map (fun kv => kv.2)

/-- `activeTimers.has(userId)`. -/
def mapHas (m : List (Int × TimerEntry)) (userId : Int) : Bool :=
  (mapGet m userId).isSome

/-- `activeTimers.delete(userId)`. -/
def mapDelete (m : List (Int × TimerEntry)) (userId : Int) : List (Int × TimerEntry) :=
  m.filter (fun kv => !(kv.1 == userId))

/-- `activeTimers.set(userId, entry)`: replaces the value of an existing key in place,
appends a new key. -/
def mapSet : List (Int × TimerEntry) → Int → TimerEntry → List (Int × TimerEntry)
  | [], userId, e => [(userId, e)]
  | kv :: rest, userId, e =>
    if kv.1 == userId then (userId, e) :: rest else kv :: mapSet rest userId e

/-! ### userService.addXP -/

/-- The record `addXP` returns. -/
structure XpResult where
  newXP : Int
  newLevel : Int
  leveledUp : Bool
  xpGained : Int
deriving DecidableEq, Repr

/-- `SELECT xp, level FROM users WHERE id = $1`, first row. -/
def selectUser (db : Db) (userId : Int) : Option UserRow :=
  db.users.find? (fun u => u.id == userId)

/-- `UPDATE users SET xp = $1, level = $2 WHERE id = $3`. -/
def updateUserXp (db : Db) (newXP newLevel userId : Int) : Db :=
  { db with users := db.users.map (fun u =>
      if u.id == userId then { u with xp := newXP, level := newLevel } else u) }

/-- `Math.floor(a / b)` on integers. -/
def mathFloorDiv (a b : Int) : Int := Int.fdiv a b

/-- `addXP(userId, xpAmount)`. -/
def addXP (db : Db) (userId xpAmount : Int) : Db × Outcome XpResult :=
  match selectUser db userId with
  | none => (db, .thrown "Пользователь не найден")
  | some user =>
    let currentXP := user.xp
    let currentLevel := user.level
    let newXP := currentXP + xpAmount
    let newLevel := mathFloorDiv newXP 100 + 1
    let leveledUp := decide (newLevel > currentLevel)
    (updateUserXp db newXP newLevel userId,
      .returned { newXP := newXP, newLevel := newLevel, leveledUp := leveledUp,
                  xpGained := xpAmount })

/-! ### pomodoroService -/

/-- What `startPomodoro` returns: the object with an `error` field, or the inserted row. -/
inductive StartResult where
  | error (message : String)
  | session (row : PomodoroSession)
deriving DecidableEq, Repr

/-- What `stopPomodoro` returns: the object with an `error` field or the one with a
`message` field. -/
inductive StopResult where
  | error (message : String)
  | message (text : String)
deriving DecidableEq, Repr

/-- `taskId || null`: `0` is falsy. -/
def orNull (taskId : Option Int) : Option Int :=
  match taskId with
  | some 0 => none
  | t => t

/-- `INSERT INTO pomodoro_sessions (user_id, task_id, duration, completed, started_at)
VALUES ($1, $2, $3, false, CURRENT_TIMESTAMP) RETURNING *`.  The id comes from the
`SERIAL` sequence, which advances even when the row is refused; the row is refused when
`user_id` or a non-null `task_id` references no row. -/
def insertSession (db : Db) (now userId : Int) (taskId : Option Int) (duration : Int) :
    Db × Option PomodoroSession :=
  let row : PomodoroSession :=
    { id := db.pomodoro_seq, user_id := userId, task_id := taskId, duration := duration,
      completed := false, started_at := now, completed_at := none }
  let userOk := db.users.any (fun u => u.id == userId)
  let taskOk := match taskId with
    | none => true
    | some t => db.tasks.any (fun k => k.id == t)
  if userOk && taskOk then
    ({ db with pomodoro_sessions := db.pomodoro_sessions ++ [row],
               pomodoro_seq := db.pomodoro_seq + 1 }, some row)
  else
    ({ db with pomodoro_seq := db.pomodoro_seq + 1 }, none)

/-- The delay `setTimeout(callback, ms)` arms the timer with: Node sets a delay that is
below 1 or above `2 ^ 31 - 1` to 1 millisecond. -/
def timeoutDelay (ms : Int) : Int :=
  if 1 ≤ ms ∧ ms ≤ 2147483647 then ms else 1

/-- `startPomodoro(userId, taskId = null, duration = 25)` at instant `now`.  The timer is
pending for the instant `setTimeout` arms it for; `endTime` is computed from the duration
itself. -/
def startPomodoro (w : World) (now userId : Int) (taskId : Option Int := none)
    (duration : Int := 25) : World × Outcome StartResult :=
  if mapHas w.activeTimers userId then
    (w, .returned (.error "У вас уже есть активная Pomodoro сессия!"))
  else
    match insertSession w.db now userId (orNull taskId) duration with
    | (db1, none) => ({ w with db := db1 }, .thrown "insert or update violates foreign key constraint")
    | (db1, some session) =>
      let timerId := w.timerSeq
      let timer : PendingTimer :=
        { timerId := timerId, sessionId := session.id, userId := userId,
          fireAt := now + timeoutDelay (duration * 60 * 1000) }
      let entry : TimerEntry :=
        { sessionId := session.id, timerId := timerId,
          endTime := now + duration * 60 * 1000 }
      ({ db := db1, activeTimers := mapSet w.activeTimers userId entry,
         pending := w.pending ++ [timer], timerSeq := w.timerSeq + 1 },
        .returned (.session session))

/-- `UPDATE pomodoro_sessions SET completed = true, completed_at = CURRENT_TIMESTAMP
WHERE id = $1 AND user_id = $2 RETURNING *`: the new table and the rows returned. -/
def updateSessionCompleted (db : Db) (now sessionId userId : Int) :
    Db × List PomodoroSession :=
  let hit := fun (s : PomodoroSession) => s.id == sessionId && s.user_id == userId
  let upd := fun (s : PomodoroSession) =>
    { s with completed := true, completed_at := some now }
  ({ db with pomodoro_sessions :=
      db.pomodoro_sessions.map (fun s => if hit s then upd s else s) },
    (db.pomodoro_sessions.filter hit).map upd)

/-- `completePomodoro(sessionId, userId)` at instant `now`; returns `result.rows[0]`. -/
def completePomodoro (db : Db) (now sessionId userId : Int) :
    Db × Outcome (Option PomodoroSession) :=
  match updateSessionCompleted db now sessionId userId with
  | (db1, rows) =>
    if rows.length > 0 then
      match addXP db1 userId 15 with
      | (db2, .thrown e) => (db2, .thrown e)
      | (db2, .returned _) => (db2, .returned rows.head?)
    else
      (db1, .returned rows.head?)

/-- `clearTimeout(timerId)`. -/
def clearTimeout (pending : List PendingTimer) (timerId : Nat) : List PendingTimer :=
  pending.filter (fun t => !(t.timerId == timerId))

/-- `UPDATE pomodoro_sessions SET completed = false WHERE id = $1`. -/
def updateSessionNotCompleted (db : Db) (sessionId : Int) : Db :=
  { db with pomodoro_sessions :=
      db.pomodoro_sessions.map (fun s =>
        if s.id == sessionId then { s with completed := false } else s) }

/-- `stopPomodoro(userId)`. -/
def stopPomodoro (w : World) (userId : Int) : World × Outcome StopResult :=
  match mapGet w.activeTimers userId with
  | none => (w, .returned (.error "У вас нет активной Pomodoro сессии"))
  | some timer =>
    ({ db := updateSessionNotCompleted w.db timer.sessionId,
       activeTimers := mapDelete w.activeTimers userId,
       pending := clearTimeout w.pending timer.timerId,
       timerSeq := w.timerSeq },
      .returned (.message "Pomodoro сессия остановлена"))

/-- The callback given to `setTimeout` in `startPomodoro`:
`await completePomodoro(session.id, userId); activeTimers.delete(userId)`.
When `completePomodoro` throws, the `delete` is not reached. -/
def timerCallback (w : World) (now sessionId userId : Int) : World × Outcome Unit :=
  match completePomodoro w.db now sessionId userId with
  | (db1, .thrown e) => ({ w with db := db1 }, .thrown e)
  | (db1, .returned _) =>
    ({ w with db := db1, activeTimers := mapDelete w.activeTimers userId }, .returned ())

/-- The record `getActivePomodoro` returns. -/
structure ActiveInfo where
  sessionId : Int
  remaining : Int
  remainingMinutes : Int
  remainingSeconds : Int
deriving DecidableEq, Repr

/-- `getActivePomodoro(userId)` at instant `now` (`null` is `none`), in the same
state-passing form as the other operations: the world it leaves behind and its result.
The body has no statement that writes `activeTimers`, a timer or the store.  The
`formatted` string is left out of the record. -/
def getActivePomodoro (w : World) (now userId : Int) : World × Option ActiveInfo :=
  match mapGet w.activeTimers userId with
  | none => (w, none)
  | some timer =>
    let remaining := max 0 (timer.endTime - now)
    let remainingMinutes := mathFloorDiv remaining 60000
    let remainingSeconds := mathFloorDiv (remaining % 60000) 1000
    (w, some { sessionId := timer.sessionId, remaining := remaining,
               remainingMinutes := remainingMinutes, remainingSeconds := remainingSeconds })

/-! ### The event loop: start, stop and timer expiry as atomic steps -/

/-- Expiry of the pending timer `t` at instant `now`: the timer leaves the pending set and
its callback runs. -/
def fireTimer (w : World) (now : Int) (t : PendingTimer) : World × Outcome Unit :=
  timerCallback { w with pending := clearTimeout w.pending t.timerId } now t.sessionId t.userId

/-- The steps of the scheduler. -/
inductive SchedulerAction where
  | start (now userId : Int) (taskId : Option Int) (duration : Int)
  | stop (userId : Int)
  | expire (now : Int) (timerId : Nat)
deriving DecidableEq, Repr

/-- One step.  `expire` is enabled only for a timer that is still pending; the instant at
which it fires is free (a timer fires at its instant or later), so the runs of this relation
include every timing.  `advanceTo` below fires the timers in the order of their instants. -/
def step (w : World) : SchedulerAction → Option World
  | .start now userId taskId duration => some (startPomodoro w now userId taskId duration).1
  | .stop userId => some (stopPomodoro w userId).1
  | .expire now timerId =>
    match w.pending.find? (fun t => t.timerId == timerId) with
    | none => none
    | some t => some (fireTimer w now t).1

/-- A sequence of steps; `none` when one of them is not enabled. -/
def run (w : World) : List SchedulerAction → Option World
  | [] => some w
  | a :: rest =>
    match step w a with
    | none => none
    | some w1 => run w1 rest

/-- A freshly started process: no registry entry, no timer; the store holds any users and
tasks and the session rows of earlier runs, whose ids the sequence has passed. -/
def InitialWorld (w : World) : Prop :=
  w.activeTimers = [] ∧ w.pending = [] ∧ w.timerSeq = 0 ∧
  ∀ s ∈ w.db.pomodoro_sessions, s.id < w.db.pomodoro_seq

instance (w : World) : Decidable (InitialWorld w) := by
  unfold InitialWorld; infer_instance

/-! ## habitService -/

/-- Milliseconds in a day: `1000 * 60 * 60 * 24`. -/
def msPerDay : Int := 1000 * 60 * 60 * 24

/-- The time zone of the process (`TZ`): the offset from UTC in force at first, in
milliseconds east of UTC, and the changes of offset, oldest first, each with the instant at
which it takes effect and the offset from then on.  A zone without changes has one fixed
offset; a zone with daylight-saving time changes twice a year. -/
structure Zone where
  base : Int
  transitions : List (Int × Int)
deriving DecidableEq, Repr

/-- The zone with the fixed offset `tz`. -/
def fixedZone (tz : Int) : Zone := { base := tz, transitions := [] }

/-- The offset in force at the instant `t`, given the offset `o` in force before the listed
changes. -/
def offsetFrom (o : Int) : List (Int × Int) → Int → Int
  | [], _ => o
  | (start, o1) :: rest, t => if t < start then o else offsetFrom o1 rest t

/-- The offset by which a local time value `lt` is turned into an instant.  A local time
that a change skips or repeats is read with the offset in force before the change. -/
def localOffsetFrom (o : Int) : List (Int × Int) → Int → Int
  | [], _ => o
  | (start, o1) :: rest, lt =>
    if lt < start + max o o1 then o else localOffsetFrom o1 rest lt

/-- The offset of the zone at the instant `t`. -/
def offsetAt (z : Zone) (t : Int) : Int := offsetFrom z.base z.transitions t

/-- The offset of the zone for the local time value `lt`. -/
def localOffsetAt (z : Zone) (lt : Int) : Int := localOffsetFrom z.base z.transitions lt

/-- `d.setHours(0, 0, 0, 0)`: the instant of local midnight of the local day that holds the
instant `t`.  The local time of `t` is cut down to the start of its day and read back as an
instant with the offset in force at that local midnight. -/
def setHoursZero (z : Zone) (t : Int) : Int :=
  let localTime := t + offsetAt z t
  let midnight := localTime - localTime % msPerDay
  midnight - localOffsetAt z midnight

/-- The local calendar day (days since the epoch) that holds the instant `t`. -/
def localDay (z : Zone) (t : Int) : Int := mathFloorDiv (t + offsetAt z t) msPerDay

/-- Element of `tracking.rows`: `date` is the instant of the JS `Date` the driver built for
the `DATE` column. -/
structure TrackingRecord where
  date : Int
  completed : Bool
deriving DecidableEq, Repr

/-- The `for` loop of `updateHabitStreak`, from index `i` with the counter at `streak`;
`today` is `new Date()` after `setHours(0, 0, 0, 0)`. -/
def streakLoop (z : Zone) (today : Int) : List TrackingRecord → Nat → Int → Int
  | [], _, streak => streak
  | record :: rest, i, streak =>
    if !record.completed then streak
    else
      let recordDate := setHoursZero z record.date
      let daysDiff := mathFloorDiv (today - recordDate) (1000 * 60 * 60 * 24)
      if daysDiff = (i : Int) then streakLoop z today rest (i + 1) (streak + 1)
      else streak

/-- Lines 171 to 192 of `updateHabitStreak`: the streak of the rows at instant `now`. -/
def computeStreak (z : Zone) (now : Int) (rows : List TrackingRecord) : Int :=
  streakLoop z (setHoursZero z now) rows 0 0

/-- The driver's reading of a `DATE` column: a JS `Date` at local midnight of that calendar
day. -/
def pgDate (z : Zone) (day : Int) : Int :=
  day * msPerDay - localOffsetAt z (day * msPerDay)

/-- `SELECT date, completed FROM habit_tracking WHERE habit_id = $1 AND user_id = $2
ORDER BY date DESC`, as the rows the driver hands over. -/
def selectTracking (db : Db) (z : Zone) (habitId userId : Int) : List TrackingRecord :=
  ((db.habit_tracking.filter (fun r => r.habit_id == habitId && r.user_id == userId)).insertionSort
      (fun a b => b.date ≤ a.date)).map
    (fun r => { date := pgDate z r.date, completed := r.completed })

/-- `habit.rows[0]?.best_streak || 0`: `null` and `0` give `0`. -/
def orZero (v : Option Int) : Int :=
  match v with
  | none => 0
  | some n => n

/-- `UPDATE habits SET streak = $1, best_streak = GREATEST($1, COALESCE($2, 0))
WHERE id = $3 AND user_id = $4`. -/
def updateHabitCounters (db : Db) (streak bestStreak habitId userId : Int) : Db :=
  { db with habits := db.habits.map (fun h =>
      if h.id == habitId && h.user_id == userId then
        { h with streak := some streak, best_streak := some (max streak bestStreak) }
      else h) }

/-- `updateHabitStreak(habitId, userId)` at instant `now`; `habitId` is an integer, on which
`parseInt` is the identity. -/
def updateHabitStreak (db : Db) (z : Zone) (now habitId userId : Int) : Db × Outcome Int :=
  let tracking := selectTracking db z habitId userId
  let streak := computeStreak z now tracking
  match db.habits.find? (fun h => h.id == habitId && h.user_id == userId) with
  | none => (db, .thrown "Привычка не найдена при обновлении streak")
  | some habit =>
    let bestStreak := orZero habit.best_streak
    (updateHabitCounters db streak bestStreak habitId userId, .returned streak)

/-! ### The argument of markHabitComplete -/

/-- The JS values `markHabitComplete` is called with: nothing (`undefined` or `null`), an
integer number, or a string. -/
inductive HabitArg where
  | missing
  | num (n : Int)
  | str (s : List Char)
deriving DecidableEq, Repr

/-- White space and line terminators, as `String.prototype.trim` and `parseInt` skip them. -/
def isJsSpace (c : Char) : Bool :=
  let n := c.toNat
  n == 0x09 || n == 0x0A || n == 0x0B || n == 0x0C || n == 0x0D || n == 0x20 || n == 0xA0 ||
  n == 0x1680 || (0x2000 ≤ n && n ≤ 0x200A) || n == 0x2028 || n == 0x2029 || n == 0x202F ||
  n == 0x205F || n == 0x3000 || n == 0xFEFF

/-- `s.trim()`. -/
def jsTrim (s : List Char) : List Char :=
  ((s.dropWhile isJsSpace).reverse.dropWhile isJsSpace).reverse

/-- `n.toString()` for an integer number: its canonical decimal rendering. -/
def jsNumToString (n : Int) : List Char :=
  match n with
  | Int.ofNat k => Nat.toDigits 10 k
  | Int.negSucc k => '-' :: Nat.toDigits 10 (k + 1)

/-- The value of a digit in the given radix, if the character is one. -/
def digitValue (radix : Nat) (c : Char) : Option Nat :=
  let n := c.toNat
  let v := if 48 ≤ n && n ≤ 57 then some (n - 48)
    else if 97 ≤ n && n ≤ 122 then some (n - 97 + 10)
    else if 65 ≤ n && n ≤ 90 then some (n - 65 + 10)
    else none
  match v with
  | some d => if d < radix then some d else none
  | none => none

/-- The number read from the longest run of digits at the front of `s`, starting from the
accumulator `acc`; `seen` tells whether a digit has been read. -/
def readDigits (radix : Nat) : List Char → Nat → Bool → Option Nat
  | [], acc, seen => if seen then some acc else none
  | c :: rest, acc, seen =>
    match digitValue radix c with
    | some d => readDigits radix rest (acc * radix + d) true
    | none => if seen then some acc else none

/-- The integer `parseInt(s)` reads, with no radix argument (`none` when it reads none and
the result is `NaN`): leading white space, an optional sign, an optional `0x` or `0X` that
selects radix 16, then the longest run of digits.  The result of `parseInt` is the Number
value of this integer (`numberValue`). -/
def jsParseIntStr (s : List Char) : Option Int :=
  let s1 := s.dropWhile isJsSpace
  let (neg, s2) := match s1 with
    | '-' :: r => (true, r)
    | '+' :: r => (false, r)
    | r => (false, r)
  let (radix, s3) := match s2 with
    | '0' :: 'x' :: r => (16, r)
    | '0' :: 'X' :: r => (16, r)
    | r => (10, r)
  match readDigits radix s3 0 false with
  | none => none
  | some k => some (if neg then - (k : Int) else (k : Int))

/-! ### Numbers

`parseInt` returns a Number: a double.  Up to `2 ^ 53` every integer is a double; beyond,
the integer read is rounded to the nearest double (ties to the even mantissa) and
`toString` gives the shortest decimal numeral that reads back as that double, in exponent
form from `10 ^ 21` on. -/

/-- A Number as `parseInt` returns it: `NaN`, an integer that is a double, or an
infinity. -/
inductive JsNumber where
  | nan
  | finite (n : Int)
  | infinity (negative : Bool)
deriving DecidableEq, Repr

/-- The number of binary digits of `v` (with `fuel` at least that number). -/
def bitLength : Nat → Nat → Nat
  | 0, _ => 0
  | fuel + 1, v => if v = 0 then 0 else bitLength fuel (v / 2) + 1

/-- The double nearest to the natural number `v`, ties going to the even mantissa of 53
bits; `none` when `v` rounds beyond the largest double, that is, to `2 ^ 1024` or more (a
number of more than 1024 binary digits). -/
def roundToDouble (v : Nat) : Option Nat :=
  if v ≤ 2 ^ 53 then some v
  else
    let shift := bitLength v v - 53
    let q := v / 2 ^ shift
    let r := v % 2 ^ shift
    let half := 2 ^ (shift - 1)
    let q1 := if half < r || (r == half && q % 2 == 1) then q + 1 else q
    let d := q1 * 2 ^ shift
    if bitLength d d ≤ 1024 then some d else none

/-- The Number value of the integer `n`. -/
def numberValue (n : Int) : JsNumber :=
  match n with
  | Int.ofNat k =>
    match roundToDouble k with
    | some d => .finite (d : Int)
    | none => .infinity false
  | Int.negSucc k =>
    match roundToDouble (k + 1) with
    | some d => .finite (- (d : Int))
    | none => .infinity true

/-- The search for the shortest decimal numeral of the double `d`: the multiple of a power
of ten, with as many trailing zeros as possible (at most `j`), that rounds to `d`; of two
such multiples the one closer to `d`, and of two equally close the one with the even
digit string. -/
def shortestDecimalFrom (d : Nat) : Nat → Nat
  | 0 => d
  | j + 1 =>
    let p := 10 ^ (j + 1)
    let lo := d / p * p
    let hi := lo + p
    let okLo := lo != 0 && roundToDouble lo == some d
    let okHi := roundToDouble hi == some d
    if okLo && okHi then
      if d - lo < hi - d then lo
      else if hi - d < d - lo then hi
      else if (lo / p) % 2 == 0 then lo else hi
    else if okLo then lo
    else if okHi then hi
    else shortestDecimalFrom d j

/-- The value of the shortest decimal numeral that reads back as the double `d`. -/
def shortestDecimal (d : Nat) : Nat := shortestDecimalFrom d (Nat.toDigits 10 d).length

/-- The exponent form of a numeral of more than 21 digits: the digits up to the last one
that is not zero, a point after the first, and the exponent. -/
def exponentForm (c : Nat) : List Char :=
  let digits := Nat.toDigits 10 c
  let s := (digits.reverse.dropWhile (fun ch => ch == '0')).reverse
  let e := "e+".toList ++ Nat.toDigits 10 (digits.length - 1)
  match s with
  | [] => digits
  | [a] => a :: e
  | a :: rest => a :: '.' :: rest ++ e

/-- `x.toString()` for a double `d` that is a natural number. -/
def doubleToString (d : Nat) : List Char :=
  if d ≤ 2 ^ 53 then Nat.toDigits 10 d
  else if shortestDecimal d < 10 ^ 21 then Nat.toDigits 10 (shortestDecimal d)
  else exponentForm (shortestDecimal d)

/-- `x.toString()`. -/
def numberToString : JsNumber → List Char
  | .nan => "NaN".toList
  | .infinity false => "Infinity".toList
  | .infinity true => "-Infinity".toList
  | .finite n =>
    match n with
    | Int.ofNat k => doubleToString k
    | Int.negSucc k => '-' :: doubleToString (k + 1)

/-- `!habitIdOrName`: `undefined`, `null`, `0` and the empty string are falsy. -/
def argFalsy : HabitArg → Bool
  | .missing => true
  | .num n => n == 0
  | .str s => s.isEmpty

/-- `habitIdOrName.toString()`; the number argument `n` is the Number value of `n`. -/
def argToString : HabitArg → List Char
  | .missing => []
  | .num n => numberToString (numberValue n)
  | .str s => s

/-- `parseInt(habitIdOrName)`: the argument is converted to a string first. -/
def jsParseInt (a : HabitArg) : JsNumber :=
  match jsParseIntStr (argToString a) with
  | none => .nan
  | some n => numberValue n

/-- Lines 75 to 98 of `markHabitComplete`: the habit the argument names. -/
def resolveHabit (db : Db) (habitIdOrName : HabitArg) (userId : Int) : Outcome HabitRow :=
  if argFalsy habitIdOrName then .thrown "Укажи ID или название привычки"
  else
    let byName :=
      let name := jsTrim (argToString habitIdOrName)
      match db.habits.find? (fun h => h.name == name && h.user_id == userId) with
      | none => Outcome.thrown "Привычка не найдена"
      | some habit => Outcome.returned habit
    match jsParseInt habitIdOrName with
    | .nan => byName
    | .finite parsedId =>
      if numberToString (.finite parsedId) == jsTrim (argToString habitIdOrName) then
        match db.habits.find? (fun h => h.id == parsedId && h.user_id == userId) with
        | none => .thrown "Привычка не найдена"
        | some habit => .returned habit
      else byName
    | .infinity negative =>
      if numberToString (.infinity negative) == jsTrim (argToString habitIdOrName) then
        .thrown "invalid input syntax for type integer"
      else byName

/-- `new Date().toISOString().split('T')[0]`: the UTC calendar day of `now`. -/
def utcDay (now : Int) : Int := mathFloorDiv now msPerDay

/-- `INSERT INTO habit_tracking (habit_id, user_id, date, completed) VALUES ($1, $2, $3, true)
ON CONFLICT (habit_id, date) DO UPDATE SET completed = true`.  `none` when the new row's
`habit_id` or `user_id` references no row. -/
def upsertTracking (db : Db) (habitId userId day : Int) : Option Db :=
  if db.habit_tracking.any (fun r => r.habit_id == habitId && r.date == day) then
    some { db with habit_tracking := db.habit_tracking.map (fun r =>
      if r.habit_id == habitId && r.date == day then { r with completed := true } else r) }
  else if db.habits.any (fun h => h.id == habitId) && db.users.any (fun u => u.id == userId) then
    some { db with habit_tracking := db.habit_tracking ++
      [{ habit_id := habitId, user_id := userId, date := day, completed := true }] }
  else none

/-- What `markHabitComplete` returns; `message` is present on the already-marked result
only. -/
structure MarkResult where
  message : Option String
  habit : HabitRow
  streak : Int
deriving DecidableEq, Repr

/-- `markHabitComplete(habitIdOrName, userId)` at instant `now`. -/
def markHabitComplete (db : Db) (z : Zone) (now : Int) (habitIdOrName : HabitArg) (userId : Int) :
    Db × Outcome MarkResult :=
  match resolveHabit db habitIdOrName userId with
  | .thrown e => (db, .thrown e)
  | .returned habit =>
    let habitId := habit.id
    let today := utcDay now
    let existing := db.habit_tracking.filter (fun r => r.habit_id == habitId && r.date == today)
    if existing.length > 0 && (existing.head?.map (fun r => r.completed)) == some true then
      (db, .returned { message := some "Привычка уже отмечена на сегодня!", habit := habit,
                       streak := orZero habit.streak })
    else
      match upsertTracking db habitId userId today with
      | none => (db, .thrown "insert or update violates foreign key constraint")
      | some db1 =>
        match updateHabitStreak db1 z now habitId userId with
        | (db2, .thrown e) => (db2, .thrown e)
        | (db2, .returned newStreak) =>
          match addXP db2 userId 5 with
          | (db3, .thrown e) => (db3, .thrown e)
          | (db3, .returned _) =>
            let updatedHabit := db3.habits.find? (fun h => h.id == habitId)
            (db3, .returned { message := none, habit := updatedHabit.getD habit,
                              streak := newStreak })

/-! ## Specification-side notions -/

/-- A run of length `m` in the sense of the streak definition: the first `m` entries of the
log exist and, at each 0-based position `i < m`, the entry is completed and its local
calendar day is today minus `i` days. -/
def StreakRun (z : Zone) (now : Int) (rows : List TrackingRecord) (m : Nat) : Prop :=
  m ≤ rows.length ∧
  ∀ i, i < m → ∃ r, rows[i]? = some r ∧ r.completed = true ∧
    localDay z r.date = localDay z now - (i : Int)

/-- Three completed rows as the driver hands them over for the calendar days `D`, `D - 1`
and `D - 2`. -/
def threeDayLog (z : Zone) (D : Int) : List TrackingRecord :=
  [{ date := pgDate z D, completed := true },
   { date := pgDate z (D - 1), completed := true },
   { date := pgDate z (D - 2), completed := true }]

/-- One call in a sequence of `updateHabitStreak` calls: the contents of `habit_tracking`
when the call is made and the instant of the call. -/
structure StreakCall where
  log : List TrackingRow
  now : Int
deriving DecidableEq, Repr

/-- A sequence of `updateHabitStreak(habitId, userId)` calls.  Between two calls the
tracking log changes freely (each call brings its own) and time passes; the `habits` table
is written by the calls only.  Returns the final store and the streak each call returned. -/
def runStreakCalls (z : Zone) (habitId userId : Int) : Db → List StreakCall → Db × List Int
  | db, [] => (db, [])
  | db, c :: cs =>
    match updateHabitStreak { db with habit_tracking := c.log } z c.now habitId userId with
    | (db1, .returned s) =>
      ((runStreakCalls z habitId userId db1 cs).1,
        s :: (runStreakCalls z habitId userId db1 cs).2)
    | (db1, .thrown _) => runStreakCalls z habitId userId db1 cs

/-- The streak a call computes: the loop on the rows of the call's log. -/
def callStreak (db : Db) (z : Zone) (habitId userId : Int) (c : StreakCall) : Int :=
  computeStreak z c.now (selectTracking { db with habit_tracking := c.log } z habitId userId)

/-- The constraint `UNIQUE(habit_id, date)` of `habit_tracking`. -/
def UniqueTracking (rows : List TrackingRow) : Prop :=
  rows.Pairwise (fun a b => ¬ (a.habit_id = b.habit_id ∧ a.date = b.date))

instance (rows : List TrackingRow) : Decidable (UniqueTracking rows) := by
  unfold UniqueTracking; infer_instance

/-- Reachable worlds: those a freshly started process gets to by a sequence of steps. -/
def Reachable (w : World) : Prop :=
  ∃ (w0 : World) (acts : List SchedulerAction), InitialWorld w0 ∧ run w0 acts = some w

/-- Agreement of registry, pending timers and session rows.  Ids handed out lie below the
two counters; a timer id and a session id are handed out together, so among registry
entries and pending timers equal timer ids mean equal session ids and conversely; the
session of a pending timer is not completed; the session of a registry entry has a row. -/
structure Consistent (w : World) : Prop where
  entry_bound : ∀ kv ∈ w.activeTimers,
    kv.2.sessionId < w.db.pomodoro_seq ∧ kv.2.timerId < w.timerSeq
  timer_bound : ∀ t ∈ w.pending, t.sessionId < w.db.pomodoro_seq ∧ t.timerId < w.timerSeq
  row_bound : ∀ s ∈ w.db.pomodoro_sessions, s.id < w.db.pomodoro_seq
  entry_timer : ∀ kv ∈ w.activeTimers, ∀ t ∈ w.pending,
    (t.timerId = kv.2.timerId ↔ t.sessionId = kv.2.sessionId)
  timer_timer : ∀ t1 ∈ w.pending, ∀ t2 ∈ w.pending,
    (t1.timerId = t2.timerId ↔ t1.sessionId = t2.sessionId)
  timer_open : ∀ t ∈ w.pending, ∀ s ∈ w.db.pomodoro_sessions,
    s.id = t.sessionId → s.completed = false ∧ s.completed_at = none
  entry_row : ∀ kv ∈ w.activeTimers, ∃ s ∈ w.db.pomodoro_sessions, s.id = kv.2.sessionId

/-- The state of a session `s` with timer `tid` after a successful stop: both ids have been
handed out, no pending timer carries either of them, and the session's row exists and is
not completed. -/
structure Aborted (s : Int) (tid : Nat) (w : World) : Prop where
  session_old : s < w.db.pomodoro_seq
  timer_old : tid < w.timerSeq
  no_timer : ∀ t ∈ w.pending, t.sessionId ≠ s ∧ t.timerId ≠ tid
  row_exists : ∃ r ∈ w.db.pomodoro_sessions, r.id = s
  row_open : ∀ r ∈ w.db.pomodoro_sessions, r.id = s → r.completed = false ∧ r.completed_at = none

/-- Registry and pending timers in step.  The registry has one entry per key; pending timers
have distinct ids; every registry entry has its pending timer and every pending timer is the
timer of its owner's registry entry; the session of a pending timer has a row, every row
with that id belongs to the timer's owner, and the owner is a row of `users`. -/
structure InStep (w : World) : Prop where
  keys_nodup : (w.activeTimers.map Prod.fst).Nodup
  timers_nodup : ∀ t1 ∈ w.pending, ∀ t2 ∈ w.pending, t1.timerId = t2.timerId → t1 = t2
  entry_pending : ∀ kv ∈ w.activeTimers, ∃ t ∈ w.pending,
    t.timerId = kv.2.timerId ∧ t.sessionId = kv.2.sessionId ∧ t.userId = kv.1
  pending_entry : ∀ t ∈ w.pending, ∃ e, (t.userId, e) ∈ w.activeTimers ∧
    e.timerId = t.timerId ∧ e.sessionId = t.sessionId
  timer_row : ∀ t ∈ w.pending, ∃ r ∈ w.db.pomodoro_sessions,
    r.id = t.sessionId ∧ r.user_id = t.userId
  timer_rows_owner : ∀ t ∈ w.pending, ∀ r ∈ w.db.pomodoro_sessions,
    r.id = t.sessionId → r.user_id = t.userId
  timer_user : ∀ t ∈ w.pending, ∃ x ∈ w.db.users, x.id = t.userId

/-! ## Worlds used as concrete inputs -/

/-- A store with users 1 and 2 and nothing else. -/
def demoDb : Db :=
  { users := [{ id := 1, xp := 0, level := 1 }, { id := 2, xp := 190, level := 2 }],
    tasks := [], pomodoro_sessions := [], pomodoro_seq := 1, habits := [],
    habit_tracking := [] }

/-- A freshly started process over `demoDb`. -/
def demoWorld : World :=
  { db := demoDb, activeTimers := [], pending := [], timerSeq := 0 }

/-- The world after user 1 started a 25-minute session at instant 1000. -/
def demoRunning : World := (startPomodoro demoWorld 1000 1).1

/-- A store with one habit (id 7, of user 1, as `createHabit` leaves it) and its log. -/
def habitDb : Db :=
  { users := [{ id := 1, xp := 0, level := 1 }],
    tasks := [], pomodoro_sessions := [], pomodoro_seq := 1,
    habits := [{ id := 7, user_id := 1, name := ['r', 'u', 'n'], streak := some 0,
                 best_streak := some 0, active := true }],
    habit_tracking := [{ habit_id := 7, user_id := 1, date := 19999, completed := true },
                       { habit_id := 7, user_id := 1, date := 20000, completed := true }] }

/-- The store `habitDb` after the habit's `streak` and `best_streak` were brought up to date
with its log on day 20000. -/
def habitDbMarked : Db := (updateHabitStreak habitDb (fixedZone 0) 1728000000000 7 1).1

/-- The world after user 1 stopped the session of `demoRunning`. -/
def demoStopped : World := (stopPomodoro demoRunning 1).1

/-- Steps taken after the stop: user 1 starts again and the new timer expires. -/
def demoLater : List SchedulerAction := [.start 5000 1 none 25, .expire 1505000 1]

/-- The world `demoLater` leads to from `demoStopped`. -/
def demoFinal : World := (run demoStopped demoLater).getD demoStopped

/-! ## The event loop at the grain of `await`

The services are `async` functions: each runs without interruption up to an `await` on a
`db.query`, is suspended there, and runs on when the query's promise settles.  Other calls
and timer callbacks run in between.  In this finer model a query takes effect at the moment
its promise settles, and a query may also fail (the promise is rejected), which the
function's `catch` logs and rethrows. -/

/-- An `async` call suspended at an `await` on a `db.query`. -/
inductive Suspended where
  /-- `startPomodoro` at the `INSERT` (line 29), past the `activeTimers.has` check. -/
  | startInsert (userId : Int) (taskId : Option Int) (duration : Int)
  /-- `stopPomodoro` at the `UPDATE` (line 104), after `clearTimeout` and `delete`. -/
  | stopUpdate (sessionId : Int)
  /-- The expiry callback inside `completePomodoro` at the `UPDATE` (line 68). -/
  | expiryUpdate (sessionId userId : Int)
  /-- The expiry callback inside `addXP` at the `SELECT` (line 65). -/
  | expirySelect (userId : Int)
  /-- The expiry callback inside `addXP` at the `UPDATE` (line 81). -/
  | expiryXpUpdate (userId newXP newLevel : Int)
deriving DecidableEq, Repr

/-- What a finished call handed back: the settled value of its promise. -/
inductive Reply where
  | start (r : Outcome StartResult)
  | stop (r : Outcome StopResult)
  | callback (r : Outcome Unit)
deriving DecidableEq, Repr

/-- The process between two turns of the event loop: the world, the suspended calls and the
replies of the finished calls, oldest first. -/
structure Loop where
  world : World
  suspended : List Suspended
  replies : List Reply
deriving DecidableEq, Repr

/-- The turns of the event loop. -/
inductive Turn where
  /-- A call of `startPomodoro(userId, taskId, duration)` arrives. -/
  | callStart (userId : Int) (taskId : Option Int) (duration : Int)
  /-- A call of `stopPomodoro(userId)` arrives. -/
  | callStop (userId : Int)
  /-- The pending timer with this id expires and its callback starts. -/
  | fire (timerId : Nat)
  /-- The query awaited by the suspended call at index `i` takes effect at instant `now` and
  the call runs on to its next `await` or to its end. -/
  | settle (i : Nat) (now : Int)
  /-- The query awaited by the suspended call at index `i` fails. -/
  | reject (i : Nat)
deriving DecidableEq, Repr

/-- A suspended call runs on after its query took effect at `now`: the new world, the await
it is suspended at next (if any) and its reply (if it finished). -/
def resume (w : World) (now : Int) : Suspended → World × Option Suspended × Option Reply
  | .startInsert userId taskId duration =>
    match insertSession w.db now userId (orNull taskId) duration with
    | (db1, none) =>
      ({ w with db := db1 }, none,
        some (.start (.thrown "insert or update violates foreign key constraint")))
    | (db1, some session) =>
      let timerId := w.timerSeq
      let timer : PendingTimer :=
        { timerId := timerId, sessionId := session.id, userId := userId,
          fireAt := now + timeoutDelay (duration * 60 * 1000) }
      let entry : TimerEntry :=
        { sessionId := session.id, timerId := timerId,
          endTime := now + duration * 60 * 1000 }
      ({ db := db1, activeTimers := mapSet w.activeTimers userId entry,
         pending := w.pending ++ [timer], timerSeq := w.timerSeq + 1 }, none,
        some (.start (.returned (.session session))))
  | .stopUpdate sessionId =>
    ({ w with db := updateSessionNotCompleted w.db sessionId }, none,
      some (.stop (.returned (.message "Pomodoro сессия остановлена"))))
  | .expiryUpdate sessionId userId =>
    match updateSessionCompleted w.db now sessionId userId with
    | (db1, rows) =>
      if rows.length > 0 then
        ({ w with db := db1 }, some (.expirySelect userId), none)
      else
        ({ w with db := db1, activeTimers := mapDelete w.activeTimers userId }, none,
          some (.callback (.returned ())))
  | .expirySelect userId =>
    match selectUser w.db userId with
    | none => (w, none, some (.callback (.thrown "Пользователь не найден")))
    | some user =>
      let newXP := user.xp + 15
      let newLevel := mathFloorDiv newXP 100 + 1
      (w, some (.expiryXpUpdate userId newXP newLevel), none)
  | .expiryXpUpdate userId newXP newLevel =>
    ({ w with db := updateUserXp w.db newXP newLevel userId,
              activeTimers := mapDelete w.activeTimers userId }, none,
      some (.callback (.returned ())))

/-- The reply of a suspended call whose awaited query failed: every `catch` rethrows, and no
statement after the `await` runs.  The process is taken to live on after the rejection of a
callback's promise, which nothing handles (a Node process without an `unhandledRejection`
listener ends there from version 15 on, and its registry with it). -/
def rejected : Suspended → Reply
  | .startInsert _ _ _ => .start (.thrown "query failed")
  | .stopUpdate _ => .stop (.thrown "query failed")
  | .expiryUpdate _ _ => .callback (.thrown "query failed")
  | .expirySelect _ => .callback (.thrown "query failed")
  | .expiryXpUpdate _ _ _ => .callback (.thrown "query failed")

/-- The list with the element at index `i` replaced by `x`, or removed when `x` is `none`. -/
def putAt (l : List Suspended) (i : Nat) (x : Option Suspended) : List Suspended :=
  match x with
  | some s => l.set i s
  | none => l.eraseIdx i

/-- The list of replies with one more, if there is one. -/
def addReply (l : List Reply) (r : Option Reply) : List Reply :=
  match r with
  | some x => l ++ [x]
  | none => l

/-- One turn of the event loop; `none` when the turn is not enabled. -/
def turn (s : Loop) : Turn → Option Loop
  | .callStart userId taskId duration =>
    if mapHas s.world.activeTimers userId then
      some { s with replies := s.replies ++
        [.start (.returned (.error "У вас уже есть активная Pomodoro сессия!"))] }
    else
      some { s with suspended := s.suspended ++ [.startInsert userId taskId duration] }
  | .callStop userId =>
    match mapGet s.world.activeTimers userId with
    | none =>
      some { s with replies := s.replies ++
        [.stop (.returned (.error "У вас нет активной Pomodoro сессии"))] }
    | some timer =>
      some { s with
        world := { s.world with
          activeTimers := mapDelete s.world.activeTimers userId,
          pending := clearTimeout s.world.pending timer.timerId },
        suspended := s.suspended ++ [.stopUpdate timer.sessionId] }
  | .fire timerId =>
    match s.world.pending.find? (fun t => t.timerId == timerId) with
    | none => none
    | some t =>
      some { s with
        world := { s.world with pending := clearTimeout s.world.pending t.timerId },
        suspended := s.suspended ++ [.expiryUpdate t.sessionId t.userId] }
  | .settle i now =>
    match s.suspended[i]? with
    | none => none
    | some c =>
      match resume s.world now c with
      | (w1, next, reply) =>
        some { world := w1, suspended := putAt s.suspended i next,
               replies := addReply s.replies reply }
  | .reject i =>
    match s.suspended[i]? with
    | none => none
    | some c =>
      some { s with suspended := s.suspended.eraseIdx i,
                    replies := s.replies ++ [rejected c] }

/-- A sequence of turns. -/
def turns (s : Loop) : List Turn → Option Loop
  | [] => some s
  | a :: rest =>
    match turn s a with
    | none => none
    | some s1 => turns s1 rest

/-- The loop with nothing in flight over a world. -/
def idle (w : World) : Loop := { world := w, suspended := [], replies := [] }

/-- What is observed of a loop state: the replies, the xp of user 1, and id, `completed` and
`completed_at` of every session row. -/
def observe (s : Loop) :
    List Reply × Option Int × List (Int × Bool × Option Int) :=
  (s.replies, (selectUser s.world.db 1).map (fun r => r.xp),
    s.world.db.pomodoro_sessions.map (fun r => (r.id, r.completed, r.completed_at)))

/-- `s.padStart(2, '0')`. -/
def padStart2 (s : List Char) : List Char :=
  List.replicate (2 - s.length) '0' ++ s

/-- The `formatted` field of the record `getActivePomodoro` returns:
the minutes, a colon, and the seconds padded to two digits. -/
def formatted (info : ActiveInfo) : List Char :=
  jsNumToString info.remainingMinutes ++ ':' :: padStart2 (jsNumToString info.remainingSeconds)

/-- A store with one habit (id 7, of user 1) that has never been marked. -/
def freshHabitDb : Db :=
  { users := [{ id := 1, xp := 0, level := 1 }],
    tasks := [], pomodoro_sessions := [], pomodoro_seq := 1,
    habits := [{ id := 7, user_id := 1, name := ['r', 'u', 'n'], streak := some 0,
                 best_streak := some 0, active := true }],
    habit_tracking := [] }

/-! ## taskService and careerService -/

/-- What `completeTask` returns: the object with a `message` and the task found, or
`result.rows[0]` of the `UPDATE`. -/
inductive CompleteTaskResult where
  | already (message : String) (task : TaskRow)
  | updated (row : Option TaskRow)
deriving DecidableEq, Repr

/-- `UPDATE tasks SET status = 'completed', completed_at = CURRENT_TIMESTAMP
WHERE id = $1 AND user_id = $2 RETURNING *`: the new store and the rows returned. -/
def updateTaskCompleted (db : Db) (now taskId userId : Int) : Db × List TaskRow :=
  let hit := fun (t : TaskRow) => t.id == taskId && t.user_id == userId
  let upd := fun (t : TaskRow) => { t with status := "completed", completed_at := some now }
  ({ db with tasks := db.tasks.map (fun t => if hit t then upd t else t) },
    (db.tasks.filter hit).map upd)

/-- `completeTask(taskId, userId)` at instant `now`. -/
def completeTask (db : Db) (now taskId userId : Int) : Db × Outcome CompleteTaskResult :=
  match db.tasks.find? (fun t => t.id == taskId && t.user_id == userId) with
  | none => (db, .thrown "Задача не найдена или не принадлежит пользователю")
  | some task =>
    if task.status == "completed" then
      (db, .returned (.already "Задача уже завершена" task))
    else
      match updateTaskCompleted db now taskId userId with
      | (db1, rows) =>
        match addXP db1 userId 10 with
        | (db2, .thrown e) => (db2, .thrown e)
        | (db2, .returned _) => (db2, .returned (.updated rows.head?))

/-- Row of `career_goals` (the columns `updateGoalProgress` reads and writes). -/
structure GoalRow where
  id : Int
  user_id : Int
  progress : Int
  status : String
  updated_at : Int
deriving DecidableEq, Repr

/-- The store together with the table `career_goals`. -/
structure CareerStore where
  db : Db
  career_goals : List GoalRow
deriving DecidableEq, Repr

/-- `Math.max(0, Math.min(100, progress))`. -/
def clampProgress (progress : Int) : Int := max 0 (min 100 progress)

/-- `UPDATE career_goals SET progress = $1, updated_at = CURRENT_TIMESTAMP
WHERE id = $2 AND user_id = $3 RETURNING *`: the new table and the rows returned. -/
def updateGoalRow (goals : List GoalRow) (now clamped goalId userId : Int) :
    List GoalRow × List GoalRow :=
  let hit := fun (g : GoalRow) => g.id == goalId && g.user_id == userId
  let upd := fun (g : GoalRow) => { g with progress := clamped, updated_at := now }
  (goals.map (fun g => if hit g then upd g else g), (goals.filter hit).map upd)

/-- `updateGoalProgress(goalId, userId, progress)` at instant `now`; `progress` is an integer,
as the column is. -/
def updateGoalProgress (s : CareerStore) (now goalId userId progress : Int) :
    CareerStore × Outcome (Option GoalRow) :=
  match s.career_goals.find? (fun g => g.id == goalId && g.user_id == userId) with
  | none => (s, .thrown "Цель не найдена")
  | some goal =>
    let clampedProgress := clampProgress progress
    match updateGoalRow s.career_goals now clampedProgress goalId userId with
    | (goals1, rows) =>
      if clampedProgress == 100 && decide (goal.progress < 100) then
        match addXP s.db userId 50 with
        | (db1, .thrown e) => ({ db := db1, career_goals := goals1 }, .thrown e)
        | (db1, .returned _) => ({ db := db1, career_goals := goals1 }, .returned rows.head?)
      else
        ({ db := s.db, career_goals := goals1 }, .returned rows.head?)

/-- A store with user 1, a pending task 3 and a completed task 4 of that user. -/
def taskDb : Db :=
  { users := [{ id := 1, xp := 95, level := 1 }, { id := 2, xp := 0, level := 1 }],
    tasks := [{ id := 3, user_id := 1, status := "pending", completed_at := none },
              { id := 4, user_id := 1, status := "completed", completed_at := some 500 }],
    pomodoro_sessions := [], pomodoro_seq := 1, habits := [], habit_tracking := [] }

/-- A store with user 1 and two goals of that user, at 40 and at 100. -/
def goalStore : CareerStore :=
  { db := taskDb,
    career_goals := [{ id := 5, user_id := 1, progress := 40, status := "active", updated_at := 0 },
                     { id := 6, user_id := 1, progress := 100, status := "active",
                       updated_at := 0 }] }

/-! ## maxApi.sendMessage: the inline keyboard -/

/-- The `action` object of a button in the old format. -/
structure ButtonAction where
  type : Option (List Char)
  payload : Option (List Char)
deriving DecidableEq, Repr

/-- A button object, in the format of the API (`type`, `text`, `payload`) or in the old one
(`text`, `action`).  A field that is absent is `none`. -/
structure Button where
  type : Option (List Char)
  text : Option (List Char)
  action : Option ButtonAction
  payload : Option (List Char)
deriving DecidableEq, Repr

/-- Truthiness of a string field: present and not empty. -/
def strTruthy : Option (List Char) → Bool
  | some (_ :: _) => true
  | _ => false

/-- The callback of `options.keyboard.buttons.map` (lines 63 to 74). -/
def convertButton (btn : Button) : Button :=
  if strTruthy btn.type && strTruthy btn.text then btn
  else
    let actionType := btn.action.bind (fun a => a.type)
    let actionPayload := btn.action.bind (fun a => a.payload)
    { type := if actionType == some ['t', 'e', 'x', 't'] then some ['m', 'e', 's', 's', 'a', 'g', 'e']
              else if strTruthy actionType then actionType
              else some ['m', 'e', 's', 's', 'a', 'g', 'e'],
      text := btn.text,
      action := none,
      payload := if strTruthy actionPayload then actionPayload else btn.text }

/-- The loop `for (let i = 0; i < buttons.length; i += 2) buttonRows.push(buttons.slice(i,
i + 2))` from index `i` on: the rows it pushes. -/
def buttonRowsFrom (buttons : List Button) (i : Nat) : List (List Button) :=
  if i < buttons.length then
    ((buttons.drop i).take 2) :: buttonRowsFrom buttons (i + 2)
  else []
termination_by buttons.length - i

/-- The `payload.buttons` of the `inline_keyboard` attachment that `sendMessage` builds from
`options.keyboard.buttons` (lines 60 to 90). -/
def inlineKeyboard (buttons : List Button) : List (List Button) :=
  buttonRowsFrom (buttons.map convertButton) 0

/-- Rows of two, by recursion on the list. -/
def rowsOfTwo : List Button → List (List Button)
  | [] => []
  | [a] => [[a]]
  | a :: b :: rest => [a, b] :: rowsOfTwo rest

/-- A button in the old format, as `sendMessageWithButtons` builds it. -/
def oldButton (text payload : List Char) : Button :=
  { type := none, text := some text,
    action := some { type := some ['t', 'e', 'x', 't'], payload := some payload },
    payload := none }

/-! ## Specification-side notions for the habit argument -/

/-- The argument is read as a habit ID: `parseInt` reads a number from it and the trimmed
argument is the text `toString` gives for that number. -/
def isIdArg (a : HabitArg) : Bool :=
  match jsParseInt a with
  | .nan => false
  | x => numberToString x == jsTrim (argToString a)

/-- The argument names the habit `h`: read as an ID it is the ID of `h`, read as a name its
trimmed text is the name of `h`. -/
def NamesHabit (a : HabitArg) (h : HabitRow) : Prop :=
  (isIdArg a = true ∧ jsParseInt a = .finite h.id) ∨
  (isIdArg a = false ∧ h.name = jsTrim (argToString a))

instance (a : HabitArg) (h : HabitRow) : Decidable (NamesHabit a h) := by
  unfold NamesHabit; infer_instance

/-- The test a habit row has to pass to be the one the argument of user `userId` names. -/
def habitMatches (a : HabitArg) (userId : Int) (h : HabitRow) : Bool :=
  (if isIdArg a then jsParseInt a == .finite h.id else h.name == jsTrim (argToString a))
    && h.user_id == userId

/-- Three buttons in the old format. -/
def demoButtons : List Button :=
  [oldButton ['A'] ['/', 'a'], oldButton ['B'] ['/', 'b'], oldButton ['C'] ['/', 'c']]

/-! ## messageHandler

`handleMessage` and the handlers it dispatches to.  The services of the other modules are
reached through calls; the model records each call the handler makes, with the list of
arguments written at the call site, in the order the calls are made.  The pomodoro service
is the one modelled above and acts on the `World`; `getOrCreateUser` and `getUserTasks`
answer as the environment `Services` says.  Sending a message succeeds. -/

/-- A value as it is passed in a call: `undefined`, `null`, a string or an integer. -/
inductive JsVal where
  | undefined
  | null
  | str (s : List Char)
  | num (n : Int)
deriving DecidableEq, Repr

/-- Truthiness of a value. -/
def jsTruthy : JsVal → Bool
  | .undefined => false
  | .null => false
  | .str s => !s.isEmpty
  | .num n => n != 0

/-- The value of `a || b`. -/
def jsOr (a b : JsVal) : JsVal := if jsTruthy a then a else b

/-- The `recipient` object of a message. -/
structure Recipient where
  chat_id : Option Int
  user_id : Option Int
deriving DecidableEq, Repr

/-- The fields of an incoming message that `handleMessage` reads: `message.user_id`,
`message.from?.id`, `message.text` and `message.recipient` (an absent `text` or `recipient`
is `none`). -/
structure Message where
  user_id : JsVal
  from_id : JsVal
  text : Option (List Char)
  recipient : Option Recipient
deriving DecidableEq, Repr

/-- The options object `recipient ? { recipient } : {}`. -/
structure SendOptions where
  recipient : Option Recipient
deriving DecidableEq, Repr

/-- A button of the welcome menu: `{ text, action }`. -/
structure MenuButton where
  text : List Char
  action : List Char
deriving DecidableEq, Repr

/-- The fields of a task row that `handleTasks` reads; `due_date` holds the text
`new Date(task.due_date).toLocaleDateString('ru-RU')` when the column is set. -/
structure TaskView where
  id : Int
  title : List Char
  status : List Char
  priority : List Char
  due_date : Option (List Char)
deriving DecidableEq, Repr

/-- The handlers of `messageHandler.js` that are not expanded here. -/
inductive HandlerName where
  | handleCreateTask
  | handleCompleteTask
  | handleHabits
  | handleCreateHabit
  | handleMarkHabit
  | handleCareer
  | handleCreateGoal
  | handleStats
  | handleProgress
deriving DecidableEq, Repr

/-- A call made by the handler.  For the services, `args` is the list of arguments written
at the call site.  `handler` is the call into a handler that is not expanded. -/
inductive Call where
  | getOrCreateUser (args : List JsVal)
  | getUserTasks (args : List JsVal)
  | getActivePomodoro (args : List JsVal)
  | startPomodoro (args : List JsVal)
  | stopPomodoro (args : List JsVal)
  | getPomodoroStats (args : List JsVal)
  | sendMessage (userId : JsVal) (text : List Char) (options : SendOptions)
  | sendMessageWithButtons (userId : JsVal) (text : List Char) (buttons : List MenuButton)
      (options : SendOptions)
  | handler (name : HandlerName) (userId : JsVal) (dbUserId : Int) (text : Option (List Char))
      (options : SendOptions)
deriving DecidableEq, Repr

/-- What the services outside the pomodoro module answer: the user `getOrCreateUser`
resolves to for a messenger id (or the error it rejects with), and the rows `getUserTasks`
resolves to for a database id. -/
structure Services where
  getOrCreateUser : JsVal → Outcome UserRow
  getUserTasks : Int → Outcome (List TaskView)

/-- The run of a handler: the world it leaves, the calls it made, in order, and whether it
returned or threw. -/
structure Handled where
  world : World
  calls : List Call
  outcome : Outcome Unit
deriving DecidableEq, Repr

/-- The line feed. -/
def lf : Char := Char.ofNat 10

/-- `c.toLowerCase()` on one character: the capital letters of Basic Latin, Latin-1 and the
Cyrillic block are mapped to their small letters, the Kelvin sign to `k` and the Angstrom
sign to the small a with ring.  The capital letters of the other blocks are not modelled:
they are left as they are. -/
def toLowerChar (c : Char) : Char :=
  let n := c.toNat
  if (65 ≤ n && n ≤ 90) || (192 ≤ n && n ≤ 222 && n != 215) || (0x410 ≤ n && n ≤ 0x42F) then
    Char.ofNat (n + 32)
  else if 0x400 ≤ n && n ≤ 0x40F then Char.ofNat (n + 80)
  else if n == 0x212A then 'k'
  else if n == 0x212B then Char.ofNat 0xE5
  else c

/-- `s.toLowerCase()`. -/
def toLowerCase (s : List Char) : List Char := s.map toLowerChar

/-- `s.startsWith(p)`. -/
def startsWith (s p : List Char) : Bool := p.isPrefixOf s

/-- The template literal of `handleStart`, trimmed. -/
def welcomeText (user : UserRow) : List Char :=
  "🎯 Привет! Я ProdMax - твой помощник по продуктивности!".toList ++ [lf, lf] ++
  "✨ Что я умею:".toList ++ [lf] ++
  "• 📝 Управление задачами".toList ++ [lf] ++
  "• 🍅 Pomodoro таймер".toList ++ [lf] ++
  "• ✅ Трекер привычек".toList ++ [lf] ++
  "• 🚀 Карьерные цели".toList ++ [lf] ++
  "• 📊 Статистика и прогресс".toList ++ [lf, lf] ++
  "💡 Команды:".toList ++ [lf] ++
  "/start или /help - это меню".toList ++ [lf] ++
  "/tasks - список задач".toList ++ [lf] ++
  "/task [название] - создать задачу".toList ++ [lf] ++
  "/pomodoro - запустить таймер".toList ++ [lf] ++
  "/habits - мои привычки".toList ++ [lf] ++
  "/habit [название] - добавить привычку".toList ++ [lf] ++
  "/career - карьерные цели".toList ++ [lf] ++
  "/stats - статистика".toList ++ [lf, lf] ++
  "🔥 Твой уровень: ".toList ++ jsNumToString user.level ++ " | XP: ".toList ++
    jsNumToString user.xp ++ [lf, lf] ++
  "Начни с создания первой задачи: /task Изучить MAX API".toList

/-- The `buttons` array of `handleStart`. -/
def startButtons : List MenuButton :=
  [{ text := "📝 Задачи".toList, action := "/tasks".toList },
   { text := "🍅 Pomodoro".toList, action := "/pomodoro".toList },
   { text := "✅ Привычки".toList, action := "/habits".toList },
   { text := "📊 Статистика".toList, action := "/stats".toList }]

/-- `handleStart(userId, user, messageData, sendOptions)`. -/
def handleStart (w : World) (userId : JsVal) (user : UserRow) (sendOptions : SendOptions) :
    Handled :=
  { world := w,
    calls := [.sendMessageWithButtons userId (welcomeText user) startButtons sendOptions],
    outcome := .returned () }

/-- What the callback of `pendingTasks.slice(0, 10).forEach` appends for the task at index
`idx`. -/
def taskLine (idx : Nat) (task : TaskView) : List Char :=
  jsNumToString ((idx : Int) + 1) ++ ". ".toList ++ task.title ++
  (if task.priority == "high".toList then " 🔥".toList else []) ++
  (match task.due_date with
    | some d => " (до ".toList ++ d ++ ")".toList
    | none => []) ++
  [lf] ++ "   /complete ".toList ++ jsNumToString task.id ++ [lf]

/-- `handleTasks(userId, dbUserId, sendOptions)`. -/
def handleTasks (sv : Services) (w : World) (userId : JsVal) (dbUserId : Int)
    (sendOptions : SendOptions) : Handled :=
  match sv.getUserTasks dbUserId with
  | .thrown e => { world := w, calls := [.getUserTasks [.num dbUserId]], outcome := .thrown e }
  | .returned tasks =>
    if tasks.length == 0 then
      { world := w,
        calls := [.getUserTasks [.num dbUserId],
          .sendMessage userId
            "📝 У тебя пока нет задач. Создай первую: /task [название]".toList sendOptions],
        outcome := .returned () }
    else
      let pendingTasks := tasks.filter (fun t => t.status == "pending".toList)
      let completedTasks := tasks.filter (fun t => t.status == "completed".toList)
      let text0 := "📝 Твои задачи:".toList ++ [lf, lf]
      let text1 :=
        if pendingTasks.length > 0 then
          text0 ++ "⏳ В работе:".toList ++ [lf] ++
            (((pendingTasks.take 10).enum.map (fun it => taskLine it.1 it.2)).flatten)
        else text0
      let text2 :=
        if completedTasks.length > 0 then
          text1 ++ [lf] ++ "✅ Выполнено: ".toList ++
            jsNumToString (completedTasks.length : Int) ++ " задач".toList
        else text1
      let text3 := text2 ++ [lf, lf] ++ "💡 Создать задачу: /task [название]".toList
      { world := w,
        calls := [.getUserTasks [.num dbUserId], .sendMessage userId text3 sendOptions],
        outcome := .returned () }

/-- The row `getPomodoroStats` returns, as far as `handlePomodoro` reads it; `total_minutes`
is `NULL` when no session of the user has a `completed_at`. -/
structure PomodoroStats where
  total_sessions : Int
  completed_sessions : Int
  total_minutes : Option Int
deriving DecidableEq, Repr

/-- `getPomodoroStats(userId)`. -/
def getPomodoroStats (db : Db) (userId : Int) : PomodoroStats :=
  let rows := db.pomodoro_sessions.filter (fun s => s.user_id == userId)
  let done := rows.filter (fun s => s.completed_at.isSome)
  { total_sessions := rows.length,
    completed_sessions := done.length,
    total_minutes := if done.isEmpty then none else some (done.map (fun s => s.duration)).sum }

/-- The message of the start branch when a session is active. -/
def alreadyActiveText (active : ActiveInfo) : List Char :=
  "⏱️ У тебя уже есть активная Pomodoro сессия!".toList ++ [lf, lf] ++
  "Осталось: ".toList ++ formatted active ++ [lf, lf] ++
  "Используй /pomodoro stop чтобы остановить".toList

/-- The message of the start branch after a session was started. -/
def startedText : List Char :=
  "🍅 Pomodoro запущен! 25 минут фокуса.".toList ++ [lf, lf] ++
  "Используй /pomodoro status чтобы проверить время".toList ++ [lf] ++
  "/pomodoro stop чтобы остановить".toList

/-- The message of the `stats` branch. -/
def statsText (stats : PomodoroStats) : List Char :=
  "📊 Статистика Pomodoro:".toList ++ [lf, lf] ++
  "Всего сессий: ".toList ++ jsNumToString stats.total_sessions ++ [lf] ++
  "Завершено: ".toList ++ jsNumToString stats.completed_sessions ++ [lf] ++
  "Всего минут: ".toList ++ jsNumToString (stats.total_minutes.getD 0)

/-- The message of the last branch: the list of pomodoro commands. -/
def pomodoroHelpText : List Char :=
  "🍅 Pomodoro команды:".toList ++ [lf] ++
  "/pomodoro - запустить таймер".toList ++ [lf] ++
  "/pomodoro stop - остановить".toList ++ [lf] ++
  "/pomodoro status - проверить время".toList ++ [lf] ++
  "/pomodoro stats - статистика".toList

/-- `handlePomodoro(userId, dbUserId, text, sendOptions)` at instant `now`. -/
def handlePomodoro (w : World) (now : Int) (userId : JsVal) (dbUserId : Int)
    (text : List Char) (sendOptions : SendOptions) : Handled :=
  let command := jsTrim (toLowerCase text)
  if command == "/pomodoro".toList || command == "/pomodoro start".toList ||
      command == "помидор".toList then
    match getActivePomodoro w now dbUserId with
    | (w0, some active) =>
      { world := w0,
        calls := [.getActivePomodoro [.num dbUserId],
          .sendMessage userId (alreadyActiveText active) sendOptions],
        outcome := .returned () }
    | (w0, none) =>
      match startPomodoro w0 now dbUserId with
      | (w1, .thrown e) =>
        { world := w1,
          calls := [.getActivePomodoro [.num dbUserId], .startPomodoro [.num dbUserId]],
          outcome := .thrown e }
      | (w1, .returned (.error e)) =>
        { world := w1,
          calls := [.getActivePomodoro [.num dbUserId], .startPomodoro [.num dbUserId],
            .sendMessage userId e.toList sendOptions],
          outcome := .returned () }
      | (w1, .returned (.session _)) =>
        { world := w1,
          calls := [.getActivePomodoro [.num dbUserId], .startPomodoro [.num dbUserId],
            .sendMessage userId startedText sendOptions],
          outcome := .returned () }
  else if command == "/pomodoro stop".toList then
    match stopPomodoro w dbUserId with
    | (w1, .thrown e) =>
      { world := w1, calls := [.stopPomodoro [.num dbUserId]], outcome := .thrown e }
    | (w1, .returned (.error e)) =>
      { world := w1,
        calls := [.stopPomodoro [.num dbUserId], .sendMessage userId e.toList sendOptions],
        outcome := .returned () }
    | (w1, .returned (.message _)) =>
      { world := w1,
        calls := [.stopPomodoro [.num dbUserId],
          .sendMessage userId "⏹️ Pomodoro остановлен".toList sendOptions],
        outcome := .returned () }
  else if command == "/pomodoro status".toList then
    match getActivePomodoro w now dbUserId with
    | (w0, some active) =>
      { world := w0,
        calls := [.getActivePomodoro [.num dbUserId],
          .sendMessage userId ("⏱️ Осталось: ".toList ++ formatted active) sendOptions],
        outcome := .returned () }
    | (w0, none) =>
      { world := w0,
        calls := [.getActivePomodoro [.num dbUserId],
          .sendMessage userId "❌ Нет активной Pomodoro сессии".toList sendOptions],
        outcome := .returned () }
  else if command == "/pomodoro stats".toList then
    { world := w,
      calls := [.getPomodoroStats [.num dbUserId],
        .sendMessage userId (statsText (getPomodoroStats w.db dbUserId)) sendOptions],
      outcome := .returned () }
  else
    { world := w, calls := [.sendMessage userId pomodoroHelpText sendOptions],
      outcome := .returned () }

/-- A handler that is not expanded: the call into it is recorded, the world stays. -/
def callHandler (w : World) (name : HandlerName) (userId : JsVal) (dbUserId : Int)
    (text : Option (List Char)) (sendOptions : SendOptions) : Handled :=
  { world := w, calls := [.handler name userId dbUserId text sendOptions],
    outcome := .returned () }

/-- Lines 39 to 85 of `handleMessage`: the dispatch on the text and on the command, once
the user is known. -/
def dispatch (sv : Services) (w : World) (now : Int) (userId : JsVal) (user : UserRow)
    (text command : List Char) (sendOptions : SendOptions) : Handled :=
  if text == "📝 Задачи".toList then handleTasks sv w userId user.id sendOptions
  else if text == "🍅 Pomodoro".toList then handlePomodoro w now userId user.id text sendOptions
  else if text == "✅ Привычки".toList then
    callHandler w .handleHabits userId user.id none sendOptions
  else if text == "📊 Статистика".toList then
    callHandler w .handleStats userId user.id none sendOptions
  else if startsWith command "/start".toList || startsWith command "/help".toList ||
      command == "начать".toList || command == "помощь".toList then
    handleStart w userId user sendOptions
  else if startsWith command "/tasks".toList || command == "задачи".toList then
    handleTasks sv w userId user.id sendOptions
  else if startsWith command "/task ".toList then
    callHandler w .handleCreateTask userId user.id (some text) sendOptions
  else if startsWith command "/complete ".toList then
    callHandler w .handleCompleteTask userId user.id (some text) sendOptions
  else if startsWith command "/pomodoro".toList || command == "помидор".toList then
    handlePomodoro w now userId user.id text sendOptions
  else if startsWith command "/habits".toList || command == "привычки".toList then
    callHandler w .handleHabits userId user.id none sendOptions
  else if startsWith command "/habit ".toList then
    callHandler w .handleCreateHabit userId user.id (some text) sendOptions
  else if startsWith command "/mark ".toList then
    callHandler w .handleMarkHabit userId user.id (some text) sendOptions
  else if startsWith command "/career".toList || command == "карьера".toList then
    callHandler w .handleCareer userId user.id none sendOptions
  else if startsWith command "/goal ".toList then
    callHandler w .handleCreateGoal userId user.id (some text) sendOptions
  else if startsWith command "/stats".toList || command == "статистика".toList then
    callHandler w .handleStats userId user.id none sendOptions
  else if startsWith command "/progress".toList || command == "прогресс".toList then
    callHandler w .handleProgress userId user.id none sendOptions
  else
    { world := w,
      calls := [.sendMessage userId
        "🤔 Не понял команду. Используй /help для списка команд или /start для начала работы.".toList
        sendOptions],
      outcome := .returned () }

/-- The `try` block of `handleMessage`. -/
def tryBlock (sv : Services) (w : World) (now : Int) (message : Message) (userId : JsVal)
    (text command : List Char) : Handled :=
  match sv.getOrCreateUser userId with
  | .thrown e => { world := w, calls := [.getOrCreateUser [userId]], outcome := .thrown e }
  | .returned user =>
    let sendOptions : SendOptions := { recipient := message.recipient }
    let r := dispatch sv w now userId user text command sendOptions
    { r with calls := .getOrCreateUser [userId] :: r.calls }

/-- `handleMessage(message)` at instant `now`.  An error thrown in the `try` block is caught
and answered with the error message. -/
def handleMessage (sv : Services) (w : World) (now : Int) (message : Message) : Handled :=
  let userId := jsOr message.user_id message.from_id
  let text := message.text.getD []
  let command := jsTrim (toLowerCase text)
  if !jsTruthy userId then { world := w, calls := [], outcome := .returned () }
  else
    let r := tryBlock sv w now message userId text command
    match r.outcome with
    | .returned _ => r
    | .thrown _ =>
      { world := r.world,
        calls := r.calls ++ [.sendMessage userId
          "😅 Произошла ошибка. Попробуй еще раз или напиши /help для помощи.".toList
          { recipient := message.recipient }],
        outcome := .returned () }

/-- The services of the test file: `getOrCreateUser` resolves to the user with database id
1, `getUserTasks` to no rows. -/
def testServices : Services :=
  { getOrCreateUser := fun _ => .returned { id := 1, xp := 0, level := 1 },
    getUserTasks := fun _ => .returned [] }

/-- The message `{ user_id: '123', text }`. -/
def testMessage (text : List Char) : Message :=
  { user_id := .str "123".toList, from_id := .undefined, text := some text, recipient := none }

/-- The call sends a message to the user. -/
def isSend : Call → Bool
  | .sendMessage _ _ _ => true
  | .sendMessageWithButtons _ _ _ _ => true
  | _ => false

/-! ## Time passing

A timer fires once its instant has passed.  With the process otherwise idle, by the time a
call arrives at instant `now` every pending timer armed for an earlier instant has fired,
earliest first, and its callback has run (as one step, at the timer's instant). -/

/-- The pending timers armed for an instant before `now`, earliest first. -/
def dueTimers (w : World) (now : Int) : List PendingTimer :=
  (w.pending.filter (fun t => t.fireAt < now)).insertionSort (fun a b => a.fireAt ≤ b.fireAt)

/-- The world when the clock reaches `now`: the due timers have fired. -/
def advanceTo (w : World) (now : Int) : World :=
  (dueTimers w now).foldl (fun w1 t => (fireTimer w1 t.fireAt t).1) w

/-- The world after user 1 started a session of 40000 minutes at instant 1000. -/
def demoLong : World := (startPomodoro demoWorld 1000 1 none 40000).1

/-- The zone `America/New_York` in 2024: UTC-5, UTC-4 from 2024-03-10 07:00 UTC (02:00 local
time) and UTC-5 again from 2024-11-03 06:00 UTC. -/
def newYork2024 : Zone :=
  { base := -18000000,
    transitions := [(1710054000000, -14400000), (1730613600000, -18000000)] }

/-- A store in which user 1 has the habit 9 with the name `1152921504606846976`
(the numeral of `2 ^ 60`). -/
def bigNameDb : Db :=
  { users := [{ id := 1, xp := 0, level := 1 }],
    tasks := [], pomodoro_sessions := [], pomodoro_seq := 1,
    habits := [{ id := 9, user_id := 1, name := "1152921504606846976".toList,
                 streak := some 0, best_streak := some 0, active := true }],
    habit_tracking := [] }

/-! ## Theorems -/

theorem mapHas_of_mapGet {m : List (Int × TimerEntry)} {u : Int} {e : TimerEntry}
    (h : mapGet m u = some e) : mapHas m u = true := by
  simp [mapHas, h]

/-- C1 (exclusivity): when the registry holds an entry for `u`, `startPomodoro` returns the
already-active error result and leaves the world as it was; the entry of `u`, with its
`endTime` and `sessionId`, is the one that was there. -/
theorem startPomodoro_exclusive (w : World) (now u : Int) (task : Option Int) (d : Int)
    (e : TimerEntry) (h : mapGet w.activeTimers u = some e) :
    (startPomodoro w now u task d).2
        = .returned (.error "У вас уже есть активная Pomodoro сессия!") ∧
      (startPomodoro w now u task d).1 = w ∧
      mapGet (startPomodoro w now u task d).1.activeTimers u = some e := by
  have hh := mapHas_of_mapGet h
  simp [startPomodoro, hh, h]

theorem startPomodoro_exclusive_witness :
    mapGet demoRunning.activeTimers 1
        = some { sessionId := 1, timerId := 0, endTime := 1501000 } ∧
      (startPomodoro demoRunning 99000 1 none 50).2
        = .returned (.error "У вас уже есть активная Pomodoro сессия!") ∧
      (startPomodoro demoRunning 99000 1 none 50).1 = demoRunning ∧
      mapGet (startPomodoro demoRunning 99000 1 none 50).1.activeTimers 1
        = some { sessionId := 1, timerId := 0, endTime := 1501000 } :=
  ⟨by decide, startPomodoro_exclusive demoRunning 99000 1 none 50
    { sessionId := 1, timerId := 0, endTime := 1501000 } (by decide)⟩

/-! ### Arithmetic of `Math.floor` -/

theorem mathFloorDiv_eq_ediv (a : Int) {b : Int} (hb : 0 ≤ b) : mathFloorDiv a b = a / b :=
  Int.fdiv_eq_ediv a hb

theorem mathFloorDiv_hundred_eq_floor (n : Int) :
    mathFloorDiv n 100 = ⌊(n : ℚ) / 100⌋ := by
  rw [mathFloorDiv_eq_ediv n (by norm_num)]
  have h := Rat.floor_intCast_div_natCast n 100
  simpa using h.symm

/-! ### The users table under `addXP` -/

theorem find_user_map_update (users : List UserRow) (x l u : Int) :
    (users.map (fun r => if r.id == u then { r with xp := x, level := l } else r)).find?
        (fun r => r.id == u)
      = (users.find? (fun r => r.id == u)).map (fun r => { r with xp := x, level := l }) := by
  induction users with
  | nil => rfl
  | cons r rest ih =>
    rw [List.map_cons, List.find?_cons, List.find?_cons]
    by_cases hr : r.id = u
    · have hb : (r.id == u) = true := by simpa using hr
      simp [hb]
    · have hb : (r.id == u) = false := by simpa using hr
      simp only [hb, Bool.false_eq_true, if_false]
      exact ih

theorem selectUser_updateUserXp (db : Db) (x l u : Int) :
    selectUser (updateUserXp db x l u) u
      = (selectUser db u).map (fun r => { r with xp := x, level := l }) := by
  simp only [selectUser, updateUserXp]
  exact find_user_map_update db.users x l u

/-- C9 (XP grant and level formula): for an existing user with stored xp `x` and level `l`
and any integer amount `a`, `addXP` returns `newXP = x + a`,
`newLevel = floor((x + a) / 100) + 1` (the floor of the rational quotient), `xpGained = a`
and `leveledUp` true exactly when `newLevel > l`; the user's row then stores that xp and
that level. -/
theorem addXP_grant_and_level (db : Db) (u a : Int) (row : UserRow)
    (h : selectUser db u = some row) :
    ∃ r : XpResult, (addXP db u a).2 = .returned r ∧
      r.newXP = row.xp + a ∧
      r.newLevel = ⌊((row.xp + a : Int) : ℚ) / 100⌋ + 1 ∧
      r.xpGained = a ∧
      (r.leveledUp = true ↔ r.newLevel > row.level) ∧
      selectUser (addXP db u a).1 u
        = some { row with xp := row.xp + a, level := ⌊((row.xp + a : Int) : ℚ) / 100⌋ + 1 } := by
  refine ⟨{ newXP := row.xp + a, newLevel := mathFloorDiv (row.xp + a) 100 + 1,
            leveledUp := decide (mathFloorDiv (row.xp + a) 100 + 1 > row.level),
            xpGained := a }, ?_, rfl, ?_, rfl, ?_, ?_⟩
  · simp [addXP, h]
  · simp only [mathFloorDiv_hundred_eq_floor]
  · simp
  · simp only [addXP, h, selectUser_updateUserXp, Option.map, mathFloorDiv_hundred_eq_floor]

theorem addXP_grant_and_level_witness :
    selectUser demoDb 2 = some { id := 2, xp := 190, level := 2 } ∧
    ∃ r : XpResult, (addXP demoDb 2 15).2 = .returned r ∧
      r.newXP = (190 : Int) + 15 ∧
      r.newLevel = ⌊(((190 : Int) + 15 : Int) : ℚ) / 100⌋ + 1 ∧
      r.xpGained = 15 ∧
      (r.leveledUp = true ↔ r.newLevel > (2 : Int)) ∧
      selectUser (addXP demoDb 2 15).1 2
        = some { id := 2, xp := (190 : Int) + 15,
                 level := ⌊(((190 : Int) + 15 : Int) : ℚ) / 100⌋ + 1 } :=
  ⟨by decide, addXP_grant_and_level demoDb 2 15 { id := 2, xp := 190, level := 2 } (by decide)⟩

/-! ### `completePomodoro` has no guard on a row that is already completed -/

theorem updateSessionCompleted_users (db : Db) (now s u : Int) :
    (updateSessionCompleted db now s u).1.users = db.users := rfl

theorem updateSessionCompleted_rows_ne_nil (db : Db) (now s u : Int)
    (h : ∃ r ∈ db.pomodoro_sessions, r.id = s ∧ r.user_id = u) :
    (updateSessionCompleted db now s u).2.length > 0 := by
  obtain ⟨r, hr, hs, hu⟩ := h
  have hmem : r ∈ db.pomodoro_sessions.filter (fun x => x.id == s && x.user_id == u) := by
    simp [List.mem_filter, hr, hs, hu]
  simp only [updateSessionCompleted, List.length_map, gt_iff_lt]
  exact List.length_pos_of_mem hmem

theorem updateSessionCompleted_keeps_owner (db : Db) (now s u : Int)
    (h : ∃ r ∈ db.pomodoro_sessions, r.id = s ∧ r.user_id = u) :
    ∃ r ∈ (updateSessionCompleted db now s u).1.pomodoro_sessions, r.id = s ∧ r.user_id = u := by
  obtain ⟨r, hr, hs, hu⟩ := h
  refine ⟨{ r with completed := true, completed_at := some now }, ?_, hs, hu⟩
  simp only [updateSessionCompleted, List.mem_map]
  exact ⟨r, hr, by simp [hs, hu]⟩

/-- On a session row owned by an existing user, `completePomodoro` returns, adds 15 to the
user's xp whatever the row's `completed` flag was, and keeps the row owned by the user. -/
theorem completePomodoro_adds_fifteen (db : Db) (now s u : Int) (row : UserRow)
    (hs : ∃ r ∈ db.pomodoro_sessions, r.id = s ∧ r.user_id = u)
    (hu : selectUser db u = some row) :
    (selectUser (completePomodoro db now s u).1 u).map (fun r => r.xp) = some (row.xp + 15) ∧
      (∃ r ∈ (completePomodoro db now s u).1.pomodoro_sessions, r.id = s ∧ r.user_id = u) := by
  have hlen := updateSessionCompleted_rows_ne_nil db now s u hs
  have hkeep := updateSessionCompleted_keeps_owner db now s u hs
  have hu1 : selectUser (updateSessionCompleted db now s u).1 u = some row := hu
  have hx : (addXP (updateSessionCompleted db now s u).1 u 15)
      = (updateUserXp (updateSessionCompleted db now s u).1 (row.xp + 15)
          (mathFloorDiv (row.xp + 15) 100 + 1) u,
         .returned { newXP := row.xp + 15, newLevel := mathFloorDiv (row.xp + 15) 100 + 1,
                     leveledUp := decide (mathFloorDiv (row.xp + 15) 100 + 1 > row.level),
                     xpGained := 15 }) := by
    simp [addXP, hu1]
  have hc : (completePomodoro db now s u).1
      = updateUserXp (updateSessionCompleted db now s u).1 (row.xp + 15)
          (mathFloorDiv (row.xp + 15) 100 + 1) u := by
    simp only [completePomodoro, hlen, if_true, hx]
  rw [hc]
  refine ⟨?_, hkeep⟩
  rw [selectUser_updateUserXp, hu1]
  rfl

/-- Two calls of `completePomodoro(s, u)` on a session row of an existing user raise the
user's xp by 15 each: after the second call it is 15 above the value after the first. -/
theorem completePomodoro_twice_adds_thirty (db : Db) (now1 now2 s u : Int) (row : UserRow)
    (hs : ∃ r ∈ db.pomodoro_sessions, r.id = s ∧ r.user_id = u)
    (hu : selectUser db u = some row) :
    (selectUser (completePomodoro db now1 s u).1 u).map (fun r => r.xp) = some (row.xp + 15) ∧
      (selectUser (completePomodoro (completePomodoro db now1 s u).1 now2 s u).1 u).map
          (fun r => r.xp) = some (row.xp + 15 + 15) := by
  obtain ⟨h1, h1s⟩ := completePomodoro_adds_fifteen db now1 s u row hs hu
  refine ⟨h1, ?_⟩
  cases hsel : selectUser (completePomodoro db now1 s u).1 u with
  | none => simp [hsel] at h1
  | some row1 =>
    have hxp : row1.xp = row.xp + 15 := by simpa [hsel] using h1
    have h2 := (completePomodoro_adds_fifteen (completePomodoro db now1 s u).1 now2 s u row1
      h1s hsel).1
    rw [h2, hxp]

/-- C2, evaluated: session 1 of user 1 (xp 0) completed twice.  The user's xp is 15 after
the first call and 30 after the second, so the award is granted twice. -/
theorem completePomodoro_twice_double_award :
    (selectUser demoRunning.db 1).map (fun r => r.xp) = some 0 ∧
      (selectUser (completePomodoro demoRunning.db 1501000 1 1).1 1).map (fun r => r.xp)
        = some 15 ∧
      (selectUser (completePomodoro (completePomodoro demoRunning.db 1501000 1 1).1
          1501000 1 1).1 1).map (fun r => r.xp) = some 30 ∧
      (completePomodoro demoRunning.db 1501000 1 1).1.pomodoro_sessions.map
          (fun r => (r.id, r.completed)) = [(1, true)] := by
  decide

/-- C10 (peek is read-only and clamped): `getActivePomodoro` leaves the world (registry,
pending timers and store) as it was; it returns `null` when the registry has no entry for
`u`, and otherwise a record whose `remaining` is `max(0, endTime - now)` while the entry of
`u` is still the registry's entry, also when `remaining` is zero. -/
theorem getActivePomodoro_read_only (w : World) (now u : Int) :
    (getActivePomodoro w now u).1 = w ∧
      match mapGet w.activeTimers u with
      | none => (getActivePomodoro w now u).2 = none
      | some e =>
        ∃ info : ActiveInfo, (getActivePomodoro w now u).2 = some info ∧
          info.sessionId = e.sessionId ∧
          info.remaining = max 0 (e.endTime - now) ∧
          0 ≤ info.remaining ∧
          mapGet (getActivePomodoro w now u).1.activeTimers u = some e := by
  unfold getActivePomodoro
  cases h : mapGet w.activeTimers u with
  | none => simp
  | some e => simp [h]

/-! ### The streak walk -/

theorem offsetAt_fixed (tz t : Int) : offsetAt (fixedZone tz) t = tz := rfl

theorem localOffsetAt_fixed (tz lt : Int) : localOffsetAt (fixedZone tz) lt = tz := rfl

/-- In a zone with one fixed offset `setHours(0, 0, 0, 0)` takes off the time of day. -/
theorem setHoursZero_fixed (tz t : Int) :
    setHoursZero (fixedZone tz) t = t - (t + tz) % msPerDay := by
  unfold setHoursZero
  simp only [offsetAt_fixed, localOffsetAt_fixed]
  ring

theorem localDay_fixed (tz t : Int) :
    localDay (fixedZone tz) t = mathFloorDiv (t + tz) msPerDay := rfl

theorem pgDate_fixed (tz day : Int) : pgDate (fixedZone tz) day = day * msPerDay - tz := rfl

/-- In a zone with one fixed offset, the day difference the loop computes is the difference
of the two local calendar days. -/
theorem daysDiff_eq (tz a b : Int) :
    mathFloorDiv (setHoursZero (fixedZone tz) a - setHoursZero (fixedZone tz) b) (1000 * 60 * 60 * 24)
      = localDay (fixedZone tz) a - localDay (fixedZone tz) b := by
  have hD : (1000 * 60 * 60 * 24 : Int) = 86400000 := by norm_num
  rw [setHoursZero_fixed, setHoursZero_fixed, localDay_fixed, localDay_fixed]
  unfold msPerDay
  rw [hD, mathFloorDiv_eq_ediv _ (by norm_num), mathFloorDiv_eq_ediv _ (by norm_num),
    mathFloorDiv_eq_ediv _ (by norm_num)]
  omega

theorem localDay_pgDate (tz day : Int) : localDay (fixedZone tz) (pgDate (fixedZone tz) day) = day := by
  have hD : (1000 * 60 * 60 * 24 : Int) = 86400000 := by norm_num
  rw [localDay_fixed, pgDate_fixed]
  unfold msPerDay
  rw [hD, mathFloorDiv_eq_ediv _ (by norm_num)]
  omega

/-- The loop from index `i`: it adds to the counter the number `k` of rows it consumes; the
rows consumed are completed and dated `i`, `i + 1`, ... days before today, and the row it
stops at, if any, is not. -/
theorem streakLoop_spec (tz now : Int) (rows : List TrackingRecord) :
    ∀ (i : Nat) (streak : Int), ∃ k : Nat,
      streakLoop (fixedZone tz) (setHoursZero (fixedZone tz) now) rows i streak = streak + k ∧
      k ≤ rows.length ∧
      (∀ j, j < k → ∃ r, rows[j]? = some r ∧ r.completed = true ∧
        localDay (fixedZone tz) r.date = localDay (fixedZone tz) now - ((i + j : Nat) : Int)) ∧
      (∀ r, rows[k]? = some r → ¬ (r.completed = true ∧
        localDay (fixedZone tz) r.date = localDay (fixedZone tz) now - ((i + k : Nat) : Int))) := by
  induction rows with
  | nil =>
    intro i streak
    exact ⟨0, by simp [streakLoop], by simp, by simp, by simp⟩
  | cons record rest ih =>
    intro i streak
    by_cases hc : record.completed = true
    · by_cases hd : localDay (fixedZone tz) now - localDay (fixedZone tz) record.date = (i : Int)
      · obtain ⟨k, hk, hlen, hgood, hstop⟩ := ih (i + 1) (streak + 1)
        refine ⟨k + 1, ?_, ?_, ?_, ?_⟩
        · simp only [streakLoop, hc, Bool.not_true, Bool.false_eq_true, if_false, daysDiff_eq,
            hd, if_true, hk]
          push_cast
          ring
        · simpa using hlen
        · intro j hj
          cases j with
          | zero =>
            refine ⟨record, by simp, hc, ?_⟩
            simp only [Nat.add_zero]
            omega
          | succ j =>
            obtain ⟨r, hr, hrc, hrd⟩ := hgood j (by omega)
            refine ⟨r, by simpa using hr, hrc, ?_⟩
            rw [hrd]
            push_cast
            ring
        · intro r hr
          have hr1 : rest[k]? = some r := by simpa using hr
          have := hstop r hr1
          intro hgoodr
          apply this
          refine ⟨hgoodr.1, ?_⟩
          rw [hgoodr.2]
          push_cast
          ring
      · refine ⟨0, ?_, by simp, by simp, ?_⟩
        · simp only [streakLoop, hc, Bool.not_true, Bool.false_eq_true, if_false, daysDiff_eq,
            hd]
          simp
        · intro r hr
          have hr0 : r = record := by simpa using hr.symm
          subst hr0
          intro hg
          apply hd
          rw [hg.2]
          simp
    · refine ⟨0, ?_, by simp, by simp, ?_⟩
      · have hcf : record.completed = false := by simpa using hc
        simp [streakLoop, hcf]
      · intro r hr
        have hr0 : r = record := by simpa using hr.symm
        subst hr0
        intro hg
        exact hc hg.1

/-- The streak in a zone with one fixed offset: for every log and every instant, the streak
the loop computes is the length of the longest run: the first `n` entries are completed and
dated today, today - 1, ..., and no longer run exists.  In particular completed entries on
`D`, `D - 1`, `D - 2`, followed by nothing or by entries the first of which is not a
completed `D - 3`, give 3 when today is `D`. -/
theorem computeStreak_longest_run_fixed (tz now : Int) (rows : List TrackingRecord) :
    (∃ n : Nat, computeStreak (fixedZone tz) now rows = (n : Int) ∧ StreakRun (fixedZone tz) now rows n ∧
      ∀ m, StreakRun (fixedZone tz) now rows m → m ≤ n) ∧
    computeStreak (fixedZone tz) now (threeDayLog (fixedZone tz) (localDay (fixedZone tz) now)) = 3 ∧
    ∀ (x : TrackingRecord) (more : List TrackingRecord),
      ¬ (x.completed = true ∧ localDay (fixedZone tz) x.date = localDay (fixedZone tz) now - 3) →
      computeStreak (fixedZone tz) now (threeDayLog (fixedZone tz) (localDay (fixedZone tz) now) ++ x :: more) = 3 := by
  have main : ∀ rows : List TrackingRecord,
      ∃ n : Nat, computeStreak (fixedZone tz) now rows = (n : Int) ∧ StreakRun (fixedZone tz) now rows n ∧
        ∀ m, StreakRun (fixedZone tz) now rows m → m ≤ n := by
    intro rows
    obtain ⟨k, hk, hlen, hgood, hstop⟩ := streakLoop_spec tz now rows 0 0
    refine ⟨k, by simpa [computeStreak] using hk, ⟨hlen, ?_⟩, ?_⟩
    · intro i hi
      simpa using hgood i hi
    · intro m hm
      by_contra hlt
      have hkm : k < m := by omega
      obtain ⟨r, hr, hrc, hrd⟩ := hm.2 k hkm
      exact hstop r hr ⟨hrc, by simpa using hrd⟩
  have run3 : ∀ tail : List TrackingRecord,
      StreakRun (fixedZone tz) now (threeDayLog (fixedZone tz) (localDay (fixedZone tz) now) ++ tail) 3 := by
    intro tail
    refine ⟨by simp [threeDayLog], ?_⟩
    intro i hi
    have hcases : i = 0 ∨ i = 1 ∨ i = 2 := by omega
    rcases hcases with h | h | h <;> subst h <;>
      simp [threeDayLog, localDay_pgDate]
  refine ⟨main rows, ?_, ?_⟩
  · obtain ⟨n, hn, hrun, hmax⟩ := main (threeDayLog (fixedZone tz) (localDay (fixedZone tz) now))
    have h3 : 3 ≤ n := hmax 3 (by simpa using run3 [])
    have hle : n ≤ 3 := by simpa [threeDayLog] using hrun.1
    have : n = 3 := by omega
    rw [hn, this]; rfl
  · intro x more hx
    obtain ⟨n, hn, hrun, hmax⟩ := main (threeDayLog (fixedZone tz) (localDay (fixedZone tz) now) ++ x :: more)
    have h3 : 3 ≤ n := hmax 3 (run3 (x :: more))
    have hle : n ≤ 3 := by
      by_contra hgt
      obtain ⟨r, hr, hrc, hrd⟩ := hrun.2 3 (by omega)
      have hrx : r = x := by simpa [threeDayLog] using hr.symm
      subst hrx
      exact hx ⟨hrc, by simpa using hrd⟩
    have : n = 3 := by omega
    rw [hn, this]; rfl

theorem computeStreak_longest_run_fixed_witness :
    ¬ ((⟨pgDate (fixedZone 10800000) 19996, true⟩ : TrackingRecord).completed = true ∧
        localDay (fixedZone 10800000) (⟨pgDate (fixedZone 10800000) 19996, true⟩ : TrackingRecord).date
          = localDay (fixedZone 10800000) 1728000000000 - 3) ∧
      computeStreak (fixedZone 10800000) 1728000000000
        (threeDayLog (fixedZone 10800000) (localDay (fixedZone 10800000) 1728000000000)
          ++ ⟨pgDate (fixedZone 10800000) 19996, true⟩ :: []) = 3 :=
  ⟨by decide, (computeStreak_longest_run_fixed 10800000 1728000000000 []).2.2
    ⟨pgDate (fixedZone 10800000) 19996, true⟩ [] (by decide)⟩

/-- The reset in a zone with one fixed offset: a log whose most recent entry is not dated
today, in the past or in the future, has streak 0 whatever follows; the empty log has
streak 0. -/
theorem computeStreak_reset_fixed (tz now : Int) (r : TrackingRecord) (rest : List TrackingRecord)
    (h : localDay (fixedZone tz) r.date ≠ localDay (fixedZone tz) now) :
    computeStreak (fixedZone tz) now (r :: rest) = 0 ∧ computeStreak (fixedZone tz) now [] = 0 := by
  refine ⟨?_, rfl⟩
  unfold computeStreak
  by_cases hc : r.completed = true
  · have hd : ¬ localDay (fixedZone tz) now - localDay (fixedZone tz) r.date = 0 := by omega
    simp only [streakLoop, hc, Bool.not_true, Bool.false_eq_true, if_false, daysDiff_eq]
    simp [hd]
  · have hcf : r.completed = false := by simpa using hc
    simp [streakLoop, hcf]

theorem computeStreak_reset_fixed_witness :
    localDay (fixedZone 0) (⟨pgDate (fixedZone 0) 19995, true⟩ : TrackingRecord).date ≠ localDay (fixedZone 0) 1728000000000 ∧
      computeStreak (fixedZone 0) 1728000000000 [⟨pgDate (fixedZone 0) 19995, true⟩] = 0 ∧
      computeStreak (fixedZone 0) 1728000000000 [] = 0 :=
  ⟨by decide, computeStreak_reset_fixed 0 1728000000000 ⟨pgDate (fixedZone 0) 19995, true⟩ [] (by decide)⟩

/-! ### The streak across a change of offset -/

/-- C4 (streak definition), evaluated in `America/New_York` on 2024-03-11, the day after the
clocks went forward.  The log holds completed entries for 03-11, 03-10 and 03-09 (days
19793, 19792, 19791), a run of length 3 in the sense of the claim.  Local midnight of 03-11
is 23 hours after local midnight of 03-10, so the day difference the loop computes at
index 1 is `floor(23 / 24) = 0`, not 1; the loop breaks there and the streak is 1, not 3,
which is also what `updateHabitStreak` returns for a habit with these three entries. -/
theorem computeStreak_short_after_clock_change :
    localDay newYork2024 1710172800000 = 19793 ∧
    threeDayLog newYork2024 19793
      = [⟨1710129600000, true⟩, ⟨1710046800000, true⟩, ⟨1709960400000, true⟩] ∧
    StreakRun newYork2024 1710172800000 (threeDayLog newYork2024 19793) 3 ∧
    setHoursZero newYork2024 1710172800000 = 1710129600000 ∧
    setHoursZero newYork2024 1710046800000 = 1710046800000 ∧
    1710129600000 - 1710046800000 = 23 * (3600000 : Int) ∧
    mathFloorDiv (setHoursZero newYork2024 1710172800000
        - setHoursZero newYork2024 (pgDate newYork2024 19792)) (1000 * 60 * 60 * 24) = 0 ∧
    computeStreak newYork2024 1710172800000 (threeDayLog newYork2024 19793) = 1 ∧
    (updateHabitStreak
        { freshHabitDb with habit_tracking :=
            [{ habit_id := 7, user_id := 1, date := 19791, completed := true },
             { habit_id := 7, user_id := 1, date := 19792, completed := true },
             { habit_id := 7, user_id := 1, date := 19793, completed := true }] }
        newYork2024 1710172800000 7 1).2 = .returned 1 := by
  refine ⟨by decide, by decide, ⟨by decide, ?_⟩, by decide, by decide, by decide, by decide,
    by decide, by decide⟩
  intro i hi
  interval_cases i
  · exact ⟨_, rfl, rfl, by decide⟩
  · exact ⟨_, rfl, rfl, by decide⟩
  · exact ⟨_, rfl, rfl, by decide⟩

/-- C5 (streak reset), evaluated in `America/New_York` on 2024-03-11.  The log holds one
completed entry, for 03-10: its most recent entry is not dated today.  Local midnight of
03-11 is 23 hours after local midnight of 03-10, the day difference at index 0 is
`floor(23 / 24) = 0`, and the streak is 1, not 0; it stays 1 with older entries behind. -/
theorem computeStreak_no_reset_after_clock_change :
    localDay newYork2024 1710172800000 = 19793 ∧
    localDay newYork2024 (pgDate newYork2024 19792) = 19792 ∧
    localDay newYork2024 (pgDate newYork2024 19792) ≠ localDay newYork2024 1710172800000 ∧
    mathFloorDiv (setHoursZero newYork2024 1710172800000
        - setHoursZero newYork2024 (pgDate newYork2024 19792)) (1000 * 60 * 60 * 24) = 0 ∧
    computeStreak newYork2024 1710172800000 [⟨pgDate newYork2024 19792, true⟩] = 1 ∧
    computeStreak newYork2024 1710172800000
      [⟨pgDate newYork2024 19792, true⟩, ⟨pgDate newYork2024 19780, true⟩] = 1 := by
  refine ⟨by decide, by decide, by decide, by decide, by decide, by decide⟩

/-! ### The habits table under `updateHabitStreak` -/

theorem find_habit_map_update (habits : List HabitRow) (s b hid u : Int) :
    (habits.map (fun h => if h.id == hid && h.user_id == u then
        { h with streak := some s, best_streak := some (max s b) } else h)).find?
        (fun h => h.id == hid && h.user_id == u)
      = (habits.find? (fun h => h.id == hid && h.user_id == u)).map
          (fun h => { h with streak := some s, best_streak := some (max s b) }) := by
  induction habits with
  | nil => rfl
  | cons r rest ih =>
    rw [List.map_cons, List.find?_cons, List.find?_cons]
    cases hb : (r.id == hid && r.user_id == u) with
    | true => simp [hb]
    | false =>
      simp only [hb, Bool.false_eq_true, if_false]
      exact ih

theorem updateHabitStreak_found (db : Db) (z : Zone) (now hid u : Int) (h : HabitRow)
    (hf : db.habits.find? (fun h => h.id == hid && h.user_id == u) = some h) :
    updateHabitStreak db z now hid u
      = (updateHabitCounters db (computeStreak z now (selectTracking db z hid u))
          (orZero h.best_streak) hid u,
         .returned (computeStreak z now (selectTracking db z hid u))) := by
  simp [updateHabitStreak, hf]

theorem updateHabitStreak_not_found (db : Db) (z : Zone) (now hid u : Int)
    (hf : db.habits.find? (fun h => h.id == hid && h.user_id == u) = none) :
    updateHabitStreak db z now hid u
      = (db, .thrown "Привычка не найдена при обновлении streak") := by
  simp [updateHabitStreak, hf]

/-- C7 (best-streak update): a call of `updateHabitStreak` that returns has returned the
computed current streak and has stored, in the habit's row, `streak` = that value and
`best_streak` = max(previous `best_streak` or 0, that value); so the stored best streak
after the call is at least the one stored before it. -/
theorem updateHabitStreak_stores_best (db : Db) (z : Zone) (now hid u s : Int)
    (hret : (updateHabitStreak db z now hid u).2 = .returned s) :
    s = computeStreak z now (selectTracking db z hid u) ∧
    ∃ h : HabitRow,
      db.habits.find? (fun h => h.id == hid && h.user_id == u) = some h ∧
      (updateHabitStreak db z now hid u).1.habits.find?
          (fun h => h.id == hid && h.user_id == u)
        = some { h with streak := some s, best_streak := some (max (orZero h.best_streak) s) } ∧
      orZero h.best_streak ≤ max (orZero h.best_streak) s := by
  cases hf : db.habits.find? (fun h => h.id == hid && h.user_id == u) with
  | none =>
    rw [updateHabitStreak_not_found db z now hid u hf] at hret
    cases hret
  | some h =>
    rw [updateHabitStreak_found db z now hid u h hf] at hret ⊢
    have hs : computeStreak z now (selectTracking db z hid u) = s := by
      simpa using hret
    refine ⟨hs.symm, h, rfl, ?_, le_max_left _ _⟩
    simp only [updateHabitCounters]
    rw [find_habit_map_update, hf, hs, max_comm]
    rfl

theorem updateHabitStreak_stores_best_witness :
    (updateHabitStreak habitDb (fixedZone 0) 1728000000000 7 1).2 = .returned 2 ∧
    (2 : Int) = computeStreak (fixedZone 0) 1728000000000 (selectTracking habitDb (fixedZone 0) 7 1) ∧
    ∃ h : HabitRow,
      habitDb.habits.find? (fun h => h.id == 7 && h.user_id == 1) = some h ∧
      (updateHabitStreak habitDb (fixedZone 0) 1728000000000 7 1).1.habits.find?
          (fun h => h.id == 7 && h.user_id == 1)
        = some { h with streak := some 2, best_streak := some (max (orZero h.best_streak) 2) } ∧
      orZero h.best_streak ≤ max (orZero h.best_streak) 2 :=
  ⟨by decide, updateHabitStreak_stores_best habitDb (fixedZone 0) 1728000000000 7 1 2 (by decide)⟩

/-! ### Sequences of streak updates -/

/-- The loop only ever adds to the counter, in every zone. -/
theorem streakLoop_ge (z : Zone) (today : Int) (rows : List TrackingRecord) :
    ∀ (i : Nat) (streak : Int), streak ≤ streakLoop z today rows i streak := by
  induction rows with
  | nil => intro i streak; simp [streakLoop]
  | cons record rest ih =>
    intro i streak
    unfold streakLoop
    split
    · exact le_refl _
    · simp only
      split
      · have := ih (i + 1) (streak + 1)
        omega
      · exact le_refl _

theorem computeStreak_nonneg (z : Zone) (now : Int) (rows : List TrackingRecord) :
    0 ≤ computeStreak z now rows := by
  unfold computeStreak
  exact streakLoop_ge z _ rows 0 0

theorem foldl_max_ge_init (vs : List Int) : ∀ b : Int, b ≤ vs.foldl max b := by
  induction vs with
  | nil => intro b; simp
  | cons v rest ih =>
    intro b
    simp only [List.foldl_cons]
    exact le_trans (le_max_left b v) (ih (max b v))

theorem foldl_max_ge_mem (vs : List Int) : ∀ b : Int, ∀ v ∈ vs, v ≤ vs.foldl max b := by
  induction vs with
  | nil => intro b v hv; simp at hv
  | cons x rest ih =>
    intro b v hv
    simp only [List.foldl_cons]
    rcases List.mem_cons.mp hv with h | h
    · subst h
      exact le_trans (le_max_right b v) (foldl_max_ge_init rest (max b v))
    · exact ih (max b x) v h

theorem foldl_max_init_or_mem (vs : List Int) :
    ∀ b : Int, vs.foldl max b = b ∨ vs.foldl max b ∈ vs := by
  induction vs with
  | nil => intro b; simp
  | cons x rest ih =>
    intro b
    simp only [List.foldl_cons]
    rcases ih (max b x) with h | h
    · rcases max_choice b x with hm | hm
      · left; rw [h, hm]
      · right; rw [h, hm]; exact List.mem_cons_self _ _
    · right; exact List.mem_cons_of_mem _ h

/-- The run of calls on a habit whose row exists: every call returns its computed streak,
and the stored best streak is the fold of `max` over them, from the stored start value. -/
theorem runStreakCalls_fold (z : Zone) (hid u : Int) (db0 : Db) (cs : List StreakCall) :
    ∀ (db : Db) (h : HabitRow) (b : Int),
      db.habits.find? (fun h => h.id == hid && h.user_id == u) = some h →
      h.best_streak = some b →
      (runStreakCalls z hid u db cs).2 = cs.map (callStreak db0 z hid u) ∧
      ∃ h1 : HabitRow,
        (runStreakCalls z hid u db cs).1.habits.find?
          (fun h => h.id == hid && h.user_id == u) = some h1 ∧
        h1.best_streak = some ((cs.map (callStreak db0 z hid u)).foldl max b) := by
  induction cs with
  | nil =>
    intro db h b hf hb
    exact ⟨rfl, h, hf, by simpa using hb⟩
  | cons c rest ih =>
    intro db h b hf hb
    have hf1 : ({ db with habit_tracking := c.log } : Db).habits.find?
        (fun h => h.id == hid && h.user_id == u) = some h := hf
    have hcall := updateHabitStreak_found { db with habit_tracking := c.log } z c.now hid u h hf1
    have hsame : computeStreak z c.now
        (selectTracking { db with habit_tracking := c.log } z hid u)
        = callStreak db0 z hid u c := rfl
    rw [hsame] at hcall
    have hfind : (updateHabitCounters { db with habit_tracking := c.log }
        (callStreak db0 z hid u c) (orZero h.best_streak) hid u).habits.find?
        (fun h => h.id == hid && h.user_id == u)
        = some { h with streak := some (callStreak db0 z hid u c),
                        best_streak := some (max (callStreak db0 z hid u c)
                          (orZero h.best_streak)) } := by
      simp only [updateHabitCounters]
      rw [find_habit_map_update, hf]
      rfl
    obtain ⟨hvals, h1, hh1, hbest⟩ := ih _ _ (max (callStreak db0 z hid u c)
      (orZero h.best_streak)) hfind rfl
    have hrun : runStreakCalls z hid u db (c :: rest)
        = ((runStreakCalls z hid u (updateHabitCounters { db with habit_tracking := c.log }
              (callStreak db0 z hid u c) (orZero h.best_streak) hid u) rest).1,
           callStreak db0 z hid u c ::
            (runStreakCalls z hid u (updateHabitCounters { db with habit_tracking := c.log }
              (callStreak db0 z hid u c) (orZero h.best_streak) hid u) rest).2) := by
      simp only [runStreakCalls, hcall]
    rw [hrun]
    refine ⟨by simp [hvals], h1, hh1, ?_⟩
    rw [hbest]
    have hob : orZero h.best_streak = b := by simp [hb, orZero]
    simp only [List.map_cons, List.foldl_cons, hob, max_comm]

/-- C8 (best streak is the running maximum): for a habit whose row holds `best_streak` 0
(as a created habit does, next to `streak` 0), after any sequence of `updateHabitStreak` calls (each with its own log and
instant) every call has returned its computed streak, and the stored `best_streak` is the
maximum of those values: no value exceeds it, it is one of them when there is a call, and
it is 0 when there is none. -/
theorem best_streak_is_running_max (z : Zone) (hid u : Int) (db : Db) (h : HabitRow)
    (cs : List StreakCall)
    (hf : db.habits.find? (fun h => h.id == hid && h.user_id == u) = some h)
    (hb : h.best_streak = some 0) :
    (runStreakCalls z hid u db cs).2 = cs.map (callStreak db z hid u) ∧
    ∃ (h1 : HabitRow) (B : Int),
      (runStreakCalls z hid u db cs).1.habits.find?
        (fun h => h.id == hid && h.user_id == u) = some h1 ∧
      h1.best_streak = some B ∧
      (∀ v ∈ cs.map (callStreak db z hid u), v ≤ B) ∧
      (cs = [] → B = 0) ∧
      (cs ≠ [] → B ∈ cs.map (callStreak db z hid u)) := by
  obtain ⟨hvals, h1, hh1, hbest⟩ := runStreakCalls_fold z hid u db cs db h 0 hf hb
  refine ⟨hvals, h1, _, hh1, hbest, foldl_max_ge_mem _ 0, ?_, ?_⟩
  · intro hnil
    subst hnil
    rfl
  · intro hne
    rcases foldl_max_init_or_mem (cs.map (callStreak db z hid u)) 0 with h0 | hmem
    · cases cs with
      | nil => exact absurd rfl hne
      | cons c rest =>
        have hc0 : 0 ≤ callStreak db z hid u c := computeStreak_nonneg _ _ _
        have hcle : callStreak db z hid u c
            ≤ ((c :: rest).map (callStreak db z hid u)).foldl max 0 :=
          foldl_max_ge_mem _ 0 _ (by simp)
        rw [h0] at hcle ⊢
        have : callStreak db z hid u c = 0 := le_antisymm hcle hc0
        rw [← this]
        simp
    · exact hmem

theorem best_streak_is_running_max_witness :
    (runStreakCalls (fixedZone 0) 7 1 habitDb
        [⟨habitDb.habit_tracking, 1728000000000⟩, ⟨[], 1728000000000⟩]).2
      = [⟨habitDb.habit_tracking, 1728000000000⟩, ⟨[], 1728000000000⟩].map
          (callStreak habitDb (fixedZone 0) 7 1) ∧
    ∃ (h1 : HabitRow) (B : Int),
      (runStreakCalls (fixedZone 0) 7 1 habitDb
        [⟨habitDb.habit_tracking, 1728000000000⟩, ⟨[], 1728000000000⟩]).1.habits.find?
        (fun h => h.id == 7 && h.user_id == 1) = some h1 ∧
      h1.best_streak = some B ∧
      (∀ v ∈ [⟨habitDb.habit_tracking, 1728000000000⟩, ⟨[], 1728000000000⟩].map
          (callStreak habitDb (fixedZone 0) 7 1), v ≤ B) ∧
      (([⟨habitDb.habit_tracking, 1728000000000⟩, ⟨[], 1728000000000⟩] : List StreakCall) = []
        → B = 0) ∧
      (([⟨habitDb.habit_tracking, 1728000000000⟩, ⟨[], 1728000000000⟩] : List StreakCall) ≠ []
        → B ∈ [⟨habitDb.habit_tracking, 1728000000000⟩, ⟨[], 1728000000000⟩].map
          (callStreak habitDb (fixedZone 0) 7 1)) :=
  best_streak_is_running_max (fixedZone 0) 7 1 habitDb
    { id := 7, user_id := 1, name := ['r', 'u', 'n'], streak := some 0,
      best_streak := some 0, active := true }
    [⟨habitDb.habit_tracking, 1728000000000⟩, ⟨[], 1728000000000⟩]
    (by decide) (by decide)

/-! ### The same-day check of `markHabitComplete` -/

theorem existing_head_of_unique (rows : List TrackingRow) (hid day : Int) (r : TrackingRow)
    (huniq : UniqueTracking rows) (hr : r ∈ rows) (hh : r.habit_id = hid) (hd : r.date = day) :
    (rows.filter (fun x => x.habit_id == hid && x.date == day)).head? = some r := by
  induction rows with
  | nil => simp at hr
  | cons a rest ih =>
    have hpair := List.pairwise_cons.mp huniq
    rcases List.mem_cons.mp hr with h | h
    · subst h
      simp [List.filter_cons, hh, hd]
    · have hne : ¬ (a.habit_id = r.habit_id ∧ a.date = r.date) := hpair.1 r h
      have hb : (a.habit_id == hid && a.date == day) = false := by
        rw [← hh, ← hd]
        simpa using hne
      rw [List.filter_cons, hb]
      exact ih hpair.2 h

/-- C6 (idempotent same-day mark): when the argument names habit `h` of user `u` and the
tracking log (with at most one row per habit and date) already holds a completed entry for
`h` on today's date, `markHabitComplete` returns the already-marked result with the stored
streak and leaves the whole store as it was: tracking log, `streak` and `best_streak` of
every habit, and xp and level of every user. -/
theorem markHabitComplete_same_day (db : Db) (z : Zone) (now u : Int) (arg : HabitArg) (h : HabitRow)
    (r : TrackingRow)
    (hres : resolveHabit db arg u = .returned h)
    (huniq : UniqueTracking db.habit_tracking)
    (hr : r ∈ db.habit_tracking) (hh : r.habit_id = h.id) (hd : r.date = utcDay now)
    (hc : r.completed = true) :
    (markHabitComplete db z now arg u).2
        = .returned { message := some "Привычка уже отмечена на сегодня!", habit := h,
                      streak := orZero h.streak } ∧
      (markHabitComplete db z now arg u).1 = db ∧
      (markHabitComplete db z now arg u).1.habit_tracking = db.habit_tracking ∧
      (markHabitComplete db z now arg u).1.habits = db.habits ∧
      (markHabitComplete db z now arg u).1.users = db.users := by
  have hhead := existing_head_of_unique db.habit_tracking h.id (utcDay now) r huniq hr hh hd
  have hlen : (db.habit_tracking.filter
      (fun x => x.habit_id == h.id && x.date == utcDay now)).length > 0 := by
    cases hl : db.habit_tracking.filter (fun x => x.habit_id == h.id && x.date == utcDay now) with
    | nil => simp [hl] at hhead
    | cons a rest => simp
  have hmark : markHabitComplete db z now arg u
      = (db, .returned { message := some "Привычка уже отмечена на сегодня!", habit := h,
                         streak := orZero h.streak }) := by
    simp only [markHabitComplete, hres]
    simp [hlen, hhead, hc]
  rw [hmark]
  exact ⟨rfl, rfl, rfl, rfl, rfl⟩

theorem markHabitComplete_same_day_witness :
    resolveHabit habitDbMarked (.str ['7']) 1
        = .returned { id := 7, user_id := 1, name := ['r', 'u', 'n'], streak := some 2,
                      best_streak := some 2, active := true } ∧
      (markHabitComplete habitDbMarked (fixedZone 0) 1728000000000 (.str ['7']) 1).2
        = .returned { message := some "Привычка уже отмечена на сегодня!",
                      habit := { id := 7, user_id := 1, name := ['r', 'u', 'n'],
                                 streak := some 2, best_streak := some 2, active := true },
                      streak := 2 } ∧
      (markHabitComplete habitDbMarked (fixedZone 0) 1728000000000 (.str ['7']) 1).1 = habitDbMarked :=
  ⟨by decide,
    (markHabitComplete_same_day habitDbMarked (fixedZone 0) 1728000000000 1 (.str ['7'])
      { id := 7, user_id := 1, name := ['r', 'u', 'n'], streak := some 2,
        best_streak := some 2, active := true }
      { habit_id := 7, user_id := 1, date := 20000, completed := true }
      (by decide) (by decide) (by decide) (by decide) (by decide) (by decide)).1,
    (markHabitComplete_same_day habitDbMarked (fixedZone 0) 1728000000000 1 (.str ['7'])
      { id := 7, user_id := 1, name := ['r', 'u', 'n'], streak := some 2,
        best_streak := some 2, active := true }
      { habit_id := 7, user_id := 1, date := 20000, completed := true }
      (by decide) (by decide) (by decide) (by decide) (by decide) (by decide)).2.1⟩

/-! ### The scheduler's steps keep registry, timers and rows in agreement -/

theorem mem_of_mapGet {m : List (Int × TimerEntry)} {u : Int} {e : TimerEntry}
    (h : mapGet m u = some e) : (u, e) ∈ m := by
  unfold mapGet at h
  cases hf : m.find? (fun kv => kv.1 == u) with
  | none => simp [hf] at h
  | some kv =>
    have hmem := List.mem_of_find?_eq_some hf
    have hkey : kv.1 = u := by simpa using List.find?_some hf
    have hval : kv.2 = e := by simpa [hf] using h
    have : kv = (u, e) := by
      cases kv
      simp only at hkey hval
      rw [hkey, hval]
    rw [← this]
    exact hmem

theorem mem_mapSet {m : List (Int × TimerEntry)} {u : Int} {e : TimerEntry}
    {kv : Int × TimerEntry} (h : kv ∈ mapSet m u e) : kv ∈ m ∨ kv = (u, e) := by
  induction m with
  | nil =>
    right
    simpa [mapSet] using h
  | cons a rest ih =>
    unfold mapSet at h
    by_cases ha : (a.1 == u) = true
    · rw [if_pos ha] at h
      rcases List.mem_cons.mp h with h1 | h1
      · right; exact h1
      · left; exact List.mem_cons_of_mem _ h1
    · rw [if_neg ha] at h
      rcases List.mem_cons.mp h with h1 | h1
      · left; rw [h1]; exact List.mem_cons_self _ _
      · rcases ih h1 with h2 | h2
        · left; exact List.mem_cons_of_mem _ h2
        · right; exact h2

theorem mem_mapDelete {m : List (Int × TimerEntry)} {u : Int} {kv : Int × TimerEntry}
    (h : kv ∈ mapDelete m u) : kv ∈ m :=
  (List.mem_filter.mp h).1

theorem mem_clearTimeout {p : List PendingTimer} {tid : Nat} {t : PendingTimer}
    (h : t ∈ clearTimeout p tid) : t ∈ p ∧ t.timerId ≠ tid := by
  have := List.mem_filter.mp h
  exact ⟨this.1, by simpa using this.2⟩

theorem initial_consistent (w : World) (h : InitialWorld w) : Consistent w := by
  obtain ⟨ha, hp, _, hrows⟩ := h
  constructor
  · intro kv hkv; rw [ha] at hkv; simp at hkv
  · intro t ht; rw [hp] at ht; simp at ht
  · exact hrows
  · intro kv hkv; rw [ha] at hkv; simp at hkv
  · intro t ht; rw [hp] at ht; simp at ht
  · intro t ht; rw [hp] at ht; simp at ht
  · intro kv hkv; rw [ha] at hkv; simp at hkv

/-- The world a start leaves behind: unchanged (rejected), the sequence advanced (the
insert was refused), or one new row, registry entry and timer with fresh ids. -/
theorem startPomodoro_world (w : World) (now u : Int) (task : Option Int) (d : Int) :
    (startPomodoro w now u task d).1 = w ∨
    (startPomodoro w now u task d).1
      = { w with db := { w.db with pomodoro_seq := w.db.pomodoro_seq + 1 } } ∨
    (startPomodoro w now u task d).1
      = { db := { w.db with
                  pomodoro_sessions := w.db.pomodoro_sessions ++
                    [{ id := w.db.pomodoro_seq, user_id := u, task_id := orNull task,
                       duration := d, completed := false, started_at := now,
                       completed_at := none }],
                  pomodoro_seq := w.db.pomodoro_seq + 1 },
          activeTimers := mapSet w.activeTimers u
            { sessionId := w.db.pomodoro_seq, timerId := w.timerSeq,
              endTime := now + d * 60 * 1000 },
          pending := w.pending ++
            [{ timerId := w.timerSeq, sessionId := w.db.pomodoro_seq, userId := u,
               fireAt := now + timeoutDelay (d * 60 * 1000) }],
          timerSeq := w.timerSeq + 1 } := by
  unfold startPomodoro
  by_cases hhas : mapHas w.activeTimers u = true
  · left; simp [hhas]
  · right
    simp only [hhas, Bool.false_eq_true, if_false]
    unfold insertSession
    by_cases hok : ((w.db.users.any fun x => x.id == u) &&
        match orNull task with
        | none => true
        | some t => w.db.tasks.any fun k => k.id == t) = true
    · right; simp only [hok, if_true]
    · left; simp only [hok, Bool.false_eq_true, if_false]

theorem consistent_start (w : World) (now u : Int) (task : Option Int) (d : Int)
    (hc : Consistent w) : Consistent (startPomodoro w now u task d).1 := by
  rcases startPomodoro_world w now u task d with h | h | h
  · rw [h]; exact hc
  · rw [h]
    constructor
    · intro kv hkv
      have := hc.entry_bound kv hkv
      exact ⟨by simp only; omega, this.2⟩
    · intro t ht
      have := hc.timer_bound t ht
      exact ⟨by simp only; omega, this.2⟩
    · intro s hs
      have := hc.row_bound s hs
      simp only; omega
    · exact hc.entry_timer
    · exact hc.timer_timer
    · exact hc.timer_open
    · exact hc.entry_row
  · rw [h]
    constructor
    · intro kv hkv
      rcases mem_mapSet hkv with h1 | h1
      · have := hc.entry_bound kv h1
        exact ⟨by simp only; omega, by simp only; omega⟩
      · subst h1
        exact ⟨by simp only; omega, by simp only; omega⟩
    · intro t ht
      rcases List.mem_append.mp ht with h1 | h1
      · have := hc.timer_bound t h1
        exact ⟨by simp only; omega, by simp only; omega⟩
      · have ht1 := List.mem_singleton.mp h1
        subst ht1
        exact ⟨by simp only; omega, by simp only; omega⟩
    · intro s hs
      rcases List.mem_append.mp hs with h1 | h1
      · have := hc.row_bound s h1
        simp only; omega
      · have hs1 := List.mem_singleton.mp h1
        subst hs1
        simp only; omega
    · intro kv hkv t ht
      rcases mem_mapSet hkv with h1 | h1 <;> rcases List.mem_append.mp ht with h2 | h2
      · exact hc.entry_timer kv h1 t h2
      · have ht1 := List.mem_singleton.mp h2
        subst ht1
        have := hc.entry_bound kv h1
        constructor
        · intro heq; simp only at heq; omega
        · intro heq; simp only at heq; omega
      · subst h1
        have := hc.timer_bound t h2
        constructor
        · intro heq; simp only at heq; omega
        · intro heq; simp only at heq; omega
      · have ht1 := List.mem_singleton.mp h2
        subst ht1; subst h1
        simp
    · intro t1 ht1 t2 ht2
      rcases List.mem_append.mp ht1 with h1 | h1 <;> rcases List.mem_append.mp ht2 with h2 | h2
      · exact hc.timer_timer t1 h1 t2 h2
      · have e2 := List.mem_singleton.mp h2
        subst e2
        have := hc.timer_bound t1 h1
        constructor
        · intro heq; simp only at heq; omega
        · intro heq; simp only at heq; omega
      · have e1 := List.mem_singleton.mp h1
        subst e1
        have := hc.timer_bound t2 h2
        constructor
        · intro heq; simp only at heq; omega
        · intro heq; simp only at heq; omega
      · have e1 := List.mem_singleton.mp h1
        have e2 := List.mem_singleton.mp h2
        subst e1; subst e2
        simp
    · intro t ht s hs hid
      rcases List.mem_append.mp ht with h1 | h1 <;> rcases List.mem_append.mp hs with h2 | h2
      · exact hc.timer_open t h1 s h2 hid
      · have e2 := List.mem_singleton.mp h2
        subst e2
        exact ⟨rfl, rfl⟩
      · have e1 := List.mem_singleton.mp h1
        subst e1
        have := hc.row_bound s h2
        simp only at hid; omega
      · have e2 := List.mem_singleton.mp h2
        subst e2
        exact ⟨rfl, rfl⟩
    · intro kv hkv
      rcases mem_mapSet hkv with h1 | h1
      · obtain ⟨s, hs, hid⟩ := hc.entry_row kv h1
        exact ⟨s, List.mem_append_left _ hs, hid⟩
      · subst h1
        exact ⟨_, List.mem_append_right _ (List.mem_singleton.mpr rfl), rfl⟩

theorem stopPomodoro_world (w : World) (u : Int) :
    (mapGet w.activeTimers u = none ∧ (stopPomodoro w u).1 = w) ∨
    ∃ e, mapGet w.activeTimers u = some e ∧
      stopPomodoro w u
        = ({ db := updateSessionNotCompleted w.db e.sessionId,
             activeTimers := mapDelete w.activeTimers u,
             pending := clearTimeout w.pending e.timerId,
             timerSeq := w.timerSeq },
           .returned (.message "Pomodoro сессия остановлена")) := by
  unfold stopPomodoro
  cases h : mapGet w.activeTimers u with
  | none => left; exact ⟨rfl, rfl⟩
  | some e => right; exact ⟨e, rfl, rfl⟩

theorem mem_sessions_notCompleted {db : Db} {sid : Int} {s : PomodoroSession}
    (h : s ∈ (updateSessionNotCompleted db sid).pomodoro_sessions) :
    ∃ s0 ∈ db.pomodoro_sessions, s.id = s0.id ∧ s.completed_at = s0.completed_at ∧
      (s = s0 ∨ s.completed = false) := by
  simp only [updateSessionNotCompleted, List.mem_map] at h
  obtain ⟨s0, hs0, heq⟩ := h
  refine ⟨s0, hs0, ?_⟩
  by_cases hb : (s0.id == sid) = true
  · rw [if_pos hb] at heq
    subst heq
    exact ⟨rfl, rfl, Or.inr rfl⟩
  · rw [if_neg hb] at heq
    subst heq
    exact ⟨rfl, rfl, Or.inl rfl⟩

theorem sessions_notCompleted_keep_ids (db : Db) (sid : Int) {s0 : PomodoroSession}
    (h : s0 ∈ db.pomodoro_sessions) :
    ∃ s ∈ (updateSessionNotCompleted db sid).pomodoro_sessions, s.id = s0.id := by
  simp only [updateSessionNotCompleted, List.mem_map]
  by_cases hb : (s0.id == sid) = true
  · exact ⟨_, ⟨s0, h, rfl⟩, by rw [if_pos hb]⟩
  · exact ⟨_, ⟨s0, h, rfl⟩, by rw [if_neg hb]⟩

theorem consistent_stop (w : World) (u : Int) (hc : Consistent w) :
    Consistent (stopPomodoro w u).1 := by
  rcases stopPomodoro_world w u with ⟨_, h⟩ | ⟨e, _, h⟩
  · rw [h]; exact hc
  · rw [h]
    constructor
    · intro kv hkv
      exact hc.entry_bound kv (mem_mapDelete hkv)
    · intro t ht
      exact hc.timer_bound t (mem_clearTimeout ht).1
    · intro s hs
      obtain ⟨s0, hs0, hid, _, _⟩ := mem_sessions_notCompleted hs
      rw [hid]
      exact hc.row_bound s0 hs0
    · intro kv hkv t ht
      exact hc.entry_timer kv (mem_mapDelete hkv) t (mem_clearTimeout ht).1
    · intro t1 ht1 t2 ht2
      exact hc.timer_timer t1 (mem_clearTimeout ht1).1 t2 (mem_clearTimeout ht2).1
    · intro t ht s hs hid
      obtain ⟨s0, hs0, hid0, hat, hcomp⟩ := mem_sessions_notCompleted hs
      have h0 := hc.timer_open t (mem_clearTimeout ht).1 s0 hs0 (by rw [← hid0]; exact hid)
      refine ⟨?_, by rw [hat]; exact h0.2⟩
      rcases hcomp with h1 | h1
      · rw [h1]; exact h0.1
      · exact h1
    · intro kv hkv
      obtain ⟨s0, hs0, hid⟩ := hc.entry_row kv (mem_mapDelete hkv)
      obtain ⟨s, hs, hids⟩ := sessions_notCompleted_keep_ids _ e.sessionId hs0
      exact ⟨s, hs, by rw [hids]; exact hid⟩

theorem addXP_db (db : Db) (u a : Int) :
    (addXP db u a).1 = db ∨ ∃ x l, (addXP db u a).1 = updateUserXp db x l u := by
  unfold addXP
  cases selectUser db u with
  | none => left; rfl
  | some row => right; exact ⟨_, _, rfl⟩

theorem completePomodoro_db (db : Db) (now s u : Int) :
    (completePomodoro db now s u).1
      = if (updateSessionCompleted db now s u).2.length > 0
        then (addXP (updateSessionCompleted db now s u).1 u 15).1
        else (updateSessionCompleted db now s u).1 := by
  unfold completePomodoro
  simp only
  by_cases hlen : (updateSessionCompleted db now s u).2.length > 0
  · rw [if_pos hlen, if_pos hlen]
    cases hx : addXP (updateSessionCompleted db now s u).1 u 15 with
    | mk db2 out => cases out <;> rfl
  · rw [if_neg hlen, if_neg hlen]

theorem completePomodoro_sessions (db : Db) (now s u : Int) :
    (completePomodoro db now s u).1.pomodoro_sessions
        = (updateSessionCompleted db now s u).1.pomodoro_sessions ∧
      (completePomodoro db now s u).1.pomodoro_seq = db.pomodoro_seq := by
  rw [completePomodoro_db]
  by_cases hlen : (updateSessionCompleted db now s u).2.length > 0
  · rw [if_pos hlen]
    rcases addXP_db (updateSessionCompleted db now s u).1 u 15 with h | ⟨x, l, h⟩
    · rw [h]; exact ⟨rfl, rfl⟩
    · rw [h]; exact ⟨rfl, rfl⟩
  · rw [if_neg hlen]
    exact ⟨rfl, rfl⟩

theorem mem_sessions_completed {db : Db} {now sid u : Int} {s : PomodoroSession}
    (h : s ∈ (completePomodoro db now sid u).1.pomodoro_sessions) :
    ∃ s0 ∈ db.pomodoro_sessions, s.id = s0.id ∧ (s0.id ≠ sid → s = s0) := by
  rw [(completePomodoro_sessions db now sid u).1] at h
  simp only [updateSessionCompleted, List.mem_map] at h
  obtain ⟨s0, hs0, heq⟩ := h
  refine ⟨s0, hs0, ?_⟩
  by_cases hb : (s0.id == sid && s0.user_id == u) = true
  · rw [if_pos hb] at heq
    subst heq
    refine ⟨rfl, ?_⟩
    intro hne
    exfalso
    apply hne
    have := (Bool.and_eq_true _ _).mp hb
    simpa using this.1
  · rw [if_neg hb] at heq
    subst heq
    exact ⟨rfl, fun _ => rfl⟩

theorem sessions_completed_keep_ids (db : Db) (now sid u : Int) {s0 : PomodoroSession}
    (h : s0 ∈ db.pomodoro_sessions) :
    ∃ s ∈ (completePomodoro db now sid u).1.pomodoro_sessions, s.id = s0.id := by
  rw [(completePomodoro_sessions db now sid u).1]
  simp only [updateSessionCompleted, List.mem_map]
  by_cases hb : (s0.id == sid && s0.user_id == u) = true
  · exact ⟨_, ⟨s0, h, rfl⟩, by rw [if_pos hb]⟩
  · exact ⟨_, ⟨s0, h, rfl⟩, by rw [if_neg hb]⟩

theorem fireTimer_world (w : World) (now : Int) (t : PendingTimer) :
    (fireTimer w now t).1.db = (completePomodoro w.db now t.sessionId t.userId).1 ∧
      (fireTimer w now t).1.pending = clearTimeout w.pending t.timerId ∧
      (fireTimer w now t).1.timerSeq = w.timerSeq ∧
      ((fireTimer w now t).1.activeTimers = w.activeTimers ∨
        (fireTimer w now t).1.activeTimers = mapDelete w.activeTimers t.userId) := by
  unfold fireTimer timerCallback
  simp only
  cases hx : completePomodoro w.db now t.sessionId t.userId with
  | mk db1 out =>
    cases out with
    | returned v => exact ⟨rfl, rfl, rfl, Or.inr rfl⟩
    | thrown e => exact ⟨rfl, rfl, rfl, Or.inl rfl⟩

theorem mem_fireTimer_entries {w : World} {now : Int} {t : PendingTimer}
    {kv : Int × TimerEntry} (h : kv ∈ (fireTimer w now t).1.activeTimers) :
    kv ∈ w.activeTimers := by
  rcases (fireTimer_world w now t).2.2.2 with h1 | h1
  · rw [h1] at h; exact h
  · rw [h1] at h; exact mem_mapDelete h

theorem consistent_fire (w : World) (now : Int) (t : PendingTimer) (hc : Consistent w)
    (ht : t ∈ w.pending) : Consistent (fireTimer w now t).1 := by
  obtain ⟨hdb, hpend, hseq, _⟩ := fireTimer_world w now t
  have hsq := (completePomodoro_sessions w.db now t.sessionId t.userId).2
  constructor
  · intro kv hkv
    rw [hdb, hsq, hseq]
    exact hc.entry_bound kv (mem_fireTimer_entries hkv)
  · intro t1 ht1
    rw [hpend] at ht1
    rw [hdb, hsq, hseq]
    exact hc.timer_bound t1 (mem_clearTimeout ht1).1
  · intro s hs
    rw [hdb] at hs
    obtain ⟨s0, hs0, hid, _⟩ := mem_sessions_completed hs
    rw [hdb, hsq, hid]
    exact hc.row_bound s0 hs0
  · intro kv hkv t1 ht1
    rw [hpend] at ht1
    exact hc.entry_timer kv (mem_fireTimer_entries hkv) t1 (mem_clearTimeout ht1).1
  · intro t1 ht1 t2 ht2
    rw [hpend] at ht1 ht2
    exact hc.timer_timer t1 (mem_clearTimeout ht1).1 t2 (mem_clearTimeout ht2).1
  · intro t1 ht1 s hs hid
    rw [hpend] at ht1
    rw [hdb] at hs
    obtain ⟨ht1p, hne⟩ := mem_clearTimeout ht1
    obtain ⟨s0, hs0, hid0, hsame⟩ := mem_sessions_completed hs
    have hsess : t1.sessionId ≠ t.sessionId := fun heq =>
      hne ((hc.timer_timer t1 ht1p t ht).mpr heq)
    have hs_eq : s = s0 := hsame (by rw [← hid0, hid]; exact hsess)
    rw [hs_eq]
    exact hc.timer_open t1 ht1p s0 hs0 (by rw [← hid0]; exact hid)
  · intro kv hkv
    obtain ⟨s0, hs0, hid⟩ := hc.entry_row kv (mem_fireTimer_entries hkv)
    obtain ⟨s, hs, hids⟩ :=
      sessions_completed_keep_ids _ now t.sessionId t.userId hs0
    rw [hdb]
    exact ⟨s, hs, by rw [hids]; exact hid⟩

theorem step_expire_enabled {w w1 : World} {now : Int} {tid : Nat}
    (h : step w (.expire now tid) = some w1) :
    ∃ t ∈ w.pending, t.timerId = tid ∧ w1 = (fireTimer w now t).1 := by
  simp only [step] at h
  cases hf : w.pending.find? (fun t => t.timerId == tid) with
  | none => simp [hf] at h
  | some t =>
    rw [hf] at h
    refine ⟨t, List.mem_of_find?_eq_some hf, by simpa using List.find?_some hf, ?_⟩
    simpa using h.symm

theorem consistent_step {w w1 : World} {a : SchedulerAction} (hc : Consistent w)
    (h : step w a = some w1) : Consistent w1 := by
  cases a with
  | start now u task d =>
    have : w1 = (startPomodoro w now u task d).1 := by simpa [step] using h.symm
    rw [this]; exact consistent_start w now u task d hc
  | stop u =>
    have : w1 = (stopPomodoro w u).1 := by simpa [step] using h.symm
    rw [this]; exact consistent_stop w u hc
  | expire now tid =>
    obtain ⟨t, ht, _, hw⟩ := step_expire_enabled h
    rw [hw]; exact consistent_fire w now t hc ht

theorem consistent_run (acts : List SchedulerAction) :
    ∀ {w w1 : World}, Consistent w → run w acts = some w1 → Consistent w1 := by
  induction acts with
  | nil =>
    intro w w1 hc h
    have : w1 = w := by simpa [run] using h.symm
    rw [this]; exact hc
  | cons a rest ih =>
    intro w w1 hc h
    simp only [run] at h
    cases hs : step w a with
    | none => simp [hs] at h
    | some w2 =>
      rw [hs] at h
      exact ih (consistent_step hc hs) h

theorem reachable_consistent {w : World} (h : Reachable w) : Consistent w := by
  obtain ⟨w0, acts, hinit, hrun⟩ := h
  exact consistent_run acts (initial_consistent w0 hinit) hrun

/-! ### After a successful stop -/

theorem aborted_after_stop (w : World) (u : Int) (e : TimerEntry) (hc : Consistent w)
    (he : mapGet w.activeTimers u = some e)
    (hp : ∃ t ∈ w.pending, t.timerId = e.timerId) :
    Aborted e.sessionId e.timerId (stopPomodoro w u).1 := by
  have hmem := mem_of_mapGet he
  rcases stopPomodoro_world w u with ⟨hnone, _⟩ | ⟨e1, he1, h⟩
  · rw [hnone] at he; cases he
  · have hee : e1 = e := by rw [he] at he1; exact (Option.some.inj he1).symm
    subst hee
    rw [h]
    obtain ⟨t0, ht0, htid0⟩ := hp
    have hsess0 : t0.sessionId = e1.sessionId := (hc.entry_timer (u, e1) hmem t0 ht0).mp htid0
    constructor
    · exact (hc.entry_bound (u, e1) hmem).1
    · exact (hc.entry_bound (u, e1) hmem).2
    · intro t ht
      obtain ⟨htp, hne⟩ := mem_clearTimeout ht
      exact ⟨fun heq => hne ((hc.entry_timer (u, e1) hmem t htp).mpr heq), hne⟩
    · obtain ⟨s0, hs0, hid⟩ := hc.entry_row (u, e1) hmem
      obtain ⟨s, hs, hids⟩ := sessions_notCompleted_keep_ids _ e1.sessionId hs0
      exact ⟨s, hs, by rw [hids]; exact hid⟩
    · intro r hr hid
      obtain ⟨s0, hs0, hid0, hat, hcomp⟩ := mem_sessions_notCompleted hr
      have h0 := hc.timer_open t0 ht0 s0 hs0 (by rw [← hid0, hid, hsess0])
      refine ⟨?_, by rw [hat]; exact h0.2⟩
      rcases hcomp with h1 | h1
      · rw [h1]; exact h0.1
      · exact h1

theorem aborted_step {s : Int} {tid : Nat} {w w1 : World} {a : SchedulerAction}
    (hab : Aborted s tid w) (h : step w a = some w1) : Aborted s tid w1 := by
  cases a with
  | start now u task d =>
    have hw : w1 = (startPomodoro w now u task d).1 := by simpa [step] using h.symm
    rw [hw]
    rcases startPomodoro_world w now u task d with h1 | h1 | h1
    · rw [h1]; exact hab
    · rw [h1]
      exact ⟨by have := hab.session_old; simp only; omega, hab.timer_old, hab.no_timer,
        hab.row_exists, hab.row_open⟩
    · rw [h1]
      constructor
      · have := hab.session_old; simp only; omega
      · have := hab.timer_old; simp only; omega
      · intro t ht
        rcases List.mem_append.mp ht with h2 | h2
        · exact hab.no_timer t h2
        · have e2 := List.mem_singleton.mp h2
          subst e2
          have h3 := hab.session_old
          have h4 := hab.timer_old
          exact ⟨by simp only; omega, by simp only; omega⟩
      · obtain ⟨r, hr, hid⟩ := hab.row_exists
        exact ⟨r, List.mem_append_left _ hr, hid⟩
      · intro r hr hid
        rcases List.mem_append.mp hr with h2 | h2
        · exact hab.row_open r h2 hid
        · have e2 := List.mem_singleton.mp h2
          subst e2
          exact ⟨rfl, rfl⟩
  | stop u =>
    have hw : w1 = (stopPomodoro w u).1 := by simpa [step] using h.symm
    rw [hw]
    rcases stopPomodoro_world w u with ⟨_, h1⟩ | ⟨e, _, h1⟩
    · rw [h1]; exact hab
    · rw [h1]
      constructor
      · exact hab.session_old
      · exact hab.timer_old
      · intro t ht
        exact hab.no_timer t (mem_clearTimeout ht).1
      · obtain ⟨r, hr, hid⟩ := hab.row_exists
        obtain ⟨r1, hr1, hid1⟩ := sessions_notCompleted_keep_ids _ e.sessionId hr
        exact ⟨r1, hr1, by rw [hid1]; exact hid⟩
      · intro r hr hid
        obtain ⟨s0, hs0, hid0, hat, hcomp⟩ := mem_sessions_notCompleted hr
        have h0 := hab.row_open s0 hs0 (by rw [← hid0]; exact hid)
        refine ⟨?_, by rw [hat]; exact h0.2⟩
        rcases hcomp with h2 | h2
        · rw [h2]; exact h0.1
        · exact h2
  | expire now tid1 =>
    obtain ⟨t, ht, _, hw⟩ := step_expire_enabled h
    obtain ⟨hdb, hpend, hseq, _⟩ := fireTimer_world w now t
    have hsq := (completePomodoro_sessions w.db now t.sessionId t.userId).2
    have hts := (hab.no_timer t ht).1
    rw [hw]
    constructor
    · rw [hdb, hsq]; exact hab.session_old
    · rw [hseq]; exact hab.timer_old
    · intro t1 ht1
      rw [hpend] at ht1
      exact hab.no_timer t1 (mem_clearTimeout ht1).1
    · obtain ⟨r, hr, hid⟩ := hab.row_exists
      obtain ⟨r1, hr1, hid1⟩ :=
        sessions_completed_keep_ids _ now t.sessionId t.userId hr
      rw [hdb]
      exact ⟨r1, hr1, by rw [hid1]; exact hid⟩
    · intro r hr hid
      rw [hdb] at hr
      obtain ⟨s0, hs0, hid0, hsame⟩ := mem_sessions_completed hr
      have hr_eq : r = s0 := hsame (by rw [← hid0, hid]; exact fun heq => hts heq.symm)
      rw [hr_eq]
      exact hab.row_open s0 hs0 (by rw [← hid0]; exact hid)

theorem aborted_run {s : Int} {tid : Nat} (acts : List SchedulerAction) :
    ∀ {w w1 : World}, Aborted s tid w → run w acts = some w1 → Aborted s tid w1 := by
  induction acts with
  | nil =>
    intro w w1 hab h
    have : w1 = w := by simpa [run] using h.symm
    rw [this]; exact hab
  | cons a rest ih =>
    intro w w1 hab h
    simp only [run] at h
    cases hs : step w a with
    | none => simp [hs] at h
    | some w2 =>
      rw [hs] at h
      exact ih (aborted_step hab hs) h

/-- A step that changes the `users` table (the only place xp is stored) is the expiry of a
pending timer. -/
theorem users_change_only_on_expiry {w w1 : World} {a : SchedulerAction}
    (h : step w a = some w1) (hne : w1.db.users ≠ w.db.users) :
    ∃ (now : Int) (t : PendingTimer), t ∈ w.pending ∧ a = .expire now t.timerId := by
  cases a with
  | start now u task d =>
    exfalso
    apply hne
    have hw : w1 = (startPomodoro w now u task d).1 := by simpa [step] using h.symm
    rw [hw]
    rcases startPomodoro_world w now u task d with h1 | h1 | h1 <;> rw [h1]
  | stop u =>
    exfalso
    apply hne
    have hw : w1 = (stopPomodoro w u).1 := by simpa [step] using h.symm
    rw [hw]
    rcases stopPomodoro_world w u with ⟨_, h1⟩ | ⟨e, _, h1⟩
    · rw [h1]
    · rw [h1]; rfl
  | expire now tid =>
    obtain ⟨t, ht, htid, _⟩ := step_expire_enabled h
    exact ⟨now, t, ht, by rw [htid]⟩

/-- C3 (stop wins the race): in a reachable world where `u` has a registry entry whose
timer is still pending (it has not fired), `stopPomodoro(u)` succeeds, and in every world
reached afterwards by start, stop and expiry steps: no pending timer belongs to that session
or carries its timer id, so its expiry step is not enabled; the session's row exists and is
not completed (`completed` false, no `completed_at`); and every step that changes the
`users` table, where xp lives, is the expiry of a pending timer of another session. -/
theorem stop_wins_race (w : World) (u : Int) (e : TimerEntry)
    (hreach : Reachable w) (he : mapGet w.activeTimers u = some e)
    (hp : ∃ t ∈ w.pending, t.timerId = e.timerId) :
    (stopPomodoro w u).2 = .returned (.message "Pomodoro сессия остановлена") ∧
    ∀ (acts : List SchedulerAction) (w1 : World),
      run (stopPomodoro w u).1 acts = some w1 →
      (∀ t ∈ w1.pending, t.sessionId ≠ e.sessionId ∧ t.timerId ≠ e.timerId) ∧
      (∀ now, step w1 (.expire now e.timerId) = none) ∧
      (∃ r ∈ w1.db.pomodoro_sessions, r.id = e.sessionId) ∧
      (∀ r ∈ w1.db.pomodoro_sessions, r.id = e.sessionId →
        r.completed = false ∧ r.completed_at = none) ∧
      (∀ (a : SchedulerAction) (w2 : World), step w1 a = some w2 →
        w2.db.users ≠ w1.db.users →
        ∃ (now : Int) (t : PendingTimer),
          t ∈ w1.pending ∧ t.sessionId ≠ e.sessionId ∧ a = .expire now t.timerId) := by
  have hc := reachable_consistent hreach
  have hab := aborted_after_stop w u e hc he hp
  refine ⟨?_, ?_⟩
  · rcases stopPomodoro_world w u with ⟨hnone, _⟩ | ⟨e1, _, h⟩
    · rw [hnone] at he; cases he
    · rw [h]
  · intro acts w1 hrun
    have hab1 := aborted_run acts hab hrun
    refine ⟨hab1.no_timer, ?_, hab1.row_exists, hab1.row_open, ?_⟩
    · intro now
      cases hs : step w1 (.expire now e.timerId) with
      | none => rfl
      | some w2 =>
        obtain ⟨t, ht, htid, _⟩ := step_expire_enabled hs
        exact absurd htid (hab1.no_timer t ht).2
    · intro a w2 hstep hne
      obtain ⟨now, t, ht, ha⟩ := users_change_only_on_expiry hstep hne
      exact ⟨now, t, ht, (hab1.no_timer t ht).1, ha⟩

theorem stop_wins_race_witness :
    Reachable demoRunning ∧
    mapGet demoRunning.activeTimers 1
      = some { sessionId := 1, timerId := 0, endTime := 1501000 } ∧
    (∃ t ∈ demoRunning.pending, t.timerId = 0) ∧
    run (stopPomodoro demoRunning 1).1 demoLater = some demoFinal ∧
    (selectUser demoFinal.db 1).map (fun r => r.xp) = some 15 ∧
    (∀ t ∈ demoFinal.pending, t.sessionId ≠ 1 ∧ t.timerId ≠ 0) ∧
    (∀ now, step demoFinal (.expire now 0) = none) ∧
    (∃ r ∈ demoFinal.db.pomodoro_sessions, r.id = 1) ∧
    (∀ r ∈ demoFinal.db.pomodoro_sessions, r.id = 1 →
      r.completed = false ∧ r.completed_at = none) ∧
    (∀ (a : SchedulerAction) (w2 : World), step demoFinal a = some w2 →
      w2.db.users ≠ demoFinal.db.users →
      ∃ (now : Int) (t : PendingTimer),
        t ∈ demoFinal.pending ∧ t.sessionId ≠ 1 ∧ a = .expire now t.timerId) :=
  ⟨⟨demoWorld, [.start 1000 1 none 25], by decide, by decide⟩, by decide,
    ⟨{ timerId := 0, sessionId := 1, userId := 1, fireAt := 1501000 }, by decide, rfl⟩,
    by decide, by decide,
    (stop_wins_race demoRunning 1 { sessionId := 1, timerId := 0, endTime := 1501000 }
      ⟨demoWorld, [.start 1000 1 none 25], by decide, by decide⟩ (by decide)
      ⟨{ timerId := 0, sessionId := 1, userId := 1, fireAt := 1501000 }, by decide, rfl⟩).2
      demoLater demoFinal (by decide)⟩

/-! ### A successful start -/

theorem mapGet_mapSet (m : List (Int × TimerEntry)) (u : Int) (e : TimerEntry) :
    mapGet (mapSet m u e) u = some e := by
  induction m with
  | nil => simp [mapSet, mapGet]
  | cons a rest ih =>
    unfold mapSet
    by_cases ha : (a.1 == u) = true
    · rw [if_pos ha]
      simp [mapGet]
    · rw [if_neg ha]
      have hf : (a.1 == u) = false := by simpa using ha
      unfold mapGet at ih ⊢
      rw [List.find?_cons, hf]
      exact ih

theorem mapHas_false_of_mapGet_none {m : List (Int × TimerEntry)} {u : Int}
    (h : mapGet m u = none) : mapHas m u = false := by
  simp [mapHas, h]

theorem insertSession_ok (db : Db) (now u : Int) (task : Option Int) (d : Int)
    (huser : ∃ x ∈ db.users, x.id = u)
    (htask : task = none ∨ ∃ k ∈ db.tasks, task = some k.id) :
    insertSession db now u task d
      = ({ db with
            pomodoro_sessions := db.pomodoro_sessions ++
              [{ id := db.pomodoro_seq, user_id := u, task_id := task, duration := d,
                 completed := false, started_at := now, completed_at := none }],
            pomodoro_seq := db.pomodoro_seq + 1 },
         some { id := db.pomodoro_seq, user_id := u, task_id := task, duration := d,
                completed := false, started_at := now, completed_at := none }) := by
  obtain ⟨x, hx, hxu⟩ := huser
  have hu : (db.users.any fun r => r.id == u) = true := by
    rw [List.any_eq_true]
    exact ⟨x, hx, by simpa using hxu⟩
  unfold insertSession
  rcases htask with h | ⟨k, hk, h⟩
  · subst h
    simp only [hu, Bool.and_self, if_true]
  · subst h
    have ht : (db.tasks.any fun r => r.id == k.id) = true := by
      rw [List.any_eq_true]
      exact ⟨k, hk, by simp⟩
    simp only [hu, ht, Bool.and_self, if_true]

/-- C11 (a successful start registers the session): for an owner `u` (a row of `users`)
with no registry entry, and a task that is null or a row of `tasks`, `startPomodoro` at
instant `now` appends the session row (owner `u`, duration `d`, not completed, no
`completed_at`), returns that row, records for `u` the registry entry with the row's id and
`endTime = now + d * 60 * 1000`, and leaves a timer pending for the instant
`now + timeoutDelay (d * 60 * 1000)`; with `d` omitted the duration is 25 and the end time
is `now + 1500000`.  The timer is pending for the delay `d * 60 * 1000` of the claim when
that delay lies between 1 and `2 ^ 31 - 1`; for a longer duration (`d >= 35792`) it is
pending for 1 millisecond, while `endTime` is `d` minutes ahead. -/
theorem startPomodoro_registers (w : World) (now u : Int) (task : Option Int) (d : Int)
    (hfree : mapGet w.activeTimers u = none)
    (huser : ∃ x ∈ w.db.users, x.id = u)
    (htask : orNull task = none ∨ ∃ k ∈ w.db.tasks, orNull task = some k.id) :
    (startPomodoro w now u task d).2
        = .returned (.session
            { id := w.db.pomodoro_seq, user_id := u, task_id := orNull task, duration := d,
              completed := false, started_at := now, completed_at := none }) ∧
      (startPomodoro w now u task d).1.db.pomodoro_sessions
        = w.db.pomodoro_sessions ++
            [{ id := w.db.pomodoro_seq, user_id := u, task_id := orNull task, duration := d,
               completed := false, started_at := now, completed_at := none }] ∧
      mapGet (startPomodoro w now u task d).1.activeTimers u
        = some { sessionId := w.db.pomodoro_seq, timerId := w.timerSeq,
                 endTime := now + d * 60 * 1000 } ∧
      (startPomodoro w now u task d).1.pending
        = w.pending ++ [{ timerId := w.timerSeq, sessionId := w.db.pomodoro_seq, userId := u,
                          fireAt := now + timeoutDelay (d * 60 * 1000) }] ∧
      (startPomodoro w now u task).2
        = .returned (.session
            { id := w.db.pomodoro_seq, user_id := u, task_id := orNull task, duration := 25,
              completed := false, started_at := now, completed_at := none }) ∧
      mapGet (startPomodoro w now u task).1.activeTimers u
        = some { sessionId := w.db.pomodoro_seq, timerId := w.timerSeq,
                 endTime := now + 1500000 } ∧
      (1 ≤ d * 60 * 1000 → d * 60 * 1000 ≤ 2147483647 →
        (startPomodoro w now u task d).1.pending
          = w.pending ++ [{ timerId := w.timerSeq, sessionId := w.db.pomodoro_seq,
                            userId := u, fireAt := now + d * 60 * 1000 }]) ∧
      (2147483647 < d * 60 * 1000 →
        (startPomodoro w now u task d).1.pending
          = w.pending ++ [{ timerId := w.timerSeq, sessionId := w.db.pomodoro_seq,
                            userId := u, fireAt := now + 1 }]) ∧
      (35792 ≤ d ↔ 2147483647 < d * 60 * 1000) := by
  have hhas := mapHas_false_of_mapGet_none hfree
  have key : ∀ d1 : Int, startPomodoro w now u task d1
      = ({ db := { w.db with
                  pomodoro_sessions := w.db.pomodoro_sessions ++
                    [{ id := w.db.pomodoro_seq, user_id := u, task_id := orNull task,
                       duration := d1, completed := false, started_at := now,
                       completed_at := none }],
                  pomodoro_seq := w.db.pomodoro_seq + 1 },
           activeTimers := mapSet w.activeTimers u
             { sessionId := w.db.pomodoro_seq, timerId := w.timerSeq,
               endTime := now + d1 * 60 * 1000 },
           pending := w.pending ++
             [{ timerId := w.timerSeq, sessionId := w.db.pomodoro_seq, userId := u,
                fireAt := now + timeoutDelay (d1 * 60 * 1000) }],
           timerSeq := w.timerSeq + 1 },
         .returned (.session
           { id := w.db.pomodoro_seq, user_id := u, task_id := orNull task, duration := d1,
             completed := false, started_at := now, completed_at := none })) := by
    intro d1
    unfold startPomodoro
    rw [hhas, insertSession_ok w.db now u (orNull task) d1 huser htask]
    simp
  rw [key d, key 25]
  refine ⟨rfl, rfl, mapGet_mapSet _ _ _, rfl, rfl, ?_, ?_, ?_, by omega⟩
  · rw [mapGet_mapSet]
    norm_num
  · intro h1 h2
    have hd : timeoutDelay (d * 60 * 1000) = d * 60 * 1000 := by
      unfold timeoutDelay
      rw [if_pos ⟨h1, h2⟩]
    simp only [hd]
  · intro h
    have hd : timeoutDelay (d * 60 * 1000) = 1 := by
      unfold timeoutDelay
      rw [if_neg (by omega)]
    simp only [hd]

theorem startPomodoro_registers_witness :
    (startPomodoro demoWorld 1000 1 none 50).2
        = .returned (.session
            { id := 1, user_id := 1, task_id := none, duration := 50,
              completed := false, started_at := 1000, completed_at := none }) ∧
      mapGet (startPomodoro demoWorld 1000 1 none 50).1.activeTimers 1
        = some { sessionId := 1, timerId := 0, endTime := 3001000 } ∧
      mapGet (startPomodoro demoWorld 1000 1 none).1.activeTimers 1
        = some { sessionId := 1, timerId := 0, endTime := 1501000 } ∧
      mapGet (startPomodoro demoWorld 1000 1 none 40000).1.activeTimers 1
        = some { sessionId := 1, timerId := 0, endTime := 1000 + 40000 * 60 * 1000 } ∧
      (startPomodoro demoWorld 1000 1 none 40000).1.pending
        = demoWorld.pending ++ [{ timerId := 0, sessionId := 1, userId := 1,
                                  fireAt := 1000 + 1 }] :=
  ⟨(startPomodoro_registers demoWorld 1000 1 none 50 (by decide)
      ⟨{ id := 1, xp := 0, level := 1 }, by decide, rfl⟩ (Or.inl rfl)).1,
    (startPomodoro_registers demoWorld 1000 1 none 50 (by decide)
      ⟨{ id := 1, xp := 0, level := 1 }, by decide, rfl⟩ (Or.inl rfl)).2.2.1,
    (startPomodoro_registers demoWorld 1000 1 none 50 (by decide)
      ⟨{ id := 1, xp := 0, level := 1 }, by decide, rfl⟩ (Or.inl rfl)).2.2.2.2.2.1,
    (startPomodoro_registers demoWorld 1000 1 none 40000 (by decide)
      ⟨{ id := 1, xp := 0, level := 1 }, by decide, rfl⟩ (Or.inl rfl)).2.2.1,
    (startPomodoro_registers demoWorld 1000 1 none 40000 (by decide)
      ⟨{ id := 1, xp := 0, level := 1 }, by decide, rfl⟩ (Or.inl rfl)).2.2.2.2.2.2.2.1
      (by decide)⟩

/-- C12 (the registry is checked before persisting): whenever `startPomodoro` returns the
error object, the owner had a registry entry and the whole world is as before: the store,
with its session rows and its sequence, is identical, so no row was inserted. -/
theorem startPomodoro_rejected_store_unchanged (w : World) (now u : Int) (task : Option Int)
    (d : Int) (msg : String)
    (h : (startPomodoro w now u task d).2 = .returned (.error msg)) :
    mapHas w.activeTimers u = true ∧
      msg = "У вас уже есть активная Pomodoro сессия!" ∧
      (startPomodoro w now u task d).1.db = w.db ∧
      (startPomodoro w now u task d).1.db.pomodoro_sessions = w.db.pomodoro_sessions ∧
      (startPomodoro w now u task d).1 = w := by
  by_cases hhas : mapHas w.activeTimers u = true
  · have hw : startPomodoro w now u task d
        = (w, .returned (.error "У вас уже есть активная Pomodoro сессия!")) := by
      simp [startPomodoro, hhas]
    rw [hw] at h ⊢
    have hm : "У вас уже есть активная Pomodoro сессия!" = msg := by
      simpa using h
    exact ⟨hhas, hm.symm, rfl, rfl, rfl⟩
  · exfalso
    have hf : mapHas w.activeTimers u = false := by simpa using hhas
    unfold startPomodoro at h
    rw [hf] at h
    simp only [Bool.false_eq_true, if_false] at h
    cases hi : insertSession w.db now u (orNull task) d with
    | mk db1 r =>
      rw [hi] at h
      cases r with
      | none => simp at h
      | some row => simp at h

theorem startPomodoro_rejected_store_unchanged_witness :
    (startPomodoro demoRunning 99000 1 none 50).2
        = .returned (.error "У вас уже есть активная Pomodoro сессия!") ∧
      mapHas demoRunning.activeTimers 1 = true ∧
      (startPomodoro demoRunning 99000 1 none 50).1.db = demoRunning.db ∧
      (startPomodoro demoRunning 99000 1 none 50).1.db.pomodoro_sessions
        = demoRunning.db.pomodoro_sessions :=
  ⟨by decide,
    (startPomodoro_rejected_store_unchanged demoRunning 99000 1 none 50
      "У вас уже есть активная Pomodoro сессия!" (by decide)).1,
    (startPomodoro_rejected_store_unchanged demoRunning 99000 1 none 50
      "У вас уже есть активная Pomodoro сессия!" (by decide)).2.2.1,
    (startPomodoro_rejected_store_unchanged demoRunning 99000 1 none 50
      "У вас уже есть активная Pomodoro сессия!" (by decide)).2.2.2.1⟩

/-- C14 (stop with nothing running): with no registry entry for `u`, `stopPomodoro` returns
the not-running error object and the whole world (registry, pending timers and every row of
the store) is as before. -/
theorem stopPomodoro_not_running (w : World) (u : Int)
    (h : mapGet w.activeTimers u = none) :
    (stopPomodoro w u).2 = .returned (.error "У вас нет активной Pomodoro сессии") ∧
      (stopPomodoro w u).1 = w ∧
      (stopPomodoro w u).1.activeTimers = w.activeTimers ∧
      (stopPomodoro w u).1.db = w.db := by
  have hw : stopPomodoro w u
      = (w, .returned (.error "У вас нет активной Pomodoro сессии")) := by
    simp [stopPomodoro, h]
  rw [hw]
  exact ⟨rfl, rfl, rfl, rfl⟩

theorem stopPomodoro_not_running_witness :
    mapGet demoRunning.activeTimers 2 = none ∧
      (stopPomodoro demoRunning 2).2 = .returned (.error "У вас нет активной Pomodoro сессии") ∧
      (stopPomodoro demoRunning 2).1 = demoRunning ∧
      (stopPomodoro demoRunning 2).1.activeTimers = demoRunning.activeTimers ∧
      (stopPomodoro demoRunning 2).1.db = demoRunning.db :=
  ⟨by decide, stopPomodoro_not_running demoRunning 2 (by decide)⟩

/-! ### Registry and timers stay in step -/

theorem mapGet_none_of_mapHas_false {m : List (Int × TimerEntry)} {u : Int}
    (h : mapHas m u = false) : mapGet m u = none := by
  unfold mapHas at h
  cases hg : mapGet m u with
  | none => rfl
  | some e => simp [hg] at h

theorem mapSet_absent (m : List (Int × TimerEntry)) (u : Int) (e : TimerEntry)
    (h : mapGet m u = none) : mapSet m u e = m ++ [(u, e)] ∧ u ∉ m.map Prod.fst := by
  induction m with
  | nil => simp [mapSet]
  | cons a rest ih =>
    unfold mapGet at h
    rw [List.find?_cons] at h
    cases ha : (a.1 == u) with
    | true => rw [ha] at h; simp at h
    | false =>
      rw [ha] at h
      have hne : a.1 ≠ u := by simpa using ha
      obtain ⟨h1, h2⟩ := ih h
      unfold mapSet
      rw [ha]
      simp only [Bool.false_eq_true, if_false, List.cons_append, h1, List.map_cons,
        List.mem_cons, not_or, true_and]
      exact ⟨fun heq => hne heq.symm, h2⟩

theorem mem_mapDelete_iff {m : List (Int × TimerEntry)} {u : Int} {kv : Int × TimerEntry} :
    kv ∈ mapDelete m u ↔ kv ∈ m ∧ kv.1 ≠ u := by
  simp [mapDelete, List.mem_filter]

theorem mem_clearTimeout_iff {p : List PendingTimer} {tid : Nat} {t : PendingTimer} :
    t ∈ clearTimeout p tid ↔ t ∈ p ∧ t.timerId ≠ tid := by
  simp [clearTimeout, List.mem_filter]

theorem mapGet_mapDelete (m : List (Int × TimerEntry)) (u : Int) :
    mapGet (mapDelete m u) u = none := by
  unfold mapGet
  cases hf : (mapDelete m u).find? (fun kv => kv.1 == u) with
  | none => rfl
  | some kv =>
    exfalso
    have hmem := List.mem_of_find?_eq_some hf
    have hkey : kv.1 = u := by simpa using List.find?_some hf
    exact (mem_mapDelete_iff.mp hmem).2 hkey

theorem keys_nodup_mapDelete {m : List (Int × TimerEntry)} (u : Int)
    (h : (m.map Prod.fst).Nodup) : ((mapDelete m u).map Prod.fst).Nodup :=
  List.Nodup.sublist (List.Sublist.map _ (List.filter_sublist _)) h

theorem entry_unique {m : List (Int × TimerEntry)} (h : (m.map Prod.fst).Nodup)
    {u : Int} {e1 e2 : TimerEntry} (h1 : (u, e1) ∈ m) (h2 : (u, e2) ∈ m) : e1 = e2 := by
  have := List.inj_on_of_nodup_map h h1 h2 rfl
  exact (Prod.mk.inj this).2

theorem mapGet_of_mem {m : List (Int × TimerEntry)} (h : (m.map Prod.fst).Nodup)
    {u : Int} {e : TimerEntry} (hm : (u, e) ∈ m) : mapGet m u = some e := by
  cases hg : mapGet m u with
  | none =>
    exfalso
    unfold mapGet at hg
    cases hf : m.find? (fun kv => kv.1 == u) with
    | none =>
      have := List.find?_eq_none.mp hf (u, e) hm
      simp at this
    | some kv => simp [hf] at hg
  | some e1 =>
    have hm1 := mem_of_mapGet hg
    rw [entry_unique h hm1 hm]

/-- The world a start leaves behind, with what the accepted case rests on: the owner had no
entry and is a row of `users`. -/
theorem startPomodoro_cases (w : World) (now u : Int) (task : Option Int) (d : Int) :
    (startPomodoro w now u task d).1 = w ∨
    (startPomodoro w now u task d).1
      = { w with db := { w.db with pomodoro_seq := w.db.pomodoro_seq + 1 } } ∨
    (mapGet w.activeTimers u = none ∧ (∃ x ∈ w.db.users, x.id = u) ∧
      (startPomodoro w now u task d).1
        = { db := { w.db with
                    pomodoro_sessions := w.db.pomodoro_sessions ++
                      [{ id := w.db.pomodoro_seq, user_id := u, task_id := orNull task,
                         duration := d, completed := false, started_at := now,
                         completed_at := none }],
                    pomodoro_seq := w.db.pomodoro_seq + 1 },
            activeTimers := w.activeTimers ++
              [(u, { sessionId := w.db.pomodoro_seq, timerId := w.timerSeq,
                      endTime := now + d * 60 * 1000 })],
            pending := w.pending ++
              [{ timerId := w.timerSeq, sessionId := w.db.pomodoro_seq, userId := u,
                 fireAt := now + timeoutDelay (d * 60 * 1000) }],
            timerSeq := w.timerSeq + 1 }) := by
  by_cases hhas : mapHas w.activeTimers u = true
  · left; simp [startPomodoro, hhas]
  · right
    have hf : mapHas w.activeTimers u = false := by simpa using hhas
    have hnone := mapGet_none_of_mapHas_false hf
    by_cases hu : (w.db.users.any fun x => x.id == u) = true
    · by_cases ht : (match orNull task with
          | none => true
          | some t => w.db.tasks.any fun k => k.id == t) = true
      · right
        refine ⟨hnone, ?_, ?_⟩
        · obtain ⟨x, hx, hxu⟩ := List.any_eq_true.mp hu
          exact ⟨x, hx, by simpa using hxu⟩
        · unfold startPomodoro insertSession
          simp only [hf, Bool.false_eq_true, if_false, hu, ht, Bool.and_self, if_true]
          rw [(mapSet_absent w.activeTimers u _ hnone).1]
      · left
        unfold startPomodoro insertSession
        simp only [hf, Bool.false_eq_true, if_false, hu, ht, Bool.and_false]
    · left
      unfold startPomodoro insertSession
      simp only [hf, Bool.false_eq_true, if_false, hu, Bool.false_and]

theorem row_after_stop {db : Db} {sid : Int} {s : PomodoroSession}
    (h : s ∈ (updateSessionNotCompleted db sid).pomodoro_sessions) :
    ∃ s0 ∈ db.pomodoro_sessions, s.id = s0.id ∧ s.user_id = s0.user_id := by
  simp only [updateSessionNotCompleted, List.mem_map] at h
  obtain ⟨s0, hs0, heq⟩ := h
  refine ⟨s0, hs0, ?_⟩
  by_cases hb : (s0.id == sid) = true
  · rw [if_pos hb] at heq; subst heq; exact ⟨rfl, rfl⟩
  · rw [if_neg hb] at heq; subst heq; exact ⟨rfl, rfl⟩

theorem row_kept_stop (db : Db) (sid : Int) {s0 : PomodoroSession}
    (h : s0 ∈ db.pomodoro_sessions) :
    ∃ s ∈ (updateSessionNotCompleted db sid).pomodoro_sessions,
      s.id = s0.id ∧ s.user_id = s0.user_id := by
  simp only [updateSessionNotCompleted, List.mem_map]
  by_cases hb : (s0.id == sid) = true
  · exact ⟨_, ⟨s0, h, rfl⟩, by rw [if_pos hb], by rw [if_pos hb]⟩
  · exact ⟨_, ⟨s0, h, rfl⟩, by rw [if_neg hb], by rw [if_neg hb]⟩

theorem row_after_complete {db : Db} {now sid u : Int} {s : PomodoroSession}
    (h : s ∈ (completePomodoro db now sid u).1.pomodoro_sessions) :
    ∃ s0 ∈ db.pomodoro_sessions, s.id = s0.id ∧ s.user_id = s0.user_id := by
  rw [(completePomodoro_sessions db now sid u).1] at h
  simp only [updateSessionCompleted, List.mem_map] at h
  obtain ⟨s0, hs0, heq⟩ := h
  refine ⟨s0, hs0, ?_⟩
  by_cases hb : (s0.id == sid && s0.user_id == u) = true
  · rw [if_pos hb] at heq; subst heq; exact ⟨rfl, rfl⟩
  · rw [if_neg hb] at heq; subst heq; exact ⟨rfl, rfl⟩

theorem row_kept_complete (db : Db) (now sid u : Int) {s0 : PomodoroSession}
    (h : s0 ∈ db.pomodoro_sessions) :
    ∃ s ∈ (completePomodoro db now sid u).1.pomodoro_sessions,
      s.id = s0.id ∧ s.user_id = s0.user_id := by
  rw [(completePomodoro_sessions db now sid u).1]
  simp only [updateSessionCompleted, List.mem_map]
  by_cases hb : (s0.id == sid && s0.user_id == u) = true
  · exact ⟨_, ⟨s0, h, rfl⟩, by rw [if_pos hb], by rw [if_pos hb]⟩
  · exact ⟨_, ⟨s0, h, rfl⟩, by rw [if_neg hb], by rw [if_neg hb]⟩

theorem user_kept_updateUserXp (db : Db) (x l u v : Int)
    (h : ∃ r ∈ db.users, r.id = v) : ∃ r ∈ (updateUserXp db x l u).users, r.id = v := by
  obtain ⟨r, hr, hid⟩ := h
  simp only [updateUserXp, List.mem_map]
  by_cases hb : (r.id == u) = true
  · exact ⟨_, ⟨r, hr, rfl⟩, by rw [if_pos hb]; exact hid⟩
  · exact ⟨_, ⟨r, hr, rfl⟩, by rw [if_neg hb]; exact hid⟩

theorem user_kept_complete (db : Db) (now sid u v : Int)
    (h : ∃ r ∈ db.users, r.id = v) :
    ∃ r ∈ (completePomodoro db now sid u).1.users, r.id = v := by
  rw [completePomodoro_db]
  by_cases hlen : (updateSessionCompleted db now sid u).2.length > 0
  · rw [if_pos hlen]
    rcases addXP_db (updateSessionCompleted db now sid u).1 u 15 with h1 | ⟨x, l, h1⟩
    · rw [h1]; exact h
    · rw [h1]; exact user_kept_updateUserXp _ x l u v h
  · rw [if_neg hlen]; exact h

theorem selectUser_of_mem {db : Db} {u : Int} (h : ∃ r ∈ db.users, r.id = u) :
    ∃ row, selectUser db u = some row := by
  obtain ⟨r, hr, hid⟩ := h
  unfold selectUser
  cases hf : db.users.find? (fun x => x.id == u) with
  | none =>
    have := List.find?_eq_none.mp hf r hr
    simp [hid] at this
  | some row => exact ⟨row, rfl⟩

/-- With the owner among the users, `completePomodoro` returns. -/
theorem completePomodoro_returns (db : Db) (now sid u : Int)
    (hu : ∃ r ∈ db.users, r.id = u) :
    ∃ v, (completePomodoro db now sid u).2 = .returned v := by
  obtain ⟨row, hrow⟩ := selectUser_of_mem hu
  have hrow1 : selectUser (updateSessionCompleted db now sid u).1 u = some row := hrow
  unfold completePomodoro
  simp only
  by_cases hlen : (updateSessionCompleted db now sid u).2.length > 0
  · rw [if_pos hlen]
    refine ⟨(updateSessionCompleted db now sid u).2.head?, ?_⟩
    simp [addXP, hrow1]
  · rw [if_neg hlen]
    exact ⟨(updateSessionCompleted db now sid u).2.head?, rfl⟩

/-- With the owner among the users, the expiry of timer `t` runs its callback to the end:
the store is the one `completePomodoro` leaves, the owner's entry is deleted and the timer
is no longer pending. -/
theorem fireTimer_ok (w : World) (now : Int) (t : PendingTimer)
    (hu : ∃ r ∈ w.db.users, r.id = t.userId) :
    fireTimer w now t
      = ({ db := (completePomodoro w.db now t.sessionId t.userId).1,
           activeTimers := mapDelete w.activeTimers t.userId,
           pending := clearTimeout w.pending t.timerId,
           timerSeq := w.timerSeq }, .returned ()) := by
  obtain ⟨v, hv⟩ := completePomodoro_returns w.db now t.sessionId t.userId hu
  unfold fireTimer timerCallback
  simp only
  cases hx : completePomodoro w.db now t.sessionId t.userId with
  | mk db1 out =>
    rw [hx] at hv
    simp only at hv
    subst hv
    rfl

theorem initial_instep (w : World) (h : InitialWorld w) : InStep w := by
  obtain ⟨ha, hp, _, _⟩ := h
  constructor
  · rw [ha]; simp
  · intro t ht; rw [hp] at ht; simp at ht
  · intro kv hkv; rw [ha] at hkv; simp at hkv
  · intro t ht; rw [hp] at ht; simp at ht
  · intro t ht; rw [hp] at ht; simp at ht
  · intro t ht; rw [hp] at ht; simp at ht
  · intro t ht; rw [hp] at ht; simp at ht

theorem instep_start (w : World) (now u : Int) (task : Option Int) (d : Int)
    (hc : Consistent w) (hi : InStep w) : InStep (startPomodoro w now u task d).1 := by
  rcases startPomodoro_cases w now u task d with h | h | ⟨hnone, huser, h⟩
  · rw [h]; exact hi
  · rw [h]
    exact ⟨hi.keys_nodup, hi.timers_nodup, hi.entry_pending, hi.pending_entry, hi.timer_row,
      hi.timer_rows_owner, hi.timer_user⟩
  · rw [h]
    have hnotin := (mapSet_absent w.activeTimers u
      { sessionId := w.db.pomodoro_seq, timerId := w.timerSeq, endTime := 0 } hnone).2
    constructor
    · simp only [List.map_append, List.map_cons, List.map_nil]
      rw [List.nodup_append]
      refine ⟨hi.keys_nodup, List.nodup_singleton _, ?_⟩
      intro a ha hb
      rw [List.mem_singleton.mp hb] at ha
      exact hnotin ha
    · intro t1 ht1 t2 ht2 heq
      rcases List.mem_append.mp ht1 with h1 | h1 <;> rcases List.mem_append.mp ht2 with h2 | h2
      · exact hi.timers_nodup t1 h1 t2 h2 heq
      · have e2 := List.mem_singleton.mp h2
        subst e2
        have := (hc.timer_bound t1 h1).2
        simp only at heq; omega
      · have e1 := List.mem_singleton.mp h1
        subst e1
        have := (hc.timer_bound t2 h2).2
        simp only at heq; omega
      · rw [List.mem_singleton.mp h1, List.mem_singleton.mp h2]
    · intro kv hkv
      rcases List.mem_append.mp hkv with h1 | h1
      · obtain ⟨t, ht, h2⟩ := hi.entry_pending kv h1
        exact ⟨t, List.mem_append_left _ ht, h2⟩
      · have e1 := List.mem_singleton.mp h1
        subst e1
        exact ⟨_, List.mem_append_right _ (List.mem_singleton.mpr rfl), rfl, rfl, rfl⟩
    · intro t ht
      rcases List.mem_append.mp ht with h1 | h1
      · obtain ⟨e, he, h2⟩ := hi.pending_entry t h1
        exact ⟨e, List.mem_append_left _ he, h2⟩
      · have e1 := List.mem_singleton.mp h1
        subst e1
        exact ⟨_, List.mem_append_right _ (List.mem_singleton.mpr rfl), rfl, rfl⟩
    · intro t ht
      rcases List.mem_append.mp ht with h1 | h1
      · obtain ⟨r, hr, h2⟩ := hi.timer_row t h1
        exact ⟨r, List.mem_append_left _ hr, h2⟩
      · have e1 := List.mem_singleton.mp h1
        subst e1
        exact ⟨_, List.mem_append_right _ (List.mem_singleton.mpr rfl), rfl, rfl⟩
    · intro t ht r hr hid
      rcases List.mem_append.mp ht with h1 | h1 <;> rcases List.mem_append.mp hr with h2 | h2
      · exact hi.timer_rows_owner t h1 r h2 hid
      · have e2 := List.mem_singleton.mp h2
        subst e2
        have := (hc.timer_bound t h1).1
        simp only at hid; omega
      · have e1 := List.mem_singleton.mp h1
        subst e1
        have := hc.row_bound r h2
        simp only at hid; omega
      · rw [List.mem_singleton.mp h1, List.mem_singleton.mp h2]
    · intro t ht
      rcases List.mem_append.mp ht with h1 | h1
      · exact hi.timer_user t h1
      · have e1 := List.mem_singleton.mp h1
        subst e1
        exact huser

theorem instep_stop (w : World) (u : Int) (hi : InStep w) : InStep (stopPomodoro w u).1 := by
  rcases stopPomodoro_world w u with ⟨_, h⟩ | ⟨e, he, h⟩
  · rw [h]; exact hi
  · rw [h]
    have hmem := mem_of_mapGet he
    constructor
    · exact keys_nodup_mapDelete u hi.keys_nodup
    · intro t1 ht1 t2 ht2
      exact hi.timers_nodup t1 (mem_clearTimeout ht1).1 t2 (mem_clearTimeout ht2).1
    · intro kv hkv
      obtain ⟨hkvm, hkey⟩ := mem_mapDelete_iff.mp hkv
      obtain ⟨t, ht, htid, hsid, huid⟩ := hi.entry_pending kv hkvm
      refine ⟨t, mem_clearTimeout_iff.mpr ⟨ht, ?_⟩, htid, hsid, huid⟩
      intro heq
      obtain ⟨t0, ht0, htid0, _, huid0⟩ := hi.entry_pending (u, e) hmem
      have : t = t0 := hi.timers_nodup t ht t0 ht0 (by rw [heq, htid0])
      apply hkey
      rw [← huid, this, huid0]
    · intro t ht
      obtain ⟨htp, hne⟩ := mem_clearTimeout_iff.mp ht
      obtain ⟨e1, he1, htid, hsid⟩ := hi.pending_entry t htp
      refine ⟨e1, mem_mapDelete_iff.mpr ⟨he1, ?_⟩, htid, hsid⟩
      intro hkey
      simp only at hkey
      rw [hkey] at he1
      have : e1 = e := entry_unique hi.keys_nodup he1 hmem
      apply hne
      rw [← htid, this]
    · intro t ht
      obtain ⟨r, hr, hid, huid⟩ := hi.timer_row t (mem_clearTimeout ht).1
      obtain ⟨r1, hr1, hid1, huid1⟩ := row_kept_stop w.db e.sessionId hr
      exact ⟨r1, hr1, by rw [hid1]; exact hid, by rw [huid1]; exact huid⟩
    · intro t ht r hr hid
      obtain ⟨r0, hr0, hid0, huid0⟩ := row_after_stop hr
      rw [huid0]
      exact hi.timer_rows_owner t (mem_clearTimeout ht).1 r0 hr0 (by rw [← hid0]; exact hid)
    · intro t ht
      exact hi.timer_user t (mem_clearTimeout ht).1

theorem instep_fire (w : World) (now : Int) (t : PendingTimer) (hi : InStep w)
    (ht : t ∈ w.pending) : InStep (fireTimer w now t).1 := by
  rw [fireTimer_ok w now t (hi.timer_user t ht)]
  constructor
  · exact keys_nodup_mapDelete t.userId hi.keys_nodup
  · intro t1 ht1 t2 ht2
    exact hi.timers_nodup t1 (mem_clearTimeout ht1).1 t2 (mem_clearTimeout ht2).1
  · intro kv hkv
    obtain ⟨hkvm, hkey⟩ := mem_mapDelete_iff.mp hkv
    obtain ⟨t1, ht1, htid, hsid, huid⟩ := hi.entry_pending kv hkvm
    refine ⟨t1, mem_clearTimeout_iff.mpr ⟨ht1, ?_⟩, htid, hsid, huid⟩
    intro heq
    have : t1 = t := hi.timers_nodup t1 ht1 t ht heq
    apply hkey
    rw [← huid, this]
  · intro t1 ht1
    obtain ⟨ht1p, hne⟩ := mem_clearTimeout_iff.mp ht1
    obtain ⟨e1, he1, htid, hsid⟩ := hi.pending_entry t1 ht1p
    refine ⟨e1, mem_mapDelete_iff.mpr ⟨he1, ?_⟩, htid, hsid⟩
    intro hkey
    simp only at hkey
    obtain ⟨e0, he0, htid0, _⟩ := hi.pending_entry t ht
    rw [hkey] at he1
    have : e1 = e0 := entry_unique hi.keys_nodup he1 he0
    apply hne
    rw [← htid, this, htid0]
  · intro t1 ht1
    obtain ⟨r, hr, hid, huid⟩ := hi.timer_row t1 (mem_clearTimeout ht1).1
    obtain ⟨r1, hr1, hid1, huid1⟩ := row_kept_complete w.db now t.sessionId t.userId hr
    exact ⟨r1, hr1, by rw [hid1]; exact hid, by rw [huid1]; exact huid⟩
  · intro t1 ht1 r hr hid
    obtain ⟨r0, hr0, hid0, huid0⟩ := row_after_complete hr
    rw [huid0]
    exact hi.timer_rows_owner t1 (mem_clearTimeout ht1).1 r0 hr0 (by rw [← hid0]; exact hid)
  · intro t1 ht1
    exact user_kept_complete w.db now t.sessionId t.userId t1.userId
      (hi.timer_user t1 (mem_clearTimeout ht1).1)

theorem instep_step {w w1 : World} {a : SchedulerAction} (hc : Consistent w) (hi : InStep w)
    (h : step w a = some w1) : InStep w1 := by
  cases a with
  | start now u task d =>
    have : w1 = (startPomodoro w now u task d).1 := by simpa [step] using h.symm
    rw [this]; exact instep_start w now u task d hc hi
  | stop u =>
    have : w1 = (stopPomodoro w u).1 := by simpa [step] using h.symm
    rw [this]; exact instep_stop w u hi
  | expire now tid =>
    obtain ⟨t, ht, _, hw⟩ := step_expire_enabled h
    rw [hw]; exact instep_fire w now t hi ht

theorem instep_run (acts : List SchedulerAction) :
    ∀ {w w1 : World}, Consistent w → InStep w → run w acts = some w1 → InStep w1 := by
  induction acts with
  | nil =>
    intro w w1 _ hi h
    have : w1 = w := by simpa [run] using h.symm
    rw [this]; exact hi
  | cons a rest ih =>
    intro w w1 hc hi h
    simp only [run] at h
    cases hs : step w a with
    | none => simp [hs] at h
    | some w2 =>
      rw [hs] at h
      exact ih (consistent_step hc hs) (instep_step hc hi hs) h

theorem reachable_instep {w : World} (h : Reachable w) : InStep w := by
  obtain ⟨w0, acts, hinit, hrun⟩ := h
  exact instep_run acts (initial_consistent w0 hinit) (initial_instep w0 hinit) hrun

/-- Stop between atomic steps: in a world reachable by start, stop and expiry taken as
atomic steps, where `u` has the registry entry `e`, `stopPomodoro(u)` returns the stopped
result; afterwards `u` has no registry entry, the entry's timer (pending before) is no
longer pending, the row of session `e.sessionId` exists, is owned by `u`, has
`completed = false` and no `completed_at`, and the `users` table (xp and level of every
user) is as before. -/
theorem stopPomodoro_aborts_without_reward (w : World) (u : Int) (e : TimerEntry)
    (hreach : Reachable w) (he : mapGet w.activeTimers u = some e) :
    (stopPomodoro w u).2 = .returned (.message "Pomodoro сессия остановлена") ∧
      mapGet (stopPomodoro w u).1.activeTimers u = none ∧
      (∃ t ∈ w.pending, t.timerId = e.timerId) ∧
      (∀ t ∈ (stopPomodoro w u).1.pending, t.timerId ≠ e.timerId) ∧
      (∃ r ∈ (stopPomodoro w u).1.db.pomodoro_sessions, r.id = e.sessionId ∧ r.user_id = u) ∧
      (∀ r ∈ (stopPomodoro w u).1.db.pomodoro_sessions, r.id = e.sessionId →
        r.completed = false ∧ r.completed_at = none) ∧
      (stopPomodoro w u).1.db.users = w.db.users := by
  have hc := reachable_consistent hreach
  have hi := reachable_instep hreach
  have hmem := mem_of_mapGet he
  obtain ⟨t0, ht0, htid0, hsid0, huid0⟩ := hi.entry_pending (u, e) hmem
  have hab := aborted_after_stop w u e hc he ⟨t0, ht0, htid0⟩
  rcases stopPomodoro_world w u with ⟨hnone, _⟩ | ⟨e1, he1, h⟩
  · rw [hnone] at he; cases he
  · have hee : e1 = e := by rw [he] at he1; exact (Option.some.inj he1).symm
    subst hee
    refine ⟨by rw [h], ?_, ⟨t0, ht0, htid0⟩, fun t ht => (hab.no_timer t ht).2, ?_,
      hab.row_open, by rw [h]; rfl⟩
    · rw [h]; exact mapGet_mapDelete _ _
    · obtain ⟨r, hr, hid, huid⟩ := hi.timer_row t0 ht0
      obtain ⟨r1, hr1, hid1, huid1⟩ := row_kept_stop w.db e1.sessionId hr
      rw [h]
      exact ⟨r1, hr1, by rw [hid1, hid]; exact hsid0, by rw [huid1, huid]; exact huid0⟩

theorem stopPomodoro_aborts_without_reward_witness :
    Reachable demoRunning ∧
      mapGet demoRunning.activeTimers 1
        = some { sessionId := 1, timerId := 0, endTime := 1501000 } ∧
      (stopPomodoro demoRunning 1).2 = .returned (.message "Pomodoro сессия остановлена") ∧
      mapGet (stopPomodoro demoRunning 1).1.activeTimers 1 = none ∧
      (∃ t ∈ demoRunning.pending, t.timerId = 0) ∧
      (∀ t ∈ (stopPomodoro demoRunning 1).1.pending, t.timerId ≠ 0) ∧
      (∃ r ∈ (stopPomodoro demoRunning 1).1.db.pomodoro_sessions, r.id = 1 ∧ r.user_id = 1) ∧
      (∀ r ∈ (stopPomodoro demoRunning 1).1.db.pomodoro_sessions, r.id = 1 →
        r.completed = false ∧ r.completed_at = none) ∧
      (stopPomodoro demoRunning 1).1.db.users = demoRunning.db.users :=
  ⟨⟨demoWorld, [.start 1000 1 none 25], by decide, by decide⟩, by decide,
    stopPomodoro_aborts_without_reward demoRunning 1
      { sessionId := 1, timerId := 0, endTime := 1501000 }
      ⟨demoWorld, [.start 1000 1 none 25], by decide, by decide⟩ (by decide)⟩

/-! ### Natural expiry -/

theorem find_user_map_other (users : List UserRow) (x l u v : Int) (hne : v ≠ u) :
    (users.map (fun r => if r.id == u then { r with xp := x, level := l } else r)).find?
        (fun r => r.id == v)
      = users.find? (fun r => r.id == v) := by
  induction users with
  | nil => rfl
  | cons r rest ih =>
    rw [List.map_cons, List.find?_cons, List.find?_cons]
    by_cases hr : r.id = u
    · have hb : (r.id == u) = true := by simpa using hr
      have hv : (r.id == v) = false := by
        have : r.id ≠ v := by rw [hr]; exact fun h => hne h.symm
        simpa using this
      simp only [hb, if_true, hv]
      exact ih
    · have hb : (r.id == u) = false := by simpa using hr
      simp only [hb, Bool.false_eq_true, if_false]
      rw [ih]

theorem selectUser_completePomodoro_other (db : Db) (now sid u v : Int) (hne : v ≠ u) :
    selectUser (completePomodoro db now sid u).1 v = selectUser db v := by
  rw [completePomodoro_db]
  by_cases hlen : (updateSessionCompleted db now sid u).2.length > 0
  · rw [if_pos hlen]
    rcases addXP_db (updateSessionCompleted db now sid u).1 u 15 with h1 | ⟨x, l, h1⟩
    · rw [h1]; rfl
    · rw [h1]
      simp only [selectUser, updateUserXp]
      exact find_user_map_other _ x l u v hne
  · rw [if_neg hlen]; rfl

theorem rows_completed_after (db : Db) (now sid u : Int)
    (howner : ∀ r ∈ db.pomodoro_sessions, r.id = sid → r.user_id = u) :
    ∀ r ∈ (completePomodoro db now sid u).1.pomodoro_sessions, r.id = sid →
      r.completed = true ∧ r.completed_at = some now := by
  intro r hr hid
  rw [(completePomodoro_sessions db now sid u).1] at hr
  simp only [updateSessionCompleted, List.mem_map] at hr
  obtain ⟨r0, hr0, heq⟩ := hr
  by_cases hb : (r0.id == sid && r0.user_id == u) = true
  · rw [if_pos hb] at heq; subst heq; exact ⟨rfl, rfl⟩
  · rw [if_neg hb] at heq
    subst heq
    exfalso
    apply hb
    have := howner _ hr0 hid
    simp [hid, this]

/-- C15 (natural expiry): in a reachable world a pending timer `t` is the timer of a session
that `startPomodoro` registered for its owner and that was not stopped: the owner's registry
entry carries its session and timer ids.  When `t` fires at `now` the callback returns;
every row of that session is `completed` with `completed_at = now`, and there is one; the
owner's xp is 15 above what it was and every other user's row is as before; the owner has no
registry entry any more; the timer is not pending, so it cannot fire again; and a new start
for the owner is accepted. -/
theorem natural_expiry (w : World) (now : Int) (t : PendingTimer)
    (hreach : Reachable w) (ht : t ∈ w.pending) :
    (fireTimer w now t).2 = .returned () ∧
      (∃ e, mapGet w.activeTimers t.userId = some e ∧ e.sessionId = t.sessionId ∧
        e.timerId = t.timerId) ∧
      (∃ r ∈ (fireTimer w now t).1.db.pomodoro_sessions,
        r.id = t.sessionId ∧ r.user_id = t.userId) ∧
      (∀ r ∈ (fireTimer w now t).1.db.pomodoro_sessions, r.id = t.sessionId →
        r.completed = true ∧ r.completed_at = some now) ∧
      (∃ row, selectUser w.db t.userId = some row ∧
        (selectUser (fireTimer w now t).1.db t.userId).map (fun r => r.xp)
          = some (row.xp + 15)) ∧
      (∀ v, v ≠ t.userId → selectUser (fireTimer w now t).1.db v = selectUser w.db v) ∧
      mapGet (fireTimer w now t).1.activeTimers t.userId = none ∧
      (∀ t1 ∈ (fireTimer w now t).1.pending, t1.timerId ≠ t.timerId) ∧
      (∀ now1, step (fireTimer w now t).1 (.expire now1 t.timerId) = none) ∧
      (∀ now2 d, ∃ row, (startPomodoro (fireTimer w now t).1 now2 t.userId none d).2
        = .returned (.session row)) := by
  have hi := reachable_instep hreach
  have huser := hi.timer_user t ht
  have hrow := hi.timer_row t ht
  have hfire := fireTimer_ok w now t huser
  obtain ⟨urow, hurow⟩ := selectUser_of_mem huser
  obtain ⟨e, hem, hetid, hesid⟩ := hi.pending_entry t ht
  have hnopend : ∀ t1 ∈ (fireTimer w now t).1.pending, t1.timerId ≠ t.timerId := by
    intro t1 ht1
    rw [hfire] at ht1
    exact (mem_clearTimeout ht1).2
  have hfree : mapGet (fireTimer w now t).1.activeTimers t.userId = none := by
    rw [hfire]; exact mapGet_mapDelete _ _
  refine ⟨by rw [hfire], ⟨e, mapGet_of_mem hi.keys_nodup hem, hesid, hetid⟩, ?_, ?_,
    ⟨urow, hurow, ?_⟩, ?_, hfree, hnopend, ?_, ?_⟩
  · obtain ⟨r, hr, hid, huid⟩ := hrow
    obtain ⟨r1, hr1, hid1, huid1⟩ := row_kept_complete w.db now t.sessionId t.userId hr
    rw [hfire]
    exact ⟨r1, hr1, by rw [hid1]; exact hid, by rw [huid1]; exact huid⟩
  · rw [hfire]
    exact rows_completed_after w.db now t.sessionId t.userId (hi.timer_rows_owner t ht)
  · rw [hfire]
    exact (completePomodoro_adds_fifteen w.db now t.sessionId t.userId urow hrow hurow).1
  · intro v hv
    rw [hfire]
    exact selectUser_completePomodoro_other w.db now t.sessionId t.userId v hv
  · intro now1
    cases hs : step (fireTimer w now t).1 (.expire now1 t.timerId) with
    | none => rfl
    | some w2 =>
      obtain ⟨t1, ht1, htid1, _⟩ := step_expire_enabled hs
      exact absurd htid1 (hnopend t1 ht1)
  · intro now2 d
    have hu1 : ∃ x ∈ (fireTimer w now t).1.db.users, x.id = t.userId := by
      rw [hfire]
      exact user_kept_complete w.db now t.sessionId t.userId t.userId huser
    exact ⟨_, (startPomodoro_registers (fireTimer w now t).1 now2 t.userId none d hfree hu1
      (Or.inl rfl)).1⟩

theorem natural_expiry_witness :
    Reachable demoRunning ∧
      ({ timerId := 0, sessionId := 1, userId := 1, fireAt := 1501000 } : PendingTimer)
        ∈ demoRunning.pending ∧
      (fireTimer demoRunning 1501000
        { timerId := 0, sessionId := 1, userId := 1, fireAt := 1501000 }).2 = .returned () ∧
      (selectUser (fireTimer demoRunning 1501000
        { timerId := 0, sessionId := 1, userId := 1, fireAt := 1501000 }).1.db 1).map
          (fun r => r.xp) = some 15 ∧
      mapGet (fireTimer demoRunning 1501000
        { timerId := 0, sessionId := 1, userId := 1, fireAt := 1501000 }).1.activeTimers 1
        = none ∧
      (∀ r ∈ (fireTimer demoRunning 1501000
          { timerId := 0, sessionId := 1, userId := 1, fireAt := 1501000 }).1.db.pomodoro_sessions,
        r.id = 1 → r.completed = true ∧ r.completed_at = some 1501000) :=
  ⟨⟨demoWorld, [.start 1000 1 none 25], by decide, by decide⟩, by decide,
    (natural_expiry demoRunning 1501000
      { timerId := 0, sessionId := 1, userId := 1, fireAt := 1501000 }
      ⟨demoWorld, [.start 1000 1 none 25], by decide, by decide⟩ (by decide)).1,
    by decide, by decide,
    (natural_expiry demoRunning 1501000
      { timerId := 0, sessionId := 1, userId := 1, fireAt := 1501000 }
      ⟨demoWorld, [.start 1000 1 none 25], by decide, by decide⟩ (by decide)).2.2.2.1⟩

/-! ### The await-grain loop agrees with the atomic steps when nothing interleaves -/

theorem turns_start_alone (w : World) (now u : Int) (task : Option Int) (d : Int)
    (h : mapHas w.activeTimers u = false) :
    turns (idle w) [.callStart u task d, .settle 0 now]
      = some { world := (startPomodoro w now u task d).1, suspended := [],
               replies := [.start (startPomodoro w now u task d).2] } := by
  simp only [turns, turn, idle, h, Bool.false_eq_true, if_false, List.nil_append,
    List.getElem?_cons_zero, resume]
  unfold startPomodoro
  simp only [h, Bool.false_eq_true, if_false]
  cases hi : insertSession w.db now u (orNull task) d with
  | mk db1 r =>
    cases r with
    | none => simp [putAt, addReply]
    | some row => simp [putAt, addReply]

theorem turn_start_rejected (w : World) (now u : Int) (task : Option Int) (d : Int)
    (h : mapHas w.activeTimers u = true) :
    turn (idle w) (.callStart u task d)
      = some { world := (startPomodoro w now u task d).1, suspended := [],
               replies := [.start (startPomodoro w now u task d).2] } := by
  simp [turn, idle, h, startPomodoro]

theorem turns_stop_alone (w : World) (now u : Int) (e : TimerEntry)
    (h : mapGet w.activeTimers u = some e) :
    turns (idle w) [.callStop u, .settle 0 now]
      = some { world := (stopPomodoro w u).1, suspended := [],
               replies := [.stop (stopPomodoro w u).2] } := by
  simp [turns, turn, idle, h, resume, stopPomodoro, putAt, addReply, updateSessionNotCompleted]

theorem turns_expiry_alone (w : World) (now : Int) (t : PendingTimer)
    (hfind : w.pending.find? (fun x => x.timerId == t.timerId) = some t)
    (hrow : ∃ r ∈ w.db.pomodoro_sessions, r.id = t.sessionId ∧ r.user_id = t.userId)
    (huser : ∃ x ∈ w.db.users, x.id = t.userId) :
    turns (idle w) [.fire t.timerId, .settle 0 now, .settle 0 now, .settle 0 now]
      = some { world := (fireTimer w now t).1, suspended := [],
               replies := [.callback (fireTimer w now t).2] } := by
  obtain ⟨urow, hurow⟩ := selectUser_of_mem huser
  have hlen := updateSessionCompleted_rows_ne_nil w.db now t.sessionId t.userId hrow
  have hurow1 : selectUser (updateSessionCompleted w.db now t.sessionId t.userId).1 t.userId
      = some urow := hurow
  have hx : addXP (updateSessionCompleted w.db now t.sessionId t.userId).1 t.userId 15
      = (updateUserXp (updateSessionCompleted w.db now t.sessionId t.userId).1 (urow.xp + 15)
          (mathFloorDiv (urow.xp + 15) 100 + 1) t.userId,
         .returned { newXP := urow.xp + 15, newLevel := mathFloorDiv (urow.xp + 15) 100 + 1,
                     leveledUp := decide (mathFloorDiv (urow.xp + 15) 100 + 1 > urow.level),
                     xpGained := 15 }) := by
    simp [addXP, hurow1]
  have hfire : fireTimer w now t
      = ({ db := updateUserXp (updateSessionCompleted w.db now t.sessionId t.userId).1
                   (urow.xp + 15) (mathFloorDiv (urow.xp + 15) 100 + 1) t.userId,
           activeTimers := mapDelete w.activeTimers t.userId,
           pending := clearTimeout w.pending t.timerId,
           timerSeq := w.timerSeq }, .returned ()) := by
    unfold fireTimer timerCallback completePomodoro
    simp only [hlen, if_true, hx]
  rw [hfire]
  simp only [turns, turn, idle, hfind, List.nil_append, List.getElem?_cons_zero, resume, hlen,
    if_true, putAt, addReply, List.set_cons_zero, hurow1, List.eraseIdx_cons_zero]

/-! ### The expiry callback and the registry entry -/

/-- C16 (the expiry callback guards on the entry), evaluated: the callback has no guard.
The timer of session 1 of user 1 fires and its callback is suspended at its `UPDATE`; user 1
stops the session and starts session 2.  The registry then holds, for user 1, the entry of
session 2 and none of session 1, and the callback is still in flight.  Running on, the
callback completes session 1, grants 15 xp and deletes the entry of session 2, whose timer
stays pending. -/
theorem expiry_callback_has_no_guard :
    (turns (idle demoRunning)
        [.fire 0, .callStop 1, .settle 1 1501000, .callStart 1 none 25, .settle 1 1501001]).map
        (fun s => (s.suspended, s.world.activeTimers, observe s))
      = some ([.expiryUpdate 1 1],
          [(1, { sessionId := 2, timerId := 1, endTime := 3001001 })],
          [.stop (.returned (.message "Pomodoro сессия остановлена")),
           .start (.returned (.session
             { id := 2, user_id := 1, task_id := none, duration := 25, completed := false,
               started_at := 1501001, completed_at := none }))],
          some 0, [(1, false, none), (2, false, none)]) ∧
    (turns (idle demoRunning)
        [.fire 0, .callStop 1, .settle 1 1501000, .callStart 1 none 25, .settle 1 1501001,
         .settle 0 1501002, .settle 0 1501003, .settle 0 1501004]).map
        (fun s => (s.suspended, s.world.activeTimers, s.world.pending.map (fun t => t.sessionId),
          (selectUser s.world.db 1).map (fun r => r.xp),
          s.world.db.pomodoro_sessions.map (fun r => (r.id, r.completed, r.completed_at))))
      = some ([], [], [2], some 15, [(1, true, some 1501002), (2, false, none)]) :=
  ⟨rfl, rfl⟩

/-- Expiry between atomic steps: the callback has no guard of its own, and none is needed
when no call is in flight.  In a reachable world a pending timer `t` has its owner's registry
entry, with the timer's session and timer ids, so the entry is present when the timer
fires; the firing deletes that entry only: every registry entry of another session is
still there afterwards. -/
theorem expiry_removes_own_entry_only (w : World) (now : Int) (t : PendingTimer)
    (hreach : Reachable w) (ht : t ∈ w.pending) :
    (∃ e, mapGet w.activeTimers t.userId = some e ∧ e.sessionId = t.sessionId ∧
      e.timerId = t.timerId) ∧
    (∀ kv ∈ w.activeTimers, kv.2.sessionId ≠ t.sessionId →
      kv ∈ (fireTimer w now t).1.activeTimers) ∧
    (∀ kv ∈ (fireTimer w now t).1.activeTimers, kv ∈ w.activeTimers) := by
  have hi := reachable_instep hreach
  obtain ⟨e, hem, hetid, hesid⟩ := hi.pending_entry t ht
  refine ⟨⟨e, mapGet_of_mem hi.keys_nodup hem, hesid, hetid⟩, ?_, ?_⟩
  · intro kv hkv hne
    rw [fireTimer_ok w now t (hi.timer_user t ht)]
    refine mem_mapDelete_iff.mpr ⟨hkv, ?_⟩
    intro hkey
    apply hne
    have hkv1 : (t.userId, kv.2) ∈ w.activeTimers := by rw [← hkey]; exact hkv
    rw [entry_unique hi.keys_nodup hkv1 hem]
    exact hesid
  · intro kv hkv
    exact mem_fireTimer_entries hkv

theorem expiry_removes_own_entry_only_witness :
    Reachable demoRunning ∧
    ({ timerId := 0, sessionId := 1, userId := 1, fireAt := 1501000 } : PendingTimer)
      ∈ demoRunning.pending ∧
    (∃ e, mapGet demoRunning.activeTimers 1 = some e ∧ e.sessionId = 1 ∧ e.timerId = 0) :=
  ⟨⟨demoWorld, [.start 1000 1 none 25], by decide, by decide⟩, by decide,
    (expiry_removes_own_entry_only demoRunning 1501000
      { timerId := 0, sessionId := 1, userId := 1, fireAt := 1501000 }
      ⟨demoWorld, [.start 1000 1 none 25], by decide, by decide⟩ (by decide)).1⟩

/-- Whatever makes `completePomodoro` throw, the callback then ends before its
`activeTimers.delete`: registry and pending timers are as the callback found them. -/
theorem timerCallback_thrown_keeps_registry (w : World) (now s u : Int) (msg : String)
    (h : (completePomodoro w.db now s u).2 = .thrown msg) :
    (timerCallback w now s u).2 = .thrown msg ∧
      (timerCallback w now s u).1.activeTimers = w.activeTimers ∧
      (timerCallback w now s u).1.pending = w.pending := by
  unfold timerCallback
  cases hx : completePomodoro w.db now s u with
  | mk db1 out =>
    rw [hx] at h
    simp only at h
    subst h
    exact ⟨rfl, rfl, rfl⟩

/-- C17, evaluated: the timer of session 1 of user 1 fires and the `UPDATE` awaited by
`completePomodoro` fails.  The callback ends with the exception; the registry still holds
the entry of user 1 although no timer is pending, and a new start for user 1 is refused as
already active. -/
theorem expiry_failure_keeps_entry :
    (turns (idle demoRunning) [.fire 0, .reject 0]).map
        (fun s => (s.replies, s.suspended, s.world.activeTimers, s.world.pending))
      = some ([.callback (.thrown "query failed")], [],
          [(1, { sessionId := 1, timerId := 0, endTime := 1501000 })], []) ∧
    (turns (idle demoRunning) [.fire 0, .reject 0, .callStart 1 none 25]).map
        (fun s => (s.replies, s.world.activeTimers))
      = some ([.callback (.thrown "query failed"),
               .start (.returned (.error "У вас уже есть активная Pomodoro сессия!"))],
          [(1, { sessionId := 1, timerId := 0, endTime := 1501000 })]) :=
  ⟨rfl, rfl⟩

/-- C18, evaluated.  First: the timer of session 1 fires, `stopPomodoro` arrives while the
callback awaits its `UPDATE`; stop reports success, and the callback then grants 15 xp and
leaves `completed_at` set (with the two `UPDATE`s taking effect in the other order the row
also ends `completed = true`).  Second: two calls of `startPomodoro` for user 1 overlap;
both pass the `has` check and both return a session, and two timers are pending. -/
theorem stop_and_expiry_both_win :
    (turns (idle demoRunning)
        [.fire 0, .callStop 1, .settle 0 1501000, .settle 1 1501001, .settle 0 1501002,
         .settle 0 1501003]).map observe
      = some ([.stop (.returned (.message "Pomodoro сессия остановлена")),
               .callback (.returned ())], some 15, [(1, false, some 1501000)]) ∧
    (turns (idle demoRunning)
        [.fire 0, .callStop 1, .settle 1 1501000, .settle 0 1501001, .settle 0 1501002,
         .settle 0 1501003]).map observe
      = some ([.stop (.returned (.message "Pomodoro сессия остановлена")),
               .callback (.returned ())], some 15, [(1, true, some 1501001)]) ∧
    (turns (idle demoWorld)
        [.callStart 1 none 25, .callStart 1 none 25, .settle 0 1000, .settle 0 1001]).map
        (fun s => (s.replies, s.world.pending.map (fun t => (t.timerId, t.sessionId)),
          s.world.activeTimers.map (fun kv => (kv.1, kv.2.sessionId))))
      = some ([.start (.returned (.session
                 { id := 1, user_id := 1, task_id := none, duration := 25, completed := false,
                   started_at := 1000, completed_at := none })),
               .start (.returned (.session
                 { id := 2, user_id := 1, task_id := none, duration := 25, completed := false,
                   started_at := 1001, completed_at := none }))],
          [(0, 1), (1, 2)], [(1, 2)]) :=
  ⟨rfl, rfl, rfl⟩

/-- C13 (explicit stop aborts without reward), evaluated.  The timer of session 1 of user 1
fires and the `UPDATE` of `completePomodoro` takes effect; the callback is then suspended
inside `addXP`, and the registry still holds user 1's entry for session 1.  `stopPomodoro(1)`
arrives in that state: it finds the entry, returns the stopped result and sets
`completed = false`; the session's `completed_at` stays set and the callback goes on to
grant 15 xp. -/
theorem stop_after_completion_began :
    (turns (idle demoRunning) [.fire 0, .settle 0 1501000]).map
        (fun s => (s.suspended, s.world.activeTimers, observe s))
      = some ([.expirySelect 1],
          [(1, { sessionId := 1, timerId := 0, endTime := 1501000 })],
          [], some 0, [(1, true, some 1501000)]) ∧
    (turns (idle demoRunning)
        [.fire 0, .settle 0 1501000, .callStop 1, .settle 1 1501001]).map
        (fun s => (s.suspended, s.world.activeTimers, observe s))
      = some ([.expirySelect 1], [],
          [.stop (.returned (.message "Pomodoro сессия остановлена"))],
          some 0, [(1, false, some 1501000)]) ∧
    (turns (idle demoRunning)
        [.fire 0, .settle 0 1501000, .callStop 1, .settle 1 1501001, .settle 0 1501002,
         .settle 0 1501003]).map
        (fun s => (s.suspended, s.world.activeTimers, observe s))
      = some ([], [],
          [.stop (.returned (.message "Pomodoro сессия остановлена")),
           .callback (.returned ())],
          some 15, [(1, false, some 1501000)]) :=
  ⟨rfl, rfl, rfl⟩

/-! ### Start, peek, stop -/

theorem insertSession_users (db : Db) (now u : Int) (task : Option Int) (d : Int) :
    (insertSession db now u task d).1.users = db.users := by
  unfold insertSession
  simp only
  split <;> rfl

/-- What a start that returned a session row has left behind for its owner. -/
theorem startPomodoro_session_world (w : World) (now u : Int) (task : Option Int) (d : Int)
    (row : PomodoroSession)
    (h : (startPomodoro w now u task d).2 = .returned (.session row)) :
    mapGet (startPomodoro w now u task d).1.activeTimers u
        = some { sessionId := row.id, timerId := w.timerSeq, endTime := now + d * 60 * 1000 } ∧
      (startPomodoro w now u task d).1.db.users = w.db.users := by
  by_cases hhas : mapHas w.activeTimers u = true
  · exfalso
    simp [startPomodoro, hhas] at h
  · have hf : mapHas w.activeTimers u = false := by simpa using hhas
    have husers := insertSession_users w.db now u (orNull task) d
    unfold startPomodoro at h ⊢
    simp only [hf, Bool.false_eq_true, if_false] at h ⊢
    cases hi : insertSession w.db now u (orNull task) d with
    | mk db1 r =>
      rw [hi] at h husers
      cases r with
      | none => simp at h
      | some session =>
        simp only [Outcome.returned.injEq, StartResult.session.injEq] at h
        subst h
        exact ⟨mapGet_mapSet _ _ _, husers⟩

/-- Start, peek and stop with no timer firing in between: after a
`startPomodoro(u, null, d)` at `t0` that returned the session row, and while the session's
timer has not fired, `getActivePomodoro(u)` at `t0 + e`, for `e <= d * 60000`, reports that
session with `remaining = d * 60000 - e` and its minutes and seconds (for `d = 25` and
`e = 60000`: 24 minutes, 0 seconds, formatted `24:00`); `stopPomodoro(u)` then returns the
stopped result, the `users` table is as it was before the start (no xp granted), and
`getActivePomodoro(u)` from then on reports no active session. -/
theorem start_peek_stop (w : World) (t0 u d e : Int) (row : PomodoroSession)
    (hstart : (startPomodoro w t0 u none d).2 = .returned (.session row))
    (he : e ≤ d * 60000) :
    (∃ info : ActiveInfo,
      (getActivePomodoro (startPomodoro w t0 u none d).1 (t0 + e) u).2 = some info ∧
      info.sessionId = row.id ∧
      info.remaining = d * 60000 - e ∧
      info.remainingMinutes = mathFloorDiv (d * 60000 - e) 60000 ∧
      info.remainingSeconds = mathFloorDiv ((d * 60000 - e) % 60000) 1000 ∧
      (d = 25 → e = 60000 →
        info.remainingMinutes = 24 ∧ info.remainingSeconds = 0 ∧
        formatted info = ['2', '4', ':', '0', '0'])) ∧
    (stopPomodoro (startPomodoro w t0 u none d).1 u).2
      = .returned (.message "Pomodoro сессия остановлена") ∧
    (stopPomodoro (startPomodoro w t0 u none d).1 u).1.db.users = w.db.users ∧
    ∀ t, (getActivePomodoro (stopPomodoro (startPomodoro w t0 u none d).1 u).1 t u).2 = none := by
  obtain ⟨hentry, husers⟩ := startPomodoro_session_world w t0 u none d row hstart
  have hrem : max 0 (t0 + d * 60 * 1000 - (t0 + e)) = d * 60000 - e := by
    have : t0 + d * 60 * 1000 - (t0 + e) = d * 60000 - e := by ring
    rw [this]
    exact max_eq_right (by omega)
  refine ⟨?_, ?_, ?_, ?_⟩
  · refine ⟨{ sessionId := row.id, remaining := d * 60000 - e,
              remainingMinutes := mathFloorDiv (d * 60000 - e) 60000,
              remainingSeconds := mathFloorDiv ((d * 60000 - e) % 60000) 1000 },
      ?_, rfl, rfl, rfl, rfl, ?_⟩
    · simp only [getActivePomodoro, hentry, hrem]
    · intro hd25 he60
      subst hd25
      subst he60
      exact ⟨rfl, rfl, rfl⟩
  · rcases stopPomodoro_world (startPomodoro w t0 u none d).1 u with ⟨hnone, _⟩ | ⟨e1, _, h⟩
    · rw [hnone] at hentry; cases hentry
    · rw [h]
  · rcases stopPomodoro_world (startPomodoro w t0 u none d).1 u with ⟨hnone, _⟩ | ⟨e1, _, h⟩
    · rw [hnone] at hentry; cases hentry
    · rw [h]; exact husers
  · intro t
    rcases stopPomodoro_world (startPomodoro w t0 u none d).1 u with ⟨hnone, _⟩ | ⟨e1, _, h⟩
    · rw [hnone] at hentry; cases hentry
    · rw [h]
      simp only [getActivePomodoro, mapGet_mapDelete]

theorem start_peek_stop_witness :
    (startPomodoro demoWorld 1000 1 none 25).2
      = .returned (.session { id := 1, user_id := 1, task_id := none, duration := 25,
                              completed := false, started_at := 1000, completed_at := none }) ∧
    (∃ info : ActiveInfo,
      (getActivePomodoro (startPomodoro demoWorld 1000 1 none 25).1 (1000 + 60000) 1).2
        = some info ∧
      info.sessionId = 1 ∧
      info.remaining = 25 * 60000 - 60000 ∧
      info.remainingMinutes = mathFloorDiv (25 * 60000 - 60000) 60000 ∧
      info.remainingSeconds = mathFloorDiv ((25 * 60000 - 60000) % 60000) 1000 ∧
      ((25 : Int) = 25 → (60000 : Int) = 60000 →
        info.remainingMinutes = 24 ∧ info.remainingSeconds = 0 ∧
        formatted info = ['2', '4', ':', '0', '0'])) ∧
    (stopPomodoro (startPomodoro demoWorld 1000 1 none 25).1 1).2
      = .returned (.message "Pomodoro сессия остановлена") ∧
    (stopPomodoro (startPomodoro demoWorld 1000 1 none 25).1 1).1.db.users
      = demoWorld.db.users ∧
    ∀ t, (getActivePomodoro (stopPomodoro (startPomodoro demoWorld 1000 1 none 25).1 1).1
      t 1).2 = none :=
  ⟨by decide,
    start_peek_stop demoWorld 1000 1 25 60000
      { id := 1, user_id := 1, task_id := none, duration := 25, completed := false,
        started_at := 1000, completed_at := none } (by decide) (by decide)⟩

/-- C19 (start, peek, stop), evaluated with time passing.  For `d = 25` and `e = 60000` no
timer is due, the peek reports 24 minutes 0 seconds and the stop succeeds.  For `d = 40000`
and `e = 50` the start returns the session row and sets `endTime` 40000 minutes ahead, but
the timer is armed for 1 millisecond: at `t0 + 50` it has fired, the session is completed,
15 xp are granted, `getActivePomodoro` reports no active session (not the remaining
`d * 60000 - e`), and `stopPomodoro` returns the error of a user with no session. -/
theorem start_peek_stop_long_duration :
    advanceTo demoRunning 61000 = demoRunning ∧
    (getActivePomodoro (advanceTo demoRunning 61000) 61000 1).2
      = some { sessionId := 1, remaining := 1440000, remainingMinutes := 24,
               remainingSeconds := 0 } ∧
    (stopPomodoro (advanceTo demoRunning 61000) 1).2
      = .returned (.message "Pomodoro сессия остановлена") ∧
    (startPomodoro demoWorld 1000 1 none 40000).2
      = .returned (.session { id := 1, user_id := 1, task_id := none, duration := 40000,
                              completed := false, started_at := 1000, completed_at := none }) ∧
    demoLong.activeTimers
      = [(1, { sessionId := 1, timerId := 0, endTime := 1000 + 40000 * 60000 })] ∧
    demoLong.pending = [{ timerId := 0, sessionId := 1, userId := 1, fireAt := 1001 }] ∧
    (getActivePomodoro (advanceTo demoLong 1050) 1050 1).2 = none ∧
    (advanceTo demoLong 1050).db.pomodoro_sessions
      = [{ id := 1, user_id := 1, task_id := none, duration := 40000, completed := true,
           started_at := 1000, completed_at := some 1001 }] ∧
    (selectUser demoLong.db 1).map (fun r => r.xp) = some 0 ∧
    (selectUser (advanceTo demoLong 1050).db 1).map (fun r => r.xp) = some 15 ∧
    (stopPomodoro (advanceTo demoLong 1050) 1).2
      = .returned (.error "У вас нет активной Pomodoro сессии") := by
  refine ⟨by decide, by decide, by decide, by decide, by decide, by decide, by decide,
    by decide, by decide, by decide, by decide⟩

/-! ### The two notions of today -/

/-- The day difference `updateHabitStreak` computes for the entry `markHabitComplete` has
just written is the local calendar day of `now` minus its UTC calendar day. -/
theorem todays_entry_daysDiff (tz now : Int) :
    mathFloorDiv (setHoursZero (fixedZone tz) now - setHoursZero (fixedZone tz) (pgDate (fixedZone tz) (utcDay now)))
        (1000 * 60 * 60 * 24)
      = localDay (fixedZone tz) now - utcDay now := by
  rw [daysDiff_eq, localDay_pgDate]

/-- In a process whose zone is UTC the two days are the same. -/
theorem localDay_utc (now : Int) : localDay (fixedZone 0) now = utcDay now := by
  simp [localDay_fixed, utcDay]

/-- C20, evaluated: zone UTC+3, instant 1727991000000 (00:30 local time on day 20000, 21:30
UTC on day 19999), a habit never marked before.  `markHabitComplete` writes the entry for
day 19999, `updateHabitStreak` takes today to be day 20000 and computes day difference 1
for the entry, and the call returns streak 0 although it has just recorded a completion. -/
theorem markHabitComplete_utc_vs_local :
    utcDay 1727991000000 = 19999 ∧ localDay (fixedZone 10800000) 1727991000000 = 20000 ∧
    (markHabitComplete freshHabitDb (fixedZone 10800000) 1727991000000 (.str ['7']) 1).1.habit_tracking
      = [{ habit_id := 7, user_id := 1, date := 19999, completed := true }] ∧
    mathFloorDiv (setHoursZero (fixedZone 10800000) 1727991000000
        - setHoursZero (fixedZone 10800000) (pgDate (fixedZone 10800000) (utcDay 1727991000000)))
      (1000 * 60 * 60 * 24) = 1 ∧
    (markHabitComplete freshHabitDb (fixedZone 10800000) 1727991000000 (.str ['7']) 1).2
      = .returned { message := none,
                    habit := { id := 7, user_id := 1, name := ['r', 'u', 'n'],
                               streak := some 0, best_streak := some 0, active := true },
                    streak := 0 } := by
  decide

/-! ### Rewards paid once: tasks and goals -/

theorem addXP_found (db : Db) (u a : Int) (row : UserRow) (h : selectUser db u = some row) :
    addXP db u a
      = (updateUserXp db (row.xp + a) (mathFloorDiv (row.xp + a) 100 + 1) u,
         .returned { newXP := row.xp + a, newLevel := mathFloorDiv (row.xp + a) 100 + 1,
                     leveledUp := decide (mathFloorDiv (row.xp + a) 100 + 1 > row.level),
                     xpGained := a }) := by
  simp [addXP, h]

theorem selectUser_updateUserXp_other (db : Db) (x l u v : Int) (hne : v ≠ u) :
    selectUser (updateUserXp db x l u) v = selectUser db v := by
  simp only [selectUser, updateUserXp]
  exact find_user_map_other _ x l u v hne

theorem find_task_map_update (tasks : List TaskRow) (now tid u : Int) :
    (tasks.map (fun t => if t.id == tid && t.user_id == u then
        { t with status := "completed", completed_at := some now } else t)).find?
        (fun t => t.id == tid && t.user_id == u)
      = (tasks.find? (fun t => t.id == tid && t.user_id == u)).map
          (fun t => { t with status := "completed", completed_at := some now }) := by
  induction tasks with
  | nil => rfl
  | cons r rest ih =>
    rw [List.map_cons, List.find?_cons, List.find?_cons]
    cases hb : (r.id == tid && r.user_id == u) with
    | true => simp [hb]
    | false =>
      simp only [hb, Bool.false_eq_true, if_false]
      exact ih

/-- C26 (task completion is rewarded once).  For a task row of the user that is not yet
completed (and the user a row of `users`), `completeTask` returns the row marked completed
at `now`, stores it, and raises the user's xp by exactly 10, every other user's row being
untouched.  For a task row already completed it returns the already-completed result and
the store is unchanged.  When no task has that id and owner it throws and the store is
unchanged. -/
theorem completeTask_rewarded_once (db : Db) (now tid u : Int) :
    (∀ (t : TaskRow) (row : UserRow),
      db.tasks.find? (fun t => t.id == tid && t.user_id == u) = some t →
      t.status ≠ "completed" → selectUser db u = some row →
      (completeTask db now tid u).2
        = .returned (.updated (some { t with status := "completed", completed_at := some now })) ∧
      (completeTask db now tid u).1.tasks.find? (fun t => t.id == tid && t.user_id == u)
        = some { t with status := "completed", completed_at := some now } ∧
      (selectUser (completeTask db now tid u).1 u).map (fun r => r.xp) = some (row.xp + 10) ∧
      ∀ v, v ≠ u → selectUser (completeTask db now tid u).1 v = selectUser db v) ∧
    (∀ t : TaskRow,
      db.tasks.find? (fun t => t.id == tid && t.user_id == u) = some t →
      t.status = "completed" →
      (completeTask db now tid u).2 = .returned (.already "Задача уже завершена" t) ∧
      (completeTask db now tid u).1 = db) ∧
    ((∀ t ∈ db.tasks, ¬ (t.id = tid ∧ t.user_id = u)) →
      (completeTask db now tid u).2
        = .thrown "Задача не найдена или не принадлежит пользователю" ∧
      (completeTask db now tid u).1 = db) := by
  refine ⟨?_, ?_, ?_⟩
  · intro t row hf hst hu
    have hstb : (t.status == "completed") = false := by simpa using hst
    have hu1 : selectUser (updateTaskCompleted db now tid u).1 u = some row := hu
    have hc : completeTask db now tid u
        = (updateUserXp (updateTaskCompleted db now tid u).1 (row.xp + 10)
            (mathFloorDiv (row.xp + 10) 100 + 1) u,
           .returned (.updated (updateTaskCompleted db now tid u).2.head?)) := by
      simp only [completeTask, hf, hstb, Bool.false_eq_true, if_false,
        addXP_found _ u 10 row hu1]
    have hrows : (updateTaskCompleted db now tid u).2.head?
        = some { t with status := "completed", completed_at := some now } := by
      simp only [updateTaskCompleted, List.head?_map, List.filter_head?, hf, Option.map]
    rw [hc]
    refine ⟨by rw [hrows], ?_, ?_, ?_⟩
    · simp only [updateUserXp, updateTaskCompleted]
      rw [find_task_map_update, hf]
      rfl
    · rw [selectUser_updateUserXp, hu1]
      rfl
    · intro v hv
      rw [selectUser_updateUserXp_other _ _ _ u v hv]
      rfl
  · intro t hf hst
    have hstb : (t.status == "completed") = true := by simpa using hst
    have hc : completeTask db now tid u
        = (db, .returned (.already "Задача уже завершена" t)) := by
      simp only [completeTask, hf, hstb, if_true]
    rw [hc]
    exact ⟨rfl, rfl⟩
  · intro hnone
    have hf : db.tasks.find? (fun t => t.id == tid && t.user_id == u) = none := by
      rw [List.find?_eq_none]
      intro t ht
      have := hnone t ht
      simpa using this
    have hc : completeTask db now tid u
        = (db, .thrown "Задача не найдена или не принадлежит пользователю") := by
      simp only [completeTask, hf]
    rw [hc]
    exact ⟨rfl, rfl⟩

theorem completeTask_rewarded_once_witness :
    (completeTask taskDb 1000 3 1).2
        = .returned (.updated (some { id := 3, user_id := 1, status := "completed",
                                      completed_at := some 1000 })) ∧
      (selectUser (completeTask taskDb 1000 3 1).1 1).map (fun r => r.xp) = some (95 + 10) ∧
      (completeTask taskDb 1000 4 1).2
        = .returned (.already "Задача уже завершена"
            { id := 4, user_id := 1, status := "completed", completed_at := some 500 }) ∧
      (completeTask taskDb 1000 4 1).1 = taskDb ∧
      (completeTask taskDb 1000 3 2).2
        = .thrown "Задача не найдена или не принадлежит пользователю" ∧
      (completeTask taskDb 1000 3 2).1 = taskDb :=
  ⟨((completeTask_rewarded_once taskDb 1000 3 1).1
      { id := 3, user_id := 1, status := "pending", completed_at := none }
      { id := 1, xp := 95, level := 1 } (by decide) (by decide) (by decide)).1,
    ((completeTask_rewarded_once taskDb 1000 3 1).1
      { id := 3, user_id := 1, status := "pending", completed_at := none }
      { id := 1, xp := 95, level := 1 } (by decide) (by decide) (by decide)).2.2.1,
    ((completeTask_rewarded_once taskDb 1000 4 1).2.1
      { id := 4, user_id := 1, status := "completed", completed_at := some 500 }
      (by decide) (by decide)).1,
    ((completeTask_rewarded_once taskDb 1000 4 1).2.1
      { id := 4, user_id := 1, status := "completed", completed_at := some 500 }
      (by decide) (by decide)).2,
    (completeTask_rewarded_once taskDb 1000 3 2).2.2 (by decide)⟩

theorem find_goal_map_update (goals : List GoalRow) (now c gid u : Int) :
    (goals.map (fun g => if g.id == gid && g.user_id == u then
        { g with progress := c, updated_at := now } else g)).find?
        (fun g => g.id == gid && g.user_id == u)
      = (goals.find? (fun g => g.id == gid && g.user_id == u)).map
          (fun g => { g with progress := c, updated_at := now }) := by
  induction goals with
  | nil => rfl
  | cons r rest ih =>
    rw [List.map_cons, List.find?_cons, List.find?_cons]
    cases hb : (r.id == gid && r.user_id == u) with
    | true => simp [hb]
    | false =>
      simp only [hb, Bool.false_eq_true, if_false]
      exact ih

theorem updateGoalProgress_goals (s : CareerStore) (now gid u p : Int) (g : GoalRow)
    (hf : s.career_goals.find? (fun g => g.id == gid && g.user_id == u) = some g) :
    (updateGoalProgress s now gid u p).1.career_goals
      = (updateGoalRow s.career_goals now (clampProgress p) gid u).1 := by
  simp only [updateGoalProgress, hf]
  split
  · cases hx : addXP s.db u 50 with
    | mk db1 out => cases out <;> rfl
  · rfl

theorem clampProgress_eq (p : Int) : clampProgress p = min 100 (max 0 p) := by
  unfold clampProgress
  omega

/-- C25 (the goal bonus is paid once).  For a goal row of the user, `updateGoalProgress`
stores `min(100, max(0, p))`; when that value is 100 and the stored progress was below 100
it returns the updated row and the user's xp rises by exactly 50, every other user's row
being untouched; in every other case, in particular for a goal already at 100, it returns
the updated row and the store of users is unchanged.  When no goal has that id and owner it
throws `Цель не найдена` and nothing changes. -/
theorem updateGoalProgress_bonus_once (s : CareerStore) (now gid u p : Int) :
    (∀ g : GoalRow,
      s.career_goals.find? (fun g => g.id == gid && g.user_id == u) = some g →
      clampProgress p = min 100 (max 0 p) ∧
      (updateGoalProgress s now gid u p).1.career_goals.find?
          (fun g => g.id == gid && g.user_id == u)
        = some { g with progress := min 100 (max 0 p), updated_at := now } ∧
      (∀ row : UserRow, min 100 (max 0 p) = 100 → g.progress < 100 →
        selectUser s.db u = some row →
        (updateGoalProgress s now gid u p).2
          = .returned (some { g with progress := 100, updated_at := now }) ∧
        (selectUser (updateGoalProgress s now gid u p).1.db u).map (fun r => r.xp)
          = some (row.xp + 50) ∧
        ∀ v, v ≠ u → selectUser (updateGoalProgress s now gid u p).1.db v = selectUser s.db v) ∧
      (¬ (min 100 (max 0 p) = 100 ∧ g.progress < 100) →
        (updateGoalProgress s now gid u p).2
          = .returned (some { g with progress := min 100 (max 0 p), updated_at := now }) ∧
        (updateGoalProgress s now gid u p).1.db = s.db) ∧
      (g.progress = 100 → (updateGoalProgress s now gid u p).1.db = s.db)) ∧
    ((∀ g ∈ s.career_goals, ¬ (g.id = gid ∧ g.user_id = u)) →
      (updateGoalProgress s now gid u p).2 = .thrown "Цель не найдена" ∧
      (updateGoalProgress s now gid u p).1 = s) := by
  have hclamp := clampProgress_eq p
  refine ⟨?_, ?_⟩
  · intro g hf
    have hrows : (updateGoalRow s.career_goals now (clampProgress p) gid u).2.head?
        = some { g with progress := clampProgress p, updated_at := now } := by
      simp only [updateGoalRow, List.head?_map, List.filter_head?, hf, Option.map]
    have hnogrant : ¬ (min 100 (max 0 p) = 100 ∧ g.progress < 100) →
        (updateGoalProgress s now gid u p).2
          = .returned (some { g with progress := min 100 (max 0 p), updated_at := now }) ∧
        (updateGoalProgress s now gid u p).1.db = s.db := by
      intro hno
      have hcond : (clampProgress p == 100 && decide (g.progress < 100)) = false := by
        rw [hclamp]
        by_cases h1 : min 100 (max 0 p) = 100
        · have : ¬ g.progress < 100 := fun h2 => hno ⟨h1, h2⟩
          simp [h1, this]
        · simp [h1]
      have hres : updateGoalProgress s now gid u p
          = ({ db := s.db,
               career_goals := (updateGoalRow s.career_goals now (clampProgress p) gid u).1 },
             .returned (updateGoalRow s.career_goals now (clampProgress p) gid u).2.head?) := by
        simp only [updateGoalProgress, hf, hcond, Bool.false_eq_true, if_false]
      rw [hres, hrows, hclamp]
      exact ⟨rfl, rfl⟩
    refine ⟨hclamp, ?_, ?_, hnogrant, ?_⟩
    · rw [updateGoalProgress_goals s now gid u p g hf, ← hclamp]
      simp only [updateGoalRow]
      rw [find_goal_map_update, hf]
      rfl
    · intro row h100 hlt hu
      have hc100 : clampProgress p = 100 := by rw [hclamp]; exact h100
      have hcond : (clampProgress p == 100 && decide (g.progress < 100)) = true := by
        simp [hc100, hlt]
      have hres : updateGoalProgress s now gid u p
          = ({ db := updateUserXp s.db (row.xp + 50) (mathFloorDiv (row.xp + 50) 100 + 1) u,
               career_goals := (updateGoalRow s.career_goals now (clampProgress p) gid u).1 },
             .returned (updateGoalRow s.career_goals now (clampProgress p) gid u).2.head?) := by
        simp only [updateGoalProgress, hf, hcond, if_true, addXP_found s.db u 50 row hu]
      rw [hres]
      refine ⟨?_, ?_, ?_⟩
      · rw [hrows, hc100]
      · simp only
        rw [selectUser_updateUserXp, hu]
        rfl
      · intro v hv
        exact selectUser_updateUserXp_other _ _ _ u v hv
    · intro h100
      exact (hnogrant (fun h => by omega)).2
  · intro hnone
    have hf : s.career_goals.find? (fun g => g.id == gid && g.user_id == u) = none := by
      rw [List.find?_eq_none]
      intro g hg
      have := hnone g hg
      simpa using this
    have hc : updateGoalProgress s now gid u p = (s, .thrown "Цель не найдена") := by
      simp only [updateGoalProgress, hf]
    rw [hc]
    exact ⟨rfl, rfl⟩

theorem updateGoalProgress_bonus_once_witness :
    (updateGoalProgress goalStore 1000 5 1 250).2
        = .returned (some { id := 5, user_id := 1, progress := 100, status := "active",
                            updated_at := 1000 }) ∧
      (selectUser (updateGoalProgress goalStore 1000 5 1 250).1.db 1).map (fun r => r.xp)
        = some (95 + 50) ∧
      (updateGoalProgress goalStore 1000 6 1 100).1.db = goalStore.db ∧
      (updateGoalProgress goalStore 1000 5 2 100).2 = .thrown "Цель не найдена" ∧
      (updateGoalProgress goalStore 1000 5 2 100).1 = goalStore :=
  ⟨(((updateGoalProgress_bonus_once goalStore 1000 5 1 250).1
      { id := 5, user_id := 1, progress := 40, status := "active", updated_at := 0 }
      (by decide)).2.2.1 { id := 1, xp := 95, level := 1 } (by decide) (by decide)
      (by decide)).1,
    (((updateGoalProgress_bonus_once goalStore 1000 5 1 250).1
      { id := 5, user_id := 1, progress := 40, status := "active", updated_at := 0 }
      (by decide)).2.2.1 { id := 1, xp := 95, level := 1 } (by decide) (by decide)
      (by decide)).2.1,
    ((updateGoalProgress_bonus_once goalStore 1000 6 1 100).1
      { id := 6, user_id := 1, progress := 100, status := "active", updated_at := 0 }
      (by decide)).2.2.2.2 (by decide),
    (updateGoalProgress_bonus_once goalStore 1000 5 2 100).2 (by decide)⟩

/-- C30 (registry and timers stay in step): in every world reachable from the empty
registry by start, stop and expiry steps, an owner has at most one pending timer; every
pending timer is the timer of its owner's registry entry, for the same session; and the
session of every registry entry has a row, every row with that id belongs to the entry's
owner and has no `completed_at`. -/
theorem registry_and_timers_in_step (w : World) (hreach : Reachable w) :
    (∀ t1 ∈ w.pending, ∀ t2 ∈ w.pending, t1.userId = t2.userId → t1 = t2) ∧
    (∀ t ∈ w.pending, ∃ e, mapGet w.activeTimers t.userId = some e ∧
      e.timerId = t.timerId ∧ e.sessionId = t.sessionId) ∧
    (∀ u e, mapGet w.activeTimers u = some e →
      (∃ r ∈ w.db.pomodoro_sessions, r.id = e.sessionId ∧ r.user_id = u) ∧
      ∀ r ∈ w.db.pomodoro_sessions, r.id = e.sessionId →
        r.user_id = u ∧ r.completed_at = none) ∧
    (∀ kv ∈ w.activeTimers, mapGet w.activeTimers kv.1 = some kv.2) := by
  have hc := reachable_consistent hreach
  have hi := reachable_instep hreach
  refine ⟨?_, ?_, ?_, ?_⟩
  · intro t1 ht1 t2 ht2 hu
    obtain ⟨e1, he1, htid1, _⟩ := hi.pending_entry t1 ht1
    obtain ⟨e2, he2, htid2, _⟩ := hi.pending_entry t2 ht2
    rw [hu] at he1
    have hee : e1 = e2 := entry_unique hi.keys_nodup he1 he2
    exact hi.timers_nodup t1 ht1 t2 ht2 (by rw [← htid1, ← htid2, hee])
  · intro t ht
    obtain ⟨e, he, htid, hsid⟩ := hi.pending_entry t ht
    exact ⟨e, mapGet_of_mem hi.keys_nodup he, htid, hsid⟩
  · intro u e he
    have hmem := mem_of_mapGet he
    obtain ⟨t, ht, htid, hsid, huid⟩ := hi.entry_pending (u, e) hmem
    obtain ⟨r, hr, hid, hru⟩ := hi.timer_row t ht
    refine ⟨⟨r, hr, by rw [hid]; exact hsid, by rw [hru]; exact huid⟩, ?_⟩
    intro r1 hr1 hid1
    have hid2 : r1.id = t.sessionId := by rw [hid1]; exact hsid.symm
    refine ⟨?_, (hc.timer_open t ht r1 hr1 hid2).2⟩
    rw [hi.timer_rows_owner t ht r1 hr1 hid2]
    exact huid
  · intro kv hkv
    exact mapGet_of_mem hi.keys_nodup hkv

theorem registry_and_timers_in_step_witness :
    Reachable demoRunning ∧
    (∀ t1 ∈ demoRunning.pending, ∀ t2 ∈ demoRunning.pending, t1.userId = t2.userId → t1 = t2) ∧
    (∀ t ∈ demoRunning.pending, ∃ e, mapGet demoRunning.activeTimers t.userId = some e ∧
      e.timerId = t.timerId ∧ e.sessionId = t.sessionId) :=
  ⟨⟨demoWorld, [.start 1000 1 none 25], by decide, by decide⟩,
    (registry_and_timers_in_step demoRunning
      ⟨demoWorld, [.start 1000 1 none 25], by decide, by decide⟩).1,
    (registry_and_timers_in_step demoRunning
      ⟨demoWorld, [.start 1000 1 none 25], by decide, by decide⟩).2.1⟩

/-! ### Minutes, seconds and the formatted string -/

theorem padStart2_seconds :
    ∀ s : Nat, s < 60 →
      padStart2 (Nat.toDigits 10 s) = [Nat.digitChar (s / 10), Nat.digitChar (s % 10)] := by
  decide

/-- C29 (remaining-time decomposition): for an active entry, the record `getActivePomodoro`
returns has `0 <= remainingSeconds <= 59`, `0 <= remainingMinutes`,
`remainingMinutes * 60000 + remainingSeconds * 1000 <= remaining
< remainingMinutes * 60000 + (remainingSeconds + 1) * 1000`, and its formatted string is
the decimal rendering of `remainingMinutes`, a colon, and the tens digit and the units digit
of `remainingSeconds`. -/
theorem remaining_decomposition (w : World) (now u : Int) (e : TimerEntry)
    (he : mapGet w.activeTimers u = some e) :
    ∃ info : ActiveInfo, (getActivePomodoro w now u).2 = some info ∧
      0 ≤ info.remainingSeconds ∧ info.remainingSeconds ≤ 59 ∧ 0 ≤ info.remainingMinutes ∧
      info.remainingMinutes * 60000 + info.remainingSeconds * 1000 ≤ info.remaining ∧
      info.remaining < info.remainingMinutes * 60000 + (info.remainingSeconds + 1) * 1000 ∧
      ∃ d1 d0 : Nat, d1 < 10 ∧ d0 < 10 ∧ info.remainingSeconds = 10 * (d1 : Int) + (d0 : Int) ∧
        formatted info
          = jsNumToString info.remainingMinutes ++ [':', Nat.digitChar d1, Nat.digitChar d0] := by
  have hrem : (0 : Int) ≤ max 0 (e.endTime - now) := le_max_left _ _
  generalize hR : max 0 (e.endTime - now) = R at hrem
  have hmin : mathFloorDiv R 60000 = R / 60000 := mathFloorDiv_eq_ediv R (by norm_num)
  have hsec : mathFloorDiv (R % 60000) 1000 = R % 60000 / 1000 :=
    mathFloorDiv_eq_ediv _ (by norm_num)
  have hs0 : 0 ≤ R % 60000 / 1000 := by omega
  have hs59 : R % 60000 / 1000 ≤ 59 := by omega
  obtain ⟨s, hs⟩ := Int.eq_ofNat_of_zero_le hs0
  have hslt : s < 60 := by omega
  refine ⟨{ sessionId := e.sessionId, remaining := R, remainingMinutes := mathFloorDiv R 60000,
            remainingSeconds := mathFloorDiv (R % 60000) 1000 }, ?_, ?_, ?_, ?_, ?_, ?_, ?_⟩
  · simp only [getActivePomodoro, he, hR]
  · simp only [hsec]; exact hs0
  · simp only [hsec]; exact hs59
  · simp only [hmin]; omega
  · simp only [hmin, hsec]; omega
  · simp only [hmin, hsec]; omega
  · refine ⟨s / 10, s % 10, by omega, by omega, ?_, ?_⟩
    · simp only [hsec, hs]
      push_cast
      omega
    · simp only [formatted, hsec, hs]
      have : jsNumToString (s : Int) = Nat.toDigits 10 s := rfl
      rw [this, padStart2_seconds s hslt]

theorem remaining_decomposition_witness :
    mapGet demoRunning.activeTimers 1
      = some { sessionId := 1, timerId := 0, endTime := 1501000 } ∧
    ∃ info : ActiveInfo, (getActivePomodoro demoRunning 64500 1).2 = some info ∧
      0 ≤ info.remainingSeconds ∧ info.remainingSeconds ≤ 59 ∧ 0 ≤ info.remainingMinutes ∧
      info.remainingMinutes * 60000 + info.remainingSeconds * 1000 ≤ info.remaining ∧
      info.remaining < info.remainingMinutes * 60000 + (info.remainingSeconds + 1) * 1000 ∧
      ∃ d1 d0 : Nat, d1 < 10 ∧ d0 < 10 ∧ info.remainingSeconds = 10 * (d1 : Int) + (d0 : Int) ∧
        formatted info
          = jsNumToString info.remainingMinutes ++ [':', Nat.digitChar d1, Nat.digitChar d0] :=
  ⟨by decide, remaining_decomposition demoRunning 64500 1
    { sessionId := 1, timerId := 0, endTime := 1501000 } (by decide)⟩

/-! ### Keyboard rows -/

theorem buttonRowsFrom_eq (l : List Button) :
    ∀ (k i : Nat), l.length - i = k → buttonRowsFrom l i = rowsOfTwo (l.drop i) := by
  intro k
  induction k using Nat.strong_induction_on with
  | _ k ih =>
    intro i hk
    rw [buttonRowsFrom]
    by_cases hi : i < l.length
    · rw [if_pos hi, ih (l.length - (i + 2)) (by omega) (i + 2) rfl]
      have hdrop : l.drop (i + 2) = (l.drop i).drop 2 := by
        rw [List.drop_drop]
      rw [hdrop]
      cases hd : l.drop i with
      | nil =>
        have hlen := congrArg List.length hd
        rw [List.length_drop, List.length_nil] at hlen
        omega
      | cons a tl =>
        cases tl with
        | nil => simp [rowsOfTwo]
        | cons b rest => simp [rowsOfTwo]
    · rw [if_neg hi]
      have : l.drop i = [] := List.drop_eq_nil_of_le (by omega)
      rw [this]
      rfl

theorem rowsOfTwo_spec (l : List Button) :
    ∀ (k : Nat), l.length = k →
      (rowsOfTwo l).flatten = l ∧
      (rowsOfTwo l).length = (l.length + 1) / 2 ∧
      (∀ r ∈ (rowsOfTwo l).dropLast, r.length = 2) ∧
      (∀ r, (rowsOfTwo l).getLast? = some r → r.length = 1 ∨ r.length = 2) ∧
      (∀ r ∈ rowsOfTwo l, r ≠ []) := by
  intro k
  induction k using Nat.strong_induction_on generalizing l with
  | _ k ih =>
    intro hk
    match l, hk with
    | [], _ => simp [rowsOfTwo]
    | [a], _ => simp [rowsOfTwo]
    | a :: b :: rest, hk =>
      obtain ⟨hj, hl, hd, hlast, hne⟩ := ih rest.length (by simp at hk; omega) rest rfl
      refine ⟨?_, ?_, ?_, ?_, ?_⟩
      · simp [rowsOfTwo, hj]
      · simp only [rowsOfTwo, List.length_cons, hl]
        omega
      · intro r hr
        simp only [rowsOfTwo] at hr
        cases hR : rowsOfTwo rest with
        | nil => rw [hR] at hr; simp at hr
        | cons x xs =>
          rw [hR, List.dropLast_cons₂] at hr
          rcases List.mem_cons.mp hr with h | h
          · rw [h]; rfl
          · exact hd r (by rw [hR]; exact h)
      · intro r hr
        simp only [rowsOfTwo] at hr
        cases hR : rowsOfTwo rest with
        | nil =>
          rw [hR] at hr
          simp at hr
          rw [← hr]
          right; rfl
        | cons x xs =>
          rw [hR, List.getLast?_cons_cons] at hr
          exact hlast r (by rw [hR]; exact hr)
      · intro r hr
        simp only [rowsOfTwo] at hr
        rcases List.mem_cons.mp hr with h | h
        · rw [h]; simp
        · exact hne r h

/-- C28 (keyboard rows of two): for every list of `n` buttons given as
`options.keyboard.buttons`, the rows of the `inline_keyboard` attachment concatenate to the
converted buttons in their order; there are `ceil(n / 2)` of them (the least `k` with
`n <= 2 * k`); every row but the last has exactly 2 buttons, the last has 1 or 2, and no
row is empty. -/
theorem inlineKeyboard_rows (buttons : List Button) :
    (inlineKeyboard buttons).flatten = buttons.map convertButton ∧
      (inlineKeyboard buttons).length = (buttons.length + 1) / 2 ∧
      buttons.length ≤ 2 * (inlineKeyboard buttons).length ∧
      2 * (inlineKeyboard buttons).length < buttons.length + 2 ∧
      (∀ r ∈ (inlineKeyboard buttons).dropLast, r.length = 2) ∧
      (∀ r, (inlineKeyboard buttons).getLast? = some r → r.length = 1 ∨ r.length = 2) ∧
      (∀ r ∈ inlineKeyboard buttons, r ≠ []) := by
  have heq : inlineKeyboard buttons = rowsOfTwo (buttons.map convertButton) := by
    unfold inlineKeyboard
    rw [buttonRowsFrom_eq _ _ 0 rfl]
    rfl
  obtain ⟨hj, hl, hd, hlast, hne⟩ := rowsOfTwo_spec (buttons.map convertButton) _ rfl
  rw [heq]
  rw [List.length_map] at hl
  refine ⟨hj, hl, ?_, ?_, hd, hlast, hne⟩
  · rw [hl]; omega
  · rw [hl]; omega

theorem inlineKeyboard_rows_witness :
    (inlineKeyboard demoButtons).flatten = demoButtons.map convertButton ∧
      (inlineKeyboard demoButtons).length = 2 ∧
      (∀ r ∈ inlineKeyboard demoButtons, r ≠ []) :=
  ⟨(inlineKeyboard_rows demoButtons).1, (inlineKeyboard_rows demoButtons).2.1,
    (inlineKeyboard_rows demoButtons).2.2.2.2.2.2⟩

/-! ### `parseInt` reads back the canonical rendering -/

theorem digitValue_digitChar : ∀ d : Nat, d < 10 → digitValue 10 (Nat.digitChar d) = some d := by
  decide

theorem digitChar_not_special :
    ∀ d : Nat, d < 10 →
      Nat.digitChar d ≠ '-' ∧ Nat.digitChar d ≠ '+' ∧ Nat.digitChar d ≠ 'x' ∧
        Nat.digitChar d ≠ 'X' ∧ isJsSpace (Nat.digitChar d) = false := by
  decide

theorem digitValue_space (c : Char) (h : isJsSpace c = true) : digitValue 10 c = none := by
  unfold isJsSpace at h
  unfold digitValue
  simp only [Bool.or_eq_true, beq_iff_eq, Bool.and_eq_true, decide_eq_true_eq] at h
  have h1 : ¬ (48 ≤ c.toNat ∧ c.toNat ≤ 57) := by omega
  have h2 : ¬ (97 ≤ c.toNat ∧ c.toNat ≤ 122) := by omega
  have h3 : ¬ (65 ≤ c.toNat ∧ c.toNat ≤ 90) := by omega
  simp [h1, h2, h3]

theorem space_not_special (c : Char) (h : isJsSpace c = true) : c ≠ 'x' ∧ c ≠ 'X' := by
  constructor
  · intro hc; rw [hc] at h; revert h; decide
  · intro hc; rw [hc] at h; revert h; decide

theorem toDigitsCore_append (f : Nat) :
    ∀ (n : Nat) (ds W : List Char),
      Nat.toDigitsCore 10 f n ds ++ W = Nat.toDigitsCore 10 f n (ds ++ W) := by
  induction f with
  | zero => intro n ds W; rfl
  | succ f ih =>
    intro n ds W
    simp only [Nat.toDigitsCore]
    by_cases h : n / 10 = 0
    · simp [h]
    · simp only [h, if_false]
      rw [ih]
      rfl

/-- Reading the digits that `toDigitsCore` wrote in front of `ds` continues on `ds` with the
number written appended to the accumulator. -/
theorem readDigits_toDigitsCore (f : Nat) :
    ∀ (n : Nat) (ds : List Char), n < f →
      ∃ p : Nat, ∀ (acc : Nat) (seen : Bool),
        readDigits 10 (Nat.toDigitsCore 10 f n ds) acc seen
          = readDigits 10 ds (acc * p + n) true := by
  induction f with
  | zero => intro n ds h; omega
  | succ f ih =>
    intro n ds hn
    simp only [Nat.toDigitsCore]
    by_cases h : n / 10 = 0
    · refine ⟨10, ?_⟩
      intro acc seen
      have hlt : n < 10 := by omega
      have hmod : n % 10 = n := Nat.mod_eq_of_lt hlt
      simp only [h, if_true, readDigits, hmod, digitValue_digitChar n hlt]
    · obtain ⟨p, hp⟩ := ih (n / 10) (Nat.digitChar (n % 10) :: ds) (by omega)
      refine ⟨p * 10, ?_⟩
      intro acc seen
      simp only [h, if_false]
      rw [hp acc seen]
      have hd := digitValue_digitChar (n % 10) (Nat.mod_lt _ (by norm_num))
      simp only [readDigits, hd]
      congr 1
      have := Nat.div_add_mod n 10
      nlinarith [this]

theorem toDigitsCore_chars (f : Nat) :
    ∀ (n : Nat) (ds : List Char), ∀ c ∈ Nat.toDigitsCore 10 f n ds,
      c ∈ ds ∨ ∃ d, d < 10 ∧ c = Nat.digitChar d := by
  induction f with
  | zero => intro n ds c hc; left; exact hc
  | succ f ih =>
    intro n ds c hc
    simp only [Nat.toDigitsCore] at hc
    by_cases h : n / 10 = 0
    · simp only [h, if_true] at hc
      rcases List.mem_cons.mp hc with h1 | h1
      · right; exact ⟨n % 10, Nat.mod_lt _ (by norm_num), h1⟩
      · left; exact h1
    · simp only [h, if_false] at hc
      rcases ih _ _ c hc with h1 | h1
      · rcases List.mem_cons.mp h1 with h2 | h2
        · right; exact ⟨n % 10, Nat.mod_lt _ (by norm_num), h2⟩
        · left; exact h2
      · right; exact h1

theorem space_not_sign (c : Char) (h : isJsSpace c = true) : c ≠ '-' ∧ c ≠ '+' := by
  constructor
  · intro hc; rw [hc] at h; revert h; decide
  · intro hc; rw [hc] at h; revert h; decide

/-- After the leading white space is dropped, what is left is the trimmed string followed by
white space only. -/
theorem dropWhile_eq_trim_append (s : List Char) :
    ∃ W : List Char, s.dropWhile isJsSpace = jsTrim s ++ W ∧ ∀ c ∈ W, isJsSpace c = true := by
  refine ⟨((s.dropWhile isJsSpace).reverse.takeWhile isJsSpace).reverse, ?_, ?_⟩
  · unfold jsTrim
    rw [← List.reverse_append, List.takeWhile_append_dropWhile, List.reverse_reverse]
  · intro c hc
    exact List.mem_takeWhile_imp (List.mem_reverse.mp hc)

theorem readDigits_toDigits (k : Nat) (W : List Char) (hW : ∀ c ∈ W, isJsSpace c = true) :
    readDigits 10 (Nat.toDigits 10 k ++ W) 0 false = some k := by
  unfold Nat.toDigits
  rw [toDigitsCore_append, List.nil_append]
  obtain ⟨p, hp⟩ := readDigits_toDigitsCore (k + 1) k W (Nat.lt_succ_self k)
  rw [hp 0 false]
  cases W with
  | nil => simp [readDigits]
  | cons c rest =>
    have hc := digitValue_space c (hW c (List.mem_cons_self c rest))
    simp [readDigits, hc]

/-- No character of a rendered natural number followed by white space is a sign or the
letter of a radix prefix. -/
theorem toDigits_append_chars (k : Nat) (W : List Char)
    (hW : ∀ c ∈ W, isJsSpace c = true) :
    ∀ c ∈ Nat.toDigits 10 k ++ W, c ≠ '-' ∧ c ≠ '+' ∧ c ≠ 'x' ∧ c ≠ 'X' := by
  intro c hc
  rcases List.mem_append.mp hc with h | h
  · rcases toDigitsCore_chars (k + 1) k [] c h with h1 | ⟨d, hd, rfl⟩
    · exact absurd h1 (List.not_mem_nil c)
    · have := digitChar_not_special d hd
      exact ⟨this.1, this.2.1, this.2.2.1, this.2.2.2.1⟩
  · exact ⟨(space_not_sign c (hW c h)).1, (space_not_sign c (hW c h)).2,
      (space_not_special c (hW c h)).1, (space_not_special c (hW c h)).2⟩

theorem signMatch_plain (l : List Char) :
    ∀ (x : Bool × List Char),
      (match l with
        | '-' :: r => (true, r)
        | '+' :: r => (false, r)
        | r => (false, r)) = x →
      (∀ c ∈ l, c ≠ '-' ∧ c ≠ '+' ∧ c ≠ 'x' ∧ c ≠ 'X') → x = (false, l) := by
  intro x hx hl
  split at hx
  · exact absurd rfl (hl '-' (List.mem_cons_self _ _)).1
  · exact absurd rfl (hl '+' (List.mem_cons_self _ _)).2.1
  · exact hx.symm

theorem radixMatch_plain (l : List Char) :
    ∀ (x : Nat × List Char),
      (match l with
        | '0' :: 'x' :: r => (16, r)
        | '0' :: 'X' :: r => (16, r)
        | r => (10, r)) = x →
      (∀ c ∈ l, c ≠ '-' ∧ c ≠ '+' ∧ c ≠ 'x' ∧ c ≠ 'X') → x = (10, l) := by
  intro x hx hl
  split at hx
  · exact absurd rfl (hl 'x' (by simp)).2.2.1
  · exact absurd rfl (hl 'X' (by simp)).2.2.2
  · exact hx.symm

/-- `parseInt` on a string whose text starts with neither a sign nor a radix prefix. -/
theorem jsParseIntStr_plain (s l : List Char) (hs : s.dropWhile isJsSpace = l)
    (hl : ∀ c ∈ l, c ≠ '-' ∧ c ≠ '+' ∧ c ≠ 'x' ∧ c ≠ 'X') :
    jsParseIntStr s = (readDigits 10 l 0 false).map (fun k => (k : Int)) := by
  unfold jsParseIntStr
  rw [hs]
  simp only
  rw [signMatch_plain l _ rfl hl]
  simp only
  rw [radixMatch_plain l _ rfl hl]
  simp only
  cases readDigits 10 l 0 false <;> rfl

/-- `parseInt` on a string whose text is a minus sign followed by no radix prefix. -/
theorem jsParseIntStr_minus (s l : List Char) (hs : s.dropWhile isJsSpace = '-' :: l)
    (hl : ∀ c ∈ l, c ≠ '-' ∧ c ≠ '+' ∧ c ≠ 'x' ∧ c ≠ 'X') :
    jsParseIntStr s = (readDigits 10 l 0 false).map (fun k => - (k : Int)) := by
  unfold jsParseIntStr
  rw [hs]
  simp only
  rw [radixMatch_plain l _ rfl hl]
  simp only
  cases readDigits 10 l 0 false <;> rfl

/-- Reading back: `parseInt` of a string whose trimmed text is the canonical rendering of the
integer `n` is `n`. -/
theorem jsParseIntStr_of_trim (s : List Char) (n : Int) (h : jsTrim s = jsNumToString n) :
    jsParseIntStr s = some n := by
  obtain ⟨W, hd, hW⟩ := dropWhile_eq_trim_append s
  rw [h] at hd
  cases n with
  | ofNat k =>
    simp only [jsNumToString] at hd
    rw [jsParseIntStr_plain s _ hd (toDigits_append_chars k W hW), readDigits_toDigits k W hW]
    rfl
  | negSucc k =>
    simp only [jsNumToString, List.cons_append] at hd
    rw [jsParseIntStr_minus s _ hd (toDigits_append_chars (k + 1) W hW),
      readDigits_toDigits (k + 1) W hW]
    rfl

/-! ### Numbers up to `2 ^ 53`, and the text of an infinity -/

theorem roundToDouble_safe (k : Nat) (h : k ≤ 2 ^ 53) : roundToDouble k = some k := by
  unfold roundToDouble
  rw [if_pos h]

/-- An integer up to `2 ^ 53` in magnitude is its own Number value. -/
theorem numberValue_safe (n : Int) (h1 : -(2 ^ 53) ≤ n) (h2 : n ≤ 2 ^ 53) :
    numberValue n = .finite n := by
  cases n with
  | ofNat k =>
    have hk : k ≤ 2 ^ 53 := by
      have : (k : Int) ≤ 2 ^ 53 := h2
      exact_mod_cast this
    simp only [numberValue, roundToDouble_safe k hk]
    rfl
  | negSucc k =>
    have hk : k + 1 ≤ 2 ^ 53 := by
      have : -(2 ^ 53 : Int) ≤ Int.negSucc k := h1
      rw [Int.negSucc_eq] at this
      have h3 : ((k : Int) + 1) ≤ 2 ^ 53 := by linarith
      exact_mod_cast h3
    simp only [numberValue, roundToDouble_safe (k + 1) hk]
    rw [Int.negSucc_eq]
    push_cast
    rfl

/-- For a number up to `2 ^ 53` in magnitude `toString` gives the canonical decimal
rendering of the integer. -/
theorem numberToString_safe (n : Int) (h1 : -(2 ^ 53) ≤ n) (h2 : n ≤ 2 ^ 53) :
    numberToString (.finite n) = jsNumToString n := by
  cases n with
  | ofNat k =>
    have hk : k ≤ 2 ^ 53 := by
      have : (k : Int) ≤ 2 ^ 53 := h2
      exact_mod_cast this
    simp only [numberToString, doubleToString, jsNumToString, if_pos hk]
  | negSucc k =>
    have hk : k + 1 ≤ 2 ^ 53 := by
      have : -(2 ^ 53 : Int) ≤ Int.negSucc k := h1
      rw [Int.negSucc_eq] at this
      have h3 : ((k : Int) + 1) ≤ 2 ^ 53 := by linarith
      exact_mod_cast h3
    simp only [numberToString, doubleToString, jsNumToString, if_pos hk]

/-- `parseInt` reads no number from a string whose trimmed text is `Infinity` or
`-Infinity`. -/
theorem jsParseIntStr_infinity_text (s : List Char)
    (h : jsTrim s = "Infinity".toList ∨ jsTrim s = "-Infinity".toList) :
    jsParseIntStr s = none := by
  obtain ⟨W, hd, hW⟩ := dropWhile_eq_trim_append s
  have hI : ∀ c ∈ "Infinity".toList, c ≠ '-' ∧ c ≠ '+' ∧ c ≠ 'x' ∧ c ≠ 'X' := by decide
  have hchars : ∀ c ∈ "Infinity".toList ++ W, c ≠ '-' ∧ c ≠ '+' ∧ c ≠ 'x' ∧ c ≠ 'X' := by
    intro c hc
    rcases List.mem_append.mp hc with h1 | h1
    · exact hI c h1
    · exact ⟨(space_not_sign c (hW c h1)).1, (space_not_sign c (hW c h1)).2,
        (space_not_special c (hW c h1)).1, (space_not_special c (hW c h1)).2⟩
  have hread : readDigits 10 ("Infinity".toList ++ W) 0 false = none := by
    show readDigits 10 ('I' :: ("nfinity".toList ++ W)) 0 false = none
    have hI : digitValue 10 'I' = none := by decide
    simp only [readDigits, hI]
    rfl
  rcases h with h | h
  · rw [h] at hd
    rw [jsParseIntStr_plain s _ hd hchars, hread]
    rfl
  · rw [h] at hd
    have hd1 : s.dropWhile isJsSpace = '-' :: ("Infinity".toList ++ W) := hd
    rw [jsParseIntStr_minus s _ hd1 hchars, hread]
    rfl

/-- When `parseInt` returns an infinity, the text of that infinity is not the trimmed
argument. -/
theorem infinity_text_ne (a : HabitArg) (negative : Bool)
    (hp : jsParseInt a = .infinity negative) :
    (numberToString (.infinity negative) == jsTrim (argToString a)) = false := by
  rw [beq_eq_false_iff_ne]
  intro heq
  have hnone : jsParseIntStr (argToString a) = none := by
    apply jsParseIntStr_infinity_text
    cases negative with
    | false => left; exact heq.symm
    | true => right; exact heq.symm
  unfold jsParseInt at hp
  rw [hnone] at hp
  cases hp

/-! ### Which habit the argument names -/

/-- For a truthy argument `resolveHabit` returns the first row of `habits` that passes
`habitMatches`, and throws when there is none. -/
theorem resolveHabit_eq (db : Db) (a : HabitArg) (u : Int) (hne : argFalsy a = false) :
    resolveHabit db a u
      = match db.habits.find? (habitMatches a u) with
        | none => .thrown "Привычка не найдена"
        | some h => .returned h := by
  have hname : isIdArg a = false → habitMatches a u
      = fun h => h.name == jsTrim (argToString a) && h.user_id == u := by
    intro hid
    funext h
    simp [habitMatches, hid]
  unfold resolveHabit
  simp only [hne, Bool.false_eq_true, if_false]
  cases hp : jsParseInt a with
  | nan =>
    have hid : isIdArg a = false := by simp [isIdArg, hp]
    simp only
    rw [hname hid]
  | finite n =>
    by_cases hc : (numberToString (.finite n) == jsTrim (argToString a)) = true
    · have hid : isIdArg a = true := by simp only [isIdArg, hp, hc]
      have hfun : habitMatches a u = fun h => h.id == n && h.user_id == u := by
        funext h
        simp only [habitMatches, hid, if_true, hp]
        congr 1
        by_cases hn : h.id = n
        · simp [hn]
        · have h1 : (h.id == n) = false := by simpa using hn
          have h2 : (JsNumber.finite n == JsNumber.finite h.id) = false := by
            simp only [beq_eq_false_iff_ne, ne_eq, JsNumber.finite.injEq]
            exact fun h => hn h.symm
          rw [h1, h2]
      simp only [hc, if_true]
      rw [hfun]
    · have hcf : (numberToString (.finite n) == jsTrim (argToString a)) = false := by
        simpa using hc
      have hid : isIdArg a = false := by simp only [isIdArg, hp, hcf]
      simp only [hcf, Bool.false_eq_true, if_false]
      rw [hname hid]
  | infinity negative =>
    have hcf := infinity_text_ne a negative hp
    have hid : isIdArg a = false := by simp only [isIdArg, hp, hcf]
    simp only [hcf, Bool.false_eq_true, if_false]
    rw [hname hid]

theorem habitMatches_iff (a : HabitArg) (u : Int) (h : HabitRow) :
    habitMatches a u h = true ↔ h.user_id = u ∧ NamesHabit a h := by
  unfold habitMatches NamesHabit
  cases hid : isIdArg a with
  | true => simp [and_comm]
  | false => simp [and_comm]

/-- C21 (an unknown subject is rejected atomically): for a truthy argument that names no
habit of user `u` (no habit of `u` has the ID read from it, or the name it gives),
`markHabitComplete` throws `Привычка не найдена` and the store is as before: no tracking
entry is written, no habit's `streak` or `best_streak` changes, no xp is granted. -/
theorem markHabitComplete_unknown (db : Db) (z : Zone) (now u : Int) (a : HabitArg)
    (hne : argFalsy a = false)
    (hnone : ∀ h ∈ db.habits, h.user_id = u → ¬ NamesHabit a h) :
    (markHabitComplete db z now a u).2 = .thrown "Привычка не найдена" ∧
      (markHabitComplete db z now a u).1 = db ∧
      (markHabitComplete db z now a u).1.habit_tracking = db.habit_tracking ∧
      (markHabitComplete db z now a u).1.habits = db.habits ∧
      (markHabitComplete db z now a u).1.users = db.users := by
  have hf : db.habits.find? (habitMatches a u) = none := by
    rw [List.find?_eq_none]
    intro h hh hm
    have := (habitMatches_iff a u h).mp hm
    exact hnone h hh this.1 this.2
  have hres : resolveHabit db a u = .thrown "Привычка не найдена" := by
    rw [resolveHabit_eq db a u hne, hf]
  have hm : markHabitComplete db z now a u = (db, .thrown "Привычка не найдена") := by
    simp only [markHabitComplete, hres]
  rw [hm]
  exact ⟨rfl, rfl, rfl, rfl, rfl⟩

theorem markHabitComplete_unknown_witness :
    (markHabitComplete habitDb (fixedZone 0) 1728000000000 (.str ['8']) 1).2
        = .thrown "Привычка не найдена" ∧
      (markHabitComplete habitDb (fixedZone 0) 1728000000000 (.str ['8']) 1).1 = habitDb ∧
      (markHabitComplete habitDb (fixedZone 0) 1728000000000 (.str ['7']) 2).2
        = .thrown "Привычка не найдена" ∧
      (markHabitComplete habitDb (fixedZone 0) 1728000000000 (.str ['w', 'a', 'l', 'k']) 1).2
        = .thrown "Привычка не найдена" :=
  ⟨(markHabitComplete_unknown habitDb (fixedZone 0) 1728000000000 1 (.str ['8']) (by decide)
      (by decide)).1,
    (markHabitComplete_unknown habitDb (fixedZone 0) 1728000000000 1 (.str ['8']) (by decide)
      (by decide)).2.1,
    (markHabitComplete_unknown habitDb (fixedZone 0) 1728000000000 2 (.str ['7']) (by decide)
      (by decide)).1,
    (markHabitComplete_unknown habitDb (fixedZone 0) 1728000000000 1 (.str ['w', 'a', 'l', 'k'])
      (by decide) (by decide)).1⟩

/-- The habit `markHabitComplete` returns has the ID of the habit its argument resolved
to. -/
theorem markHabitComplete_returned (db : Db) (z : Zone) (now u : Int) (a : HabitArg) (r : MarkResult)
    (hr : (markHabitComplete db z now a u).2 = .returned r) :
    ∃ h, resolveHabit db a u = .returned h ∧ r.habit.id = h.id := by
  unfold markHabitComplete at hr
  cases hres : resolveHabit db a u with
  | thrown e => rw [hres] at hr; simp at hr
  | returned habit =>
    refine ⟨habit, rfl, ?_⟩
    have key : ∀ l : List HabitRow,
        ((l.find? (fun h => h.id == habit.id)).getD habit).id = habit.id := by
      intro l
      cases hf : l.find? (fun h => h.id == habit.id) with
      | none => rfl
      | some x =>
        have := List.find?_some hf
        simpa using this
    rw [hres] at hr
    simp only at hr
    split at hr
    · simp only [Outcome.returned.injEq] at hr
      rw [← hr]
    · split at hr
      · simp at hr
      · split at hr
        · simp at hr
        · split at hr
          · simp at hr
          · simp only [Outcome.returned.injEq] at hr
            rw [← hr]
            exact key _

/-- The trimmed text of an argument that is the canonical decimal rendering of an integer
`n` up to `2 ^ 53` in magnitude is read as the ID `n`. -/
theorem isIdArg_of_canonical (a : HabitArg) (n : Int) (h1 : -(2 ^ 53) ≤ n) (h2 : n ≤ 2 ^ 53)
    (h : jsTrim (argToString a) = jsNumToString n) :
    jsParseInt a = .finite n ∧ isIdArg a = true := by
  have hp : jsParseInt a = .finite n := by
    unfold jsParseInt
    rw [jsParseIntStr_of_trim _ n h]
    exact numberValue_safe n h1 h2
  refine ⟨hp, ?_⟩
  unfold isIdArg
  rw [hp]
  simp only
  rw [numberToString_safe n h1 h2, h]
  exact beq_self_eq_true _

/-- An argument read as the ID `n`, up to `2 ^ 53` in magnitude, has the canonical decimal
rendering of `n` as its trimmed text. -/
theorem canonical_of_isIdArg (a : HabitArg) (n : Int) (h1 : -(2 ^ 53) ≤ n) (h2 : n ≤ 2 ^ 53)
    (hp : jsParseInt a = .finite n) (hid : isIdArg a = true) :
    jsTrim (argToString a) = jsNumToString n := by
  unfold isIdArg at hid
  rw [hp] at hid
  simp only at hid
  rw [numberToString_safe n h1 h2] at hid
  exact (beq_iff_eq.mp hid).symm

/-- C27, a counterexample beyond `2 ^ 53`: the argument `1152921504606846976`.  `parseInt`
reads the integer `2 ^ 60` from it, which is a double, and the argument is the canonical
decimal rendering of that integer; but `toString` gives `1152921504606847000` for the
number, so the argument is not treated as an ID: the habit is looked up by name, and the
habit of that name is found and marked. -/
theorem habit_argument_two_pow_sixty :
    jsParseIntStr "1152921504606846976".toList = some (2 ^ 60) ∧
    jsParseInt (.str "1152921504606846976".toList) = .finite (2 ^ 60) ∧
    jsTrim (argToString (.str "1152921504606846976".toList)) = jsNumToString (2 ^ 60) ∧
    numberToString (.finite (2 ^ 60)) = "1152921504606847000".toList ∧
    isIdArg (.str "1152921504606846976".toList) = false ∧
    resolveHabit bigNameDb (.str "1152921504606846976".toList) 1
      = .returned { id := 9, user_id := 1, name := "1152921504606846976".toList,
                    streak := some 0, best_streak := some 0, active := true } ∧
    (markHabitComplete bigNameDb (fixedZone 0) 1728000000000
        (.str "1152921504606846976".toList) 1).1.habit_tracking
      = [{ habit_id := 9, user_id := 1, date := 20000, completed := true }] := by
  refine ⟨by decide, by decide, by decide, by decide,
    by decide, by decide, by decide⟩

/-- C27 (habit argument resolution): an argument that is missing or empty (`undefined`,
`null`, the empty string, and also the number `0`, which the emptiness test of the code does
not tell from them) is rejected with an error and the store is untouched.  For every other
argument: it is treated as a habit ID exactly when `parseInt` reads a number from it and
its trimmed text is the text `toString` gives for that number; for an integer `n` up to
`2 ^ 53` in magnitude this says that it is read as the ID `n` exactly when its trimmed text
is the canonical decimal rendering of `n`.  The habit resolved is the first habit owned by
the given user that has this ID, respectively this trimmed text as its name; the lookup
fails with `Привычка не найдена` exactly when the user owns no such habit; and a successful
`markHabitComplete` returns a habit with the ID of the resolved one.  `12` and ` 12 ` are
IDs, `007`, `+5`, `12abc` and `run` are not; `9007199254740992` is an ID,
`9007199254740993` (read as the number 9007199254740992) and `1152921504606846976` (whose
number prints as `1152921504606847000`) are not. -/
theorem markHabitComplete_resolution (db : Db) (z : Zone) (now u : Int) (a : HabitArg)
    (hne : argFalsy a = false) :
    (∀ b, argFalsy b = true ↔ b = .missing ∨ b = .num 0 ∨ b = .str []) ∧
    (∀ b, argFalsy b = true →
      markHabitComplete db z now b u = (db, .thrown "Укажи ID или название привычки")) ∧
    (isIdArg a = true ↔
      jsParseInt a ≠ .nan ∧ jsTrim (argToString a) = numberToString (jsParseInt a)) ∧
    (∀ n : Int, -(2 ^ 53) ≤ n → n ≤ 2 ^ 53 →
      ((jsParseInt a = .finite n ∧ isIdArg a = true) ↔
        jsTrim (argToString a) = jsNumToString n)) ∧
    (∀ h, resolveHabit db a u = .returned h ↔
      db.habits.find? (fun h => decide (h.user_id = u ∧ NamesHabit a h)) = some h) ∧
    (∀ h, resolveHabit db a u = .returned h → h ∈ db.habits ∧ h.user_id = u ∧ NamesHabit a h) ∧
    (resolveHabit db a u = .thrown "Привычка не найдена" ↔
      ∀ h ∈ db.habits, h.user_id = u → ¬ NamesHabit a h) ∧
    (∀ r, (markHabitComplete db z now a u).2 = .returned r →
      ∃ h ∈ db.habits, h.user_id = u ∧ NamesHabit a h ∧ r.habit.id = h.id) ∧
    ((∀ h ∈ db.habits, h.user_id = u → ¬ NamesHabit a h) →
      markHabitComplete db z now a u = (db, .thrown "Привычка не найдена")) ∧
    (isIdArg (.str ['1', '2']) = true ∧ isIdArg (.str [' ', '1', '2', ' ']) = true ∧
      isIdArg (.str ['0', '0', '7']) = false ∧ isIdArg (.str ['+', '5']) = false ∧
      isIdArg (.str ['1', '2', 'a', 'b', 'c']) = false ∧
      isIdArg (.str ['r', 'u', 'n']) = false) ∧
    (isIdArg (.str "9007199254740992".toList) = true ∧
      isIdArg (.str "9007199254740993".toList) = false ∧
      jsParseInt (.str "9007199254740993".toList) = .finite 9007199254740992 ∧
      isIdArg (.str "1152921504606846976".toList) = false) := by
  have hfun : habitMatches a u = fun h => decide (h.user_id = u ∧ NamesHabit a h) := by
    funext h
    rw [Bool.eq_iff_iff, habitMatches_iff]
    simp
  have heq := resolveHabit_eq db a u hne
  rw [hfun] at heq
  have hret : ∀ h, resolveHabit db a u = .returned h ↔
      db.habits.find? (fun h => decide (h.user_id = u ∧ NamesHabit a h)) = some h := by
    intro h
    rw [heq]
    cases List.find? (fun h => decide (h.user_id = u ∧ NamesHabit a h)) db.habits with
    | none => simp
    | some x => simp
  have hprops : ∀ h, resolveHabit db a u = .returned h →
      h ∈ db.habits ∧ h.user_id = u ∧ NamesHabit a h := by
    intro h hh
    have hf := (hret h).mp hh
    have h1 := List.mem_of_find?_eq_some hf
    have h2 := List.find?_some hf
    simp only [decide_eq_true_eq] at h2
    exact ⟨h1, h2.1, h2.2⟩
  have hthrow : resolveHabit db a u = .thrown "Привычка не найдена" ↔
      ∀ h ∈ db.habits, h.user_id = u → ¬ NamesHabit a h := by
    rw [heq]
    cases hf : List.find? (fun h => decide (h.user_id = u ∧ NamesHabit a h)) db.habits with
    | none =>
      simp only [true_iff]
      intro h hh hu hn
      have := List.find?_eq_none.mp hf h hh
      simp only [decide_eq_true_eq] at this
      exact this ⟨hu, hn⟩
    | some x =>
      refine ⟨fun h => by simp at h, fun hall => ?_⟩
      exfalso
      have h1 := List.mem_of_find?_eq_some hf
      have h2 := List.find?_some hf
      simp only [decide_eq_true_eq] at h2
      exact hall x h1 h2.1 h2.2
  refine ⟨?_, ?_, ?_, ?_, hret, hprops, hthrow, ?_, ?_, ?_, ?_⟩
  · intro b
    cases b with
    | missing => simp [argFalsy]
    | num n => simp [argFalsy]
    | str s => cases s <;> simp [argFalsy]
  · intro b hb
    simp only [markHabitComplete, resolveHabit, hb, if_true]
  · unfold isIdArg
    cases hp : jsParseInt a with
    | nan => simp
    | finite n =>
      simp only [ne_eq, reduceCtorEq, not_false_eq_true, true_and, beq_iff_eq]
      exact eq_comm
    | infinity b =>
      simp only [ne_eq, reduceCtorEq, not_false_eq_true, true_and, beq_iff_eq]
      exact eq_comm
  · intro n h1 h2
    exact ⟨fun h => canonical_of_isIdArg a n h1 h2 h.1 h.2,
      fun h => isIdArg_of_canonical a n h1 h2 h⟩
  · intro r hr
    obtain ⟨h, hh, hid⟩ := markHabitComplete_returned db z now u a r hr
    obtain ⟨h1, h2, h3⟩ := hprops h hh
    exact ⟨h, h1, h2, h3, hid⟩
  · intro hall
    have hres := hthrow.mpr hall
    simp only [markHabitComplete, hres]
  · decide
  · refine ⟨by decide, by decide, by decide, by decide⟩

theorem markHabitComplete_resolution_witness :
    (∀ n : Int, -(2 ^ 53) ≤ n → n ≤ 2 ^ 53 →
      ((jsParseInt (.str [' ', '7', ' ']) = .finite n ∧ isIdArg (.str [' ', '7', ' ']) = true) ↔
        jsTrim (argToString (.str [' ', '7', ' '])) = jsNumToString n)) ∧
    (∀ r, (markHabitComplete habitDb (fixedZone 0) 1728000000000
        (.str [' ', '7', ' ']) 1).2 = .returned r →
      ∃ h ∈ habitDb.habits, h.user_id = 1 ∧ NamesHabit (.str [' ', '7', ' ']) h ∧
        r.habit.id = h.id) :=
  ⟨(markHabitComplete_resolution habitDb (fixedZone 0) 1728000000000 1 (.str [' ', '7', ' '])
      (by decide)).2.2.2.1,
    (markHabitComplete_resolution habitDb (fixedZone 0) 1728000000000 1 (.str [' ', '7', ' '])
      (by decide)).2.2.2.2.2.2.2.1⟩

/-! ### messageHandler -/

theorem command_start : jsTrim (toLowerCase "/start".toList) = "/start".toList := by decide

theorem command_tasks : jsTrim (toLowerCase "/tasks".toList) = "/tasks".toList := by decide

theorem dispatch_start (sv : Services) (w : World) (now : Int) (u : JsVal) (user : UserRow)
    (o : SendOptions) :
    dispatch sv w now u user "/start".toList "/start".toList o = handleStart w u user o := by
  rfl

theorem dispatch_tasks (sv : Services) (w : World) (now : Int) (u : JsVal) (user : UserRow)
    (o : SendOptions) :
    dispatch sv w now u user "/tasks".toList "/tasks".toList o
      = handleTasks sv w u user.id o := by
  rfl

/-- C22 (handling of `/start`): for a message that carries the user id `u` and the text
`/start`, with `getOrCreateUser` resolving to `user`, `handleMessage` makes exactly two
calls: `getOrCreateUser(u)`, with the single argument `u`, and then
`sendMessageWithButtons(u, welcomeText, buttons, sendOptions)`.  The reply goes through
`sendMessageWithButtons` and no `sendMessage` call is made, as the claim says; but the
argument list of the first call is `(u)`, not `(u, null)`: no call
`getOrCreateUser(u, null)` is made. -/
theorem handleMessage_start_calls (sv : Services) (w : World) (now : Int) (m : Message)
    (user : UserRow)
    (hu : jsTruthy (jsOr m.user_id m.from_id) = true)
    (ht : m.text = some "/start".toList)
    (hres : sv.getOrCreateUser (jsOr m.user_id m.from_id) = .returned user) :
    (handleMessage sv w now m).calls
        = [.getOrCreateUser [jsOr m.user_id m.from_id],
           .sendMessageWithButtons (jsOr m.user_id m.from_id) (welcomeText user) startButtons
             { recipient := m.recipient }] ∧
      Call.getOrCreateUser [jsOr m.user_id m.from_id, .null] ∉ (handleMessage sv w now m).calls ∧
      (∀ args, Call.getOrCreateUser args ∈ (handleMessage sv w now m).calls →
        args = [jsOr m.user_id m.from_id]) ∧
      (∀ t o, Call.sendMessage (jsOr m.user_id m.from_id) t o
        ∉ (handleMessage sv w now m).calls) ∧
      (handleMessage sv w now m).world = w := by
  have hcalls : handleMessage sv w now m
      = { world := w,
          calls := [.getOrCreateUser [jsOr m.user_id m.from_id],
            .sendMessageWithButtons (jsOr m.user_id m.from_id) (welcomeText user) startButtons
              { recipient := m.recipient }],
          outcome := .returned () } := by
    unfold handleMessage
    simp only [hu, ht, Option.getD_some, command_start, Bool.not_true, Bool.false_eq_true,
      if_false, tryBlock, hres, dispatch_start, handleStart]
  rw [hcalls]
  refine ⟨rfl, ?_, ?_, ?_, rfl⟩
  · simp
  · intro args h
    simpa using h
  · intro t o
    simp

theorem handleMessage_start_calls_witness :
    (handleMessage testServices demoWorld 0 (testMessage "/start".toList)).calls
        = [.getOrCreateUser [.str "123".toList],
           .sendMessageWithButtons (.str "123".toList)
             (welcomeText { id := 1, xp := 0, level := 1 }) startButtons
             { recipient := none }] ∧
      Call.getOrCreateUser [.str "123".toList, .null]
        ∉ (handleMessage testServices demoWorld 0 (testMessage "/start".toList)).calls :=
  ⟨(handleMessage_start_calls testServices demoWorld 0 (testMessage "/start".toList)
      { id := 1, xp := 0, level := 1 } rfl rfl rfl).1,
    (handleMessage_start_calls testServices demoWorld 0 (testMessage "/start".toList)
      { id := 1, xp := 0, level := 1 } rfl rfl rfl).2.1⟩

/-- The first call of `handleTasks` is `getUserTasks(dbUserId)`, it is the only call of
`getUserTasks`, and every other call is a `sendMessage`. -/
theorem handleTasks_calls (sv : Services) (w : World) (u : JsVal) (n : Int) (o : SendOptions) :
    (handleTasks sv w u n o).calls.head? = some (.getUserTasks [.num n]) ∧
      (∀ args, Call.getUserTasks args ∈ (handleTasks sv w u n o).calls → args = [.num n]) := by
  unfold handleTasks
  cases sv.getUserTasks n with
  | thrown e => simp
  | returned tasks =>
    by_cases h : tasks.length = 0
    · simp [h]
    · simp [h]

/-- C23 (handling of `/tasks`): for a message that carries a user id and the text `/tasks`,
with `getOrCreateUser` resolving to a user with database id `n`, the second call
`handleMessage` makes, after `getOrCreateUser`, is `getUserTasks(n)`, with the single
argument `n`: every `getUserTasks` call has the argument list `(n)`, and no call
`getUserTasks(n, null)` is made. -/
theorem handleMessage_tasks_calls (sv : Services) (w : World) (now : Int) (m : Message)
    (user : UserRow)
    (hu : jsTruthy (jsOr m.user_id m.from_id) = true)
    (ht : m.text = some "/tasks".toList)
    (hres : sv.getOrCreateUser (jsOr m.user_id m.from_id) = .returned user) :
    (handleMessage sv w now m).calls[0]? = some (.getOrCreateUser [jsOr m.user_id m.from_id]) ∧
      (handleMessage sv w now m).calls[1]? = some (.getUserTasks [.num user.id]) ∧
      (∀ args, Call.getUserTasks args ∈ (handleMessage sv w now m).calls →
        args = [.num user.id]) ∧
      Call.getUserTasks [.num user.id, .null] ∉ (handleMessage sv w now m).calls := by
  have htry : tryBlock sv w now m (jsOr m.user_id m.from_id) "/tasks".toList "/tasks".toList
      = { handleTasks sv w (jsOr m.user_id m.from_id) user.id { recipient := m.recipient } with
          calls := .getOrCreateUser [jsOr m.user_id m.from_id] ::
            (handleTasks sv w (jsOr m.user_id m.from_id) user.id
              { recipient := m.recipient }).calls } := by
    simp only [tryBlock, hres, dispatch_tasks]
  obtain ⟨hhead, honly⟩ :=
    handleTasks_calls sv w (jsOr m.user_id m.from_id) user.id { recipient := m.recipient }
  have hshape : ∃ rest, (handleMessage sv w now m).calls
      = .getOrCreateUser [jsOr m.user_id m.from_id] ::
          ((handleTasks sv w (jsOr m.user_id m.from_id) user.id
              { recipient := m.recipient }).calls ++ rest) ∧
        ∀ c ∈ rest, isSend c = true := by
    unfold handleMessage
    simp only [hu, ht, Option.getD_some, command_tasks, Bool.not_true, Bool.false_eq_true,
      if_false, htry]
    cases (handleTasks sv w (jsOr m.user_id m.from_id) user.id
        { recipient := m.recipient }).outcome with
    | returned v => exact ⟨[], by simp, by simp⟩
    | thrown e => exact ⟨_, rfl, by simp [isSend]⟩
  obtain ⟨rest, hc, hrest⟩ := hshape
  have hall : ∀ args, Call.getUserTasks args ∈ (handleMessage sv w now m).calls →
      args = [.num user.id] := by
    intro args hin
    rw [hc] at hin
    rcases List.mem_cons.mp hin with h | h
    · cases h
    · rcases List.mem_append.mp h with h | h
      · exact honly args h
      · have := hrest _ h
        simp [isSend] at this
  refine ⟨?_, ?_, hall, ?_⟩
  · rw [hc]; simp
  · rw [hc]
    cases hl : (handleTasks sv w (jsOr m.user_id m.from_id) user.id
        { recipient := m.recipient }).calls with
    | nil => rw [hl] at hhead; simp at hhead
    | cons c cs =>
      rw [hl] at hhead
      simp only [List.head?_cons, Option.some.injEq] at hhead
      rw [hhead]
      simp
  · intro hin
    have := hall _ hin
    simp at this

theorem handleMessage_tasks_calls_witness :
    (handleMessage testServices demoWorld 0 (testMessage "/tasks".toList)).calls[1]?
        = some (.getUserTasks [.num 1]) ∧
      Call.getUserTasks [.num 1, .null]
        ∉ (handleMessage testServices demoWorld 0 (testMessage "/tasks".toList)).calls :=
  ⟨(handleMessage_tasks_calls testServices demoWorld 0 (testMessage "/tasks".toList)
      { id := 1, xp := 0, level := 1 } rfl rfl rfl).2.1,
    (handleMessage_tasks_calls testServices demoWorld 0 (testMessage "/tasks".toList)
      { id := 1, xp := 0, level := 1 } rfl rfl rfl).2.2.2⟩

/-- C24 (already running is a no-op with the remaining time): for a user with an entry in
`activeTimers`, a start command (a text whose lower-cased, trimmed form is `/pomodoro`,
`/pomodoro start` or `помидор`) makes `handlePomodoro` call `getActivePomodoro` and then send
exactly one message, whose text contains the `formatted` remaining time of the session at
that instant; `startPomodoro` is not called, the handler returns, and the world, with the
registry, the pending timers and the stored sessions, is as before. -/
theorem handlePomodoro_already_running (w : World) (now : Int) (userId : JsVal)
    (dbUserId : Int) (text : List Char) (o : SendOptions) (entry : TimerEntry)
    (hcmd : jsTrim (toLowerCase text) = "/pomodoro".toList ∨
      jsTrim (toLowerCase text) = "/pomodoro start".toList ∨
      jsTrim (toLowerCase text) = "помидор".toList)
    (hact : mapGet w.activeTimers dbUserId = some entry) :
    ∃ active, (getActivePomodoro w now dbUserId).2 = some active ∧
      active.sessionId = entry.sessionId ∧
      active.remaining = max 0 (entry.endTime - now) ∧
      (handlePomodoro w now userId dbUserId text o).calls
        = [.getActivePomodoro [.num dbUserId],
           .sendMessage userId (alreadyActiveText active) o] ∧
      (∃ pre post, alreadyActiveText active = pre ++ formatted active ++ post) ∧
      ((handlePomodoro w now userId dbUserId text o).calls.filter isSend).length = 1 ∧
      (∀ args, Call.startPomodoro args ∉ (handlePomodoro w now userId dbUserId text o).calls) ∧
      (handlePomodoro w now userId dbUserId text o).outcome = .returned () ∧
      (handlePomodoro w now userId dbUserId text o).world = w ∧
      (handlePomodoro w now userId dbUserId text o).world.activeTimers = w.activeTimers ∧
      (handlePomodoro w now userId dbUserId text o).world.db.pomodoro_sessions
        = w.db.pomodoro_sessions := by
  have hcond : (jsTrim (toLowerCase text) == "/pomodoro".toList ||
      jsTrim (toLowerCase text) == "/pomodoro start".toList ||
      jsTrim (toLowerCase text) == "помидор".toList) = true := by
    rcases hcmd with h | h | h <;> rw [h] <;> decide
  have hget : getActivePomodoro w now dbUserId
      = (w, some { sessionId := entry.sessionId, remaining := max 0 (entry.endTime - now),
                   remainingMinutes := mathFloorDiv (max 0 (entry.endTime - now)) 60000,
                   remainingSeconds :=
                     mathFloorDiv (max 0 (entry.endTime - now) % 60000) 1000 }) := by
    simp only [getActivePomodoro, hact]
  have hrun : handlePomodoro w now userId dbUserId text o
      = { world := w,
          calls := [.getActivePomodoro [.num dbUserId],
            .sendMessage userId (alreadyActiveText
              { sessionId := entry.sessionId, remaining := max 0 (entry.endTime - now),
                remainingMinutes := mathFloorDiv (max 0 (entry.endTime - now)) 60000,
                remainingSeconds :=
                  mathFloorDiv (max 0 (entry.endTime - now) % 60000) 1000 }) o],
          outcome := .returned () } := by
    unfold handlePomodoro
    simp only [hcond, if_true, hget]
  refine ⟨_, by rw [hget], rfl, rfl, by rw [hrun], ?_, by rw [hrun]; rfl, ?_, by rw [hrun],
    by rw [hrun], by rw [hrun], by rw [hrun]⟩
  · exact ⟨_, _, by unfold alreadyActiveText; rw [List.append_assoc, List.append_assoc]⟩
  · intro args
    rw [hrun]
    simp

theorem handlePomodoro_already_running_witness :
    (handlePomodoro demoRunning 61000 (.str "123".toList) 1 "/pomodoro".toList
        { recipient := none }).calls
      = [.getActivePomodoro [.num 1],
         .sendMessage (.str "123".toList)
           ("⏱️ У тебя уже есть активная Pomodoro сессия!".toList ++ [lf, lf] ++
            "Осталось: 24:00".toList ++ [lf, lf] ++
            "Используй /pomodoro stop чтобы остановить".toList)
           { recipient := none }] ∧
      (handlePomodoro demoRunning 61000 (.str "123".toList) 1 "/pomodoro".toList
        { recipient := none }).world = demoRunning := by
  obtain ⟨active, hget, _, _, hcalls, _, _, _, _, hworld, _, _⟩ :=
    handlePomodoro_already_running demoRunning 61000 (.str "123".toList) 1
      "/pomodoro".toList { recipient := none }
      { sessionId := 1, timerId := 0, endTime := 1501000 } (Or.inl (by decide)) (by decide)
  refine ⟨?_, hworld⟩
  rw [hcalls]
  have ha : active = { sessionId := 1, remaining := 1440000, remainingMinutes := 24,
                       remainingSeconds := 0 } := by
    have h2 : (getActivePomodoro demoRunning 61000 1).2
        = some { sessionId := 1, remaining := 1440000, remainingMinutes := 24,
                 remainingSeconds := 0 } := by decide
    rw [h2] at hget
    exact (Option.some.inj hget).symm
  rw [ha]
  decide
